import Mathlib

/-!
# ethrpc: the wire types of `types.go`

A shallow embedding of `types.go` (package `ethrpc`): the call descriptor `T` and its
`MarshalJSON`, the records `Syncing`, `Transaction`, `Block`, their wire proxies, and the
`UnmarshalJSON` / `toBlock` conversions.

Conventions of the embedding.

* Go `int` (64 bit) and `big.Int` are `Int`; a pointer `*int` / `*big.Int` is an `Option`.
* A Go slice is the `List` of its elements (a nil slice and an empty slice are both `[]`).
* A method with a pointer receiver takes the receiver's old value and returns the new one
  together with the returned `error` (`none` is Go's `nil`).
* A payload (`data []byte`) is given by its parse tree `JSON`; string and number tokens keep
  their source text, and `JSON.raw` is the text of the payload without insignificant
  white space. `encoding/json` is modelled on these trees, as far as `types.go` uses it.
* Lean strings are sequences of Unicode scalar values, so every Go string of the model is
  valid UTF-8.
-/

namespace Ethrpc

/-! ## Characters and JSON text -/

/-- The double quote character. -/
def dq : Char := Char.ofNat 34

/-- The backslash character. -/
def bsl : Char := Char.ofNat 92

/-- A JSON value as it stands in a payload. `number` and `string` carry the token's source
text (for a string: the text between the quotes, escapes not yet resolved); the keys of an
object are kept the same way. -/
inductive JSON where
  | null
  | bool (b : Bool)
  | number (text : String)
  | string (text : String)
  | array (items : List JSON)
  | object (members : List (String × JSON))

mutual
/-- The text of a JSON value (no white space between tokens): the bytes a decoder hands to
an `UnmarshalJSON` method for this value. -/
def JSON.raw : JSON → List Char
  | .null => ['n', 'u', 'l', 'l']
  | .bool true => ['t', 'r', 'u', 'e']
  | .bool false => ['f', 'a', 'l', 's', 'e']
  | .number t => t.toList
  | .string t => dq :: (t.toList ++ [dq])
  | .array xs => '[' :: (JSON.rawItems xs ++ [']'])
  | .object ms => Char.ofNat 123 :: (JSON.rawMembers ms ++ [Char.ofNat 125])
/-- The elements of an array, separated by commas. -/
def JSON.rawItems : List JSON → List Char
  | [] => []
  | [x] => x.raw
  | x :: y :: r => x.raw ++ ',' :: JSON.rawItems (y :: r)
/-- The members of an object, separated by commas. -/
def JSON.rawMembers : List (String × JSON) → List Char
  | [] => []
  | [(k, v)] => dq :: (k.toList ++ dq :: ':' :: v.raw)
  | (k, v) :: m :: r =>
      dq :: (k.toList ++ dq :: ':' :: v.raw) ++ ',' :: JSON.rawMembers (m :: r)
end

/-- The bytes of a payload. -/
def JSON.bytes (v : JSON) : String := String.mk v.raw

/-- Lower-case hexadecimal digit of a number below 16. -/
def hexChar (n : Nat) : Char := Nat.digitChar n

/-- Go `encoding/json`, `appendString` with HTML escaping (the setting of `json.Marshal`),
for one character: the quote and the backslash get a backslash, the control characters,
`<`, `>`, `&`, U+2028 and U+2029 are written as escapes, everything else is copied. -/
def appendChar (c : Char) : List Char :=
  let n := c.toNat
  if n = 34 ∨ n = 92 then [bsl, c]
  else if n = 8 then [bsl, 'b']
  else if n = 12 then [bsl, 'f']
  else if n = 10 then [bsl, 'n']
  else if n = 13 then [bsl, 'r']
  else if n = 9 then [bsl, 't']
  else if n < 32 ∨ n = 60 ∨ n = 62 ∨ n = 38 then
    [bsl, 'u', '0', '0', hexChar (n / 16), hexChar (n % 16)]
  else if n = 8232 ∨ n = 8233 then [bsl, 'u', '2', '0', '2', hexChar (n % 16)]
  else [c]

/-- Go `encoding/json`, `appendString`: the source text of the JSON string that holds the
Go string `s` (the text between the quotes). -/
def appendString (s : String) : String := String.mk (s.toList.flatMap appendChar)

/-- Value of a hexadecimal digit, either case. -/
def hexVal (c : Char) : Option Nat :=
  let n := c.toNat
  if 48 ≤ n ∧ n ≤ 57 then some (n - 48)
  else if 97 ≤ n ∧ n ≤ 102 then some (n - 87)
  else if 65 ≤ n ∧ n ≤ 70 then some (n - 55)
  else none

/-- Go `encoding/json`, `getu4`: the code unit written by the four hex digits of a
`\u` escape. -/
def getu4 (a b c d : Char) : Option Nat :=
  match hexVal a, hexVal b, hexVal c, hexVal d with
  | some x, some y, some z, some w => some (((x * 16 + y) * 16 + z) * 16 + w)
  | _, _, _, _ => none

/-- The Unicode replacement character U+FFFD. -/
def replacementChar : Char := Char.ofNat 65533

/-- Characters that a pending high surrogate contributes when no low surrogate follows. -/
def flushPending : Option Nat → List Char
  | none => []
  | some _ => [replacementChar]

/-- Go `encoding/json`, `unquoteBytes`, on the text between the quotes: escapes are
resolved; a `\u` escape that is a high surrogate waits in `pending` for a low surrogate
right after it, and an unpaired surrogate becomes U+FFFD. On text that is not a valid JSON
string token (which a payload never holds) the remaining characters are copied. -/
def unquoteChars : Option Nat → List Char → List Char
  | pending, [] => flushPending pending
  | pending, c :: tl =>
    if c = bsl then
      match tl with
      | [] => flushPending pending ++ [c]
      | e :: rest =>
        if e = 'u' then
          match rest with
          | h1 :: h2 :: h3 :: h4 :: rest4 =>
            match getu4 h1 h2 h3 h4 with
            | none => flushPending pending ++ c :: e :: rest
            | some u =>
              if 56320 ≤ u ∧ u < 57344 then
                match pending with
                | some hi =>
                  Char.ofNat ((hi - 55296) * 1024 + (u - 56320) + 65536) ::
                    unquoteChars none rest4
                | none => replacementChar :: unquoteChars none rest4
              else if 55296 ≤ u ∧ u < 56320 then
                flushPending pending ++ unquoteChars (some u) rest4
              else flushPending pending ++ Char.ofNat u :: unquoteChars none rest4
          | _ => flushPending pending ++ c :: e :: rest
        else
          let r :=
            if e = 'b' then Char.ofNat 8
            else if e = 'f' then Char.ofNat 12
            else if e = 'n' then Char.ofNat 10
            else if e = 'r' then Char.ofNat 13
            else if e = 't' then Char.ofNat 9
            else e
          flushPending pending ++ r :: unquoteChars none rest
    else flushPending pending ++ c :: unquoteChars none tl

/-- The Go string held by a JSON string token with source text `text`. -/
def unquote (text : String) : String := String.mk (unquoteChars none text.toList)

/-- Go `encoding/json`, `foldName`, for one character, as far as matching against the
ASCII field names of `types.go` goes: ASCII letters are upper-cased, and the two non-ASCII
characters whose case fold is an ASCII letter, U+017F and U+212A, go to `S` and `K`. (Any
other non-ASCII character folds to a non-ASCII character and so matches no field name.) -/
def foldChar (c : Char) : Char :=
  let n := c.toNat
  if 97 ≤ n ∧ n ≤ 122 then Char.ofNat (n - 32)
  else if n = 383 then 'S'
  else if n = 8490 then 'K'
  else c

/-- Go `encoding/json`, `foldName`. -/
def foldName (s : String) : List Char := s.toList.map foldChar

/-- Go `encoding/json`, field lookup of the struct decoder: the field whose JSON name is
the key, and failing that the first field whose name equals the key up to case folding. -/
def lookupField (names : List String) (key : String) : Option String :=
  match names.find? (fun n => n == key) with
  | some n => some n
  | none => names.find? (fun n => foldName n == foldName key)

/-! ## Errors -/

/-- The errors of the decoders. `UnmarshalTypeError` is the error of `encoding/json` for
a JSON value of kind `value` met where the Go type `goType` cannot take it (its offset and
field context, which only locate the error, are left out). `MalformedHex` and `Overflow`
are the errors of the hex parsers. -/
inductive error where
  | UnmarshalTypeError (value : String) (goType : String)
  | MalformedHex
  | Overflow
  deriving DecidableEq, Repr

/-- Go `encoding/json`, `saveError`: the first type error is kept and decoding goes on. -/
def saveError (saved : Option error) (e : error) : Option error :=
  match saved with
  | none => some e
  | some s => some s

/-! ## The hex helpers (`ParseInt`, `ParseBigInt`, `IntToHex`, `BigToHex`) -/

/-- Largest value of a Go `int` (64 bit). -/
def maxInt : Nat := 2 ^ 63 - 1

/-- Value of a non-empty run of hexadecimal digits, most significant first. -/
def hexDigitsValue : List Char → Nat → Option Nat
  | [], acc => some acc
  | c :: cs, acc =>
    match hexVal c with
    | some d => hexDigitsValue cs (acc * 16 + d)
    | none => none

/-- Value of a hex numeral `0x[0-9a-fA-F]+`, `none` for any other text. -/
def parseHex : List Char → Option Nat
  | '0' :: 'x' :: d :: ds => hexDigitsValue (d :: ds) 0
  | _ => none

/-- Modelled from the spec: the helper `ParseInt` is called by `types.go` but defined in
another file of the package. Spec §4.1 `decode_uint`: the text must be a `0x`-prefixed hex
numeral (leading zeros accepted), else the call fails with `MalformedHex`; a value that
exceeds the destination width (Go `int`, 64 bit) fails with `Overflow`. The integer
returned next to an error is 0. -/
def ParseInt (value : String) : Int × Option error :=
  match parseHex value.toList with
  | none => (0, some error.MalformedHex)
  | some n => if n ≤ maxInt then (Int.ofNat n, none) else (0, some error.Overflow)

/-- Modelled from the spec: the helper `ParseBigInt` is called by `types.go` but defined in
another file of the package. Spec §4.1 `decode_bigint`: same validation as `decode_uint`,
no overflow case. The integer returned next to an error is 0. -/
def ParseBigInt (value : String) : Int × Option error :=
  match parseHex value.toList with
  | none => (0, some error.MalformedHex)
  | some n => (Int.ofNat n, none)

/-- The canonical hex numeral of a natural number: `0x`, then lower-case digits without
leading zeros; zero is `0x0`. -/
def hexNumeral (n : Nat) : String := String.mk ('0' :: 'x' :: Nat.toDigits 16 n)

/-- Modelled from the spec: the helper `IntToHex` is called by `types.go` but defined in
another file of the package. Spec §4.1 `encode_uint`: the canonical `0x`-prefixed
lower-case hex numeral with no leading zero digits, zero being `0x0`. The spec gives the
numeral of a non-negative value only (§7); for a negative value the model writes the
numeral of its magnitude. -/
def IntToHex (i : Int) : String := hexNumeral i.natAbs

/-- Modelled from the spec: the helper `BigToHex` is called by `types.go` but defined in
another file of the package. Spec §4.1 `encode_bigint`: as `encode_uint`, for a big
integer. -/
def BigToHex (bigInt : Int) : String := hexNumeral bigInt.natAbs

/-! ## Encoding: the call descriptor `T` -/

/-- A Go `map[string]interface{}` whose values are strings (the only values `types.go`
stores): the entries, at most one per key. -/
abbrev Params := List (String × String)

/-- Go map assignment `params[k] = v`. -/
def Params.set (params : Params) (k v : String) : Params :=
  (k, v) :: params.filter (fun e => e.1 != k)

/-- Go `strings.Compare(a, b) < 0`: byte-wise order of two strings, which for valid UTF-8
is the lexicographic order of the code points. -/
def ltChars : List Char → List Char → Bool
  | [], [] => false
  | [], _ :: _ => true
  | _ :: _, [] => false
  | a :: as, b :: bs =>
    if a.toNat < b.toNat then true
    else if b.toNat < a.toNat then false
    else ltChars as bs

/-- Order of the entries in the output of `json.Marshal` for a map: `encoding/json` sorts
the entries by key. -/
def keyLE (a b : String × String) : Prop := ltChars b.1.toList a.1.toList = false

instance : DecidableRel keyLE :=
  fun a b => inferInstanceAs (Decidable (ltChars b.1.toList a.1.toList = false))

/-- The JSON object that `json.Marshal` writes for a map of strings: the entries sorted by
key, each key and each value written as a JSON string. -/
def json.marshalMap (params : Params) : JSON :=
  JSON.object ((params.insertionSort keyLE).map
    (fun e => (appendString e.1, JSON.string (appendString e.2))))

/-- Go `json.Marshal` on a map of strings: the bytes of the object, and no error. -/
def json.Marshal (params : Params) : String × Option error :=
  ((json.marshalMap params).bytes, none)

/-- The members of a JSON object (none for any other value). -/
def JSON.members : JSON → List (String × JSON)
  | .object ms => ms
  | _ => []

/-- The Go string held by a JSON value that is a string. -/
def JSON.stringValue : JSON → Option String
  | .string text => some (unquote text)
  | _ => none

/-- T - input transaction object (`types.go`, `type T struct`). -/
structure T where
  From : String := ""
  To : String := ""
  Gas : Int := 0
  GasPrice : Option Int := none
  Value : Option Int := none
  Data : String := ""
  Nonce : Int := 0

/-- The map `params` that `T.MarshalJSON` fills before it calls `json.Marshal`. -/
def T.params (t : T) : Params :=
  let params : Params := []
  let params := if t.To ≠ "" then params.set "to" t.To else params
  let params := if t.From ≠ "" then params.set "from" t.From else params
  let params := if t.Gas > 0 then params.set "gas" (IntToHex t.Gas) else params
  let params :=
    match t.GasPrice with
    | some gasPrice => params.set "gasPrice" (BigToHex gasPrice)
    | none => params
  let params :=
    match t.Value with
    | some value => params.set "value" (BigToHex value)
    | none => params
  let params := if t.Data ≠ "" then params.set "data" t.Data else params
  let params := if t.Nonce > 0 then params.set "nonce" (IntToHex t.Nonce) else params
  params

/-- `func (t T) MarshalJSON() ([]byte, error)`. -/
def T.MarshalJSON (t : T) : String × Option error :=
  json.Marshal (T.params t)

/-- The JSON object whose bytes `T.MarshalJSON` returns. -/
def T.object (t : T) : JSON := json.marshalMap (T.params t)

/-! ## Decoding: `encoding/json` as `types.go` uses it -/

/-- The word by which `encoding/json` names the kind of a JSON value in its type errors. -/
def JSON.kind : JSON → String
  | .null => "null"
  | .bool _ => "bool"
  | .number _ => "number"
  | .string _ => "string"
  | .array _ => "array"
  | .object _ => "object"

/-- Go `bytes.Trim(data, "\"")`: every leading and every trailing double quote is cut. -/
def trimQuotes (data : List Char) : List Char :=
  ((data.dropWhile (fun c => c == dq)).reverse.dropWhile (fun c => c == dq)).reverse

/-- `type hexInt int`. -/
abbrev hexInt := Int

/-- `type hexBig big.Int`. -/
abbrev hexBig := Int

/-- `func (i *hexInt) UnmarshalJSON(data []byte) error`: the receiver takes the result of
`ParseInt` whatever the error is. -/
def hexInt.UnmarshalJSON (_i : hexInt) (data : String) : hexInt × Option error :=
  let (result, err) := ParseInt (String.mk (trimQuotes data.toList))
  (result, err)

/-- `func (i *hexBig) UnmarshalJSON(data []byte) error`. -/
def hexBig.UnmarshalJSON (_i : hexBig) (data : String) : hexBig × Option error :=
  let (result, err) := ParseBigInt (String.mk (trimQuotes data.toList))
  (result, err)

/-- Outcome of decoding into a Go value: `error e` when an `UnmarshalJSON` method returned
`e` (decoding stops at once), else the new value and the saved type error, if any. -/
abbrev Decoded (σ : Type) := Except error (σ × Option error)

/-- Decoding into a field of type `string`: a JSON string is unquoted and stored, `null`
leaves the field as it is, any other value is a type error and leaves the field as it is. -/
def decodeString (cur : String) (saved : Option error) (v : JSON) : Decoded String :=
  match v with
  | .string text => .ok (unquote text, saved)
  | .null => .ok (cur, saved)
  | v => .ok (cur, saveError saved (error.UnmarshalTypeError v.kind "string"))

/-- Decoding into a field of type `hexInt`: whatever the value is (`null` included), its
bytes go to `hexInt.UnmarshalJSON`, and an error it returns stops the decoding. -/
def decodeHexInt (cur : hexInt) (saved : Option error) (v : JSON) : Decoded hexInt :=
  match hexInt.UnmarshalJSON cur v.bytes with
  | (i, none) => .ok (i, saved)
  | (_, some err) => .error err

/-- Decoding into a field of type `hexBig`, as for `hexInt`. -/
def decodeHexBig (cur : hexBig) (saved : Option error) (v : JSON) : Decoded hexBig :=
  match hexBig.UnmarshalJSON cur v.bytes with
  | (i, none) => .ok (i, saved)
  | (_, some err) => .error err

/-- Decoding into a field of type `*hexInt`: `null` sets the pointer to nil; for any other
value a nil pointer is allocated and the bytes go to `hexInt.UnmarshalJSON`. -/
def decodeHexIntPtr (cur : Option hexInt) (saved : Option error) (v : JSON) :
    Decoded (Option hexInt) :=
  match v with
  | .null => .ok (none, saved)
  | v =>
    match hexInt.UnmarshalJSON (cur.getD 0) v.bytes with
    | (i, none) => .ok (some i, saved)
    | (_, some err) => .error err

/-- The members of an object decoded one after the other into a struct; `setField` decodes
one member, given the unquoted key. -/
def decodeMembers {σ : Type} (setField : σ → Option error → String → JSON → Decoded σ) :
    List (String × JSON) → σ → Option error → Decoded σ
  | [], p, saved => .ok (p, saved)
  | (k, v) :: ms, p, saved =>
    match setField p saved (unquote k) v with
    | .error err => .error err
    | .ok (p1, saved1) => decodeMembers setField ms p1 saved1

/-- Decoding into a struct without an `UnmarshalJSON` method: an object is decoded member
by member, `null` leaves the struct as it is, any other value is a type error. -/
def decodeStruct {σ : Type} (goType : String)
    (setField : σ → Option error → String → JSON → Decoded σ)
    (p : σ) (saved : Option error) (v : JSON) : Decoded σ :=
  match v with
  | .object ms => decodeMembers setField ms p saved
  | .null => .ok (p, saved)
  | v => .ok (p, saveError saved (error.UnmarshalTypeError v.kind goType))

/-- The elements of an array decoded one after the other; element `i` is decoded into the
slot `i` of the backing array `store`, or into a zero value when the array is longer. -/
def decodeElems {α : Type} (elem : α → Option error → JSON → Decoded α) (zero : α) :
    List JSON → List α → Option error → Decoded (List α)
  | [], _, saved => .ok ([], saved)
  | x :: xs, store, saved =>
    match elem (store.headD zero) saved x with
    | .error err => .error err
    | .ok (a, saved1) =>
      match decodeElems elem zero xs store.tail saved1 with
      | .error err => .error err
      | .ok (as, saved2) => .ok (a :: as, saved2)

/-- A slice while it is being decoded into: its elements, and the slots of its backing
array beyond its length (`encoding/json` decodes an element into the slot that is already
there, so what an earlier member of the same name left in it shows through). -/
structure Slots (α : Type) where
  elems : List α := []
  spare : List α := []

/-- Decoding into a field of slice type: `null` and the empty array give a fresh empty
slice; an array is decoded element by element into the backing array and the length is
set to the number of elements; any other value is a type error. -/
def decodeSlice {α : Type} (goType : String) (elem : α → Option error → JSON → Decoded α)
    (zero : α) (cur : Slots α) (saved : Option error) (v : JSON) : Decoded (Slots α) :=
  match v with
  | .null => .ok ({}, saved)
  | .array [] => .ok ({}, saved)
  | .array items =>
    match decodeElems elem zero items (cur.elems ++ cur.spare) saved with
    | .error err => .error err
    | .ok (as, saved1) =>
      .ok ({ elems := as, spare := (cur.elems ++ cur.spare).drop items.length }, saved1)
  | v => .ok (cur, saveError saved (error.UnmarshalTypeError v.kind goType))

/-- Go `json.Unmarshal`, its return: the error of an `UnmarshalJSON` method, else the saved
type error, else nil. The decoded value is given only when there is no error: after an
error every caller in `types.go` returns without reading the proxy. -/
def json.result {σ : Type} : Decoded σ → Except error σ
  | .error err => .error err
  | .ok (_, some err) => .error err
  | .ok (p, none) => .ok p

/-! ## The records and their wire proxies -/

/-- Syncing - object with syncing data info. -/
structure Syncing where
  IsSyncing : Bool := false
  StartingBlock : Int := 0
  CurrentBlock : Int := 0
  HighestBlock : Int := 0
  deriving DecidableEq, Repr

/-- Transaction - transaction object. -/
structure Transaction where
  Hash : String := ""
  Nonce : Int := 0
  BlockHash : String := ""
  BlockNumber : Option Int := none
  TransactionIndex : Option Int := none
  From : String := ""
  To : String := ""
  Value : Int := 0
  Gas : Int := 0
  GasPrice : Int := 0
  Input : String := ""
  deriving DecidableEq, Repr

/-- Block - block object. -/
structure Block where
  Number : Int := 0
  Hash : String := ""
  ParentHash : String := ""
  Nonce : String := ""
  Sha3Uncles : String := ""
  LogsBloom : String := ""
  TransactionsRoot : String := ""
  StateRoot : String := ""
  Miner : String := ""
  Difficulty : Int := 0
  TotalDifficulty : Int := 0
  ExtraData : String := ""
  Size : Int := 0
  GasLimit : Int := 0
  GasUsed : Int := 0
  Timestamp : Int := 0
  Uncles : List String := []
  Transactions : List Transaction := []
  deriving DecidableEq, Repr

/-- `type proxySyncing struct`; `IsSyncing` has the tag `json:"-"` and is no JSON field. -/
structure proxySyncing where
  IsSyncing : Bool := false
  StartingBlock : hexInt := 0
  CurrentBlock : hexInt := 0
  HighestBlock : hexInt := 0
  deriving DecidableEq, Repr

/-- `type proxyTransaction struct`. -/
structure proxyTransaction where
  Hash : String := ""
  Nonce : hexInt := 0
  BlockHash : String := ""
  BlockNumber : Option hexInt := none
  TransactionIndex : Option hexInt := none
  From : String := ""
  To : String := ""
  Value : hexBig := 0
  Gas : hexInt := 0
  GasPrice : hexBig := 0
  Input : String := ""
  deriving DecidableEq, Repr

/-- `type proxyBlockWithTransactions struct`. -/
structure proxyBlockWithTransactions where
  Number : hexInt := 0
  Hash : String := ""
  ParentHash : String := ""
  Nonce : String := ""
  Sha3Uncles : String := ""
  LogsBloom : String := ""
  TransactionsRoot : String := ""
  StateRoot : String := ""
  Miner : String := ""
  Difficulty : hexBig := 0
  TotalDifficulty : hexBig := 0
  ExtraData : String := ""
  Size : hexInt := 0
  GasLimit : hexInt := 0
  GasUsed : hexInt := 0
  Timestamp : hexInt := 0
  Uncles : List String := []
  Transactions : List proxyTransaction := []
  deriving DecidableEq, Repr

/-- `type proxyBlockWithoutTransactions struct`. -/
structure proxyBlockWithoutTransactions where
  Number : hexInt := 0
  Hash : String := ""
  ParentHash : String := ""
  Nonce : String := ""
  Sha3Uncles : String := ""
  LogsBloom : String := ""
  TransactionsRoot : String := ""
  StateRoot : String := ""
  Miner : String := ""
  Difficulty : hexBig := 0
  TotalDifficulty : hexBig := 0
  ExtraData : String := ""
  Size : hexInt := 0
  GasLimit : hexInt := 0
  GasUsed : hexInt := 0
  Timestamp : hexInt := 0
  Uncles : List String := []
  Transactions : List String := []
  deriving DecidableEq, Repr

/-! ## `json.Unmarshal` into the proxies -/

/-- The JSON names of the fields of `proxySyncing`. -/
def proxySyncing.fields : List String := ["startingBlock", "currentBlock", "highestBlock"]

/-- One member of an object decoded into a `proxySyncing`. -/
def proxySyncing.setField (p : proxySyncing) (saved : Option error) (key : String)
    (v : JSON) : Decoded proxySyncing :=
  match lookupField proxySyncing.fields key with
  | none => .ok (p, saved)
  | some f =>
    if f = "startingBlock" then
      (decodeHexInt p.StartingBlock saved v).map
        (fun r => ({ p with StartingBlock := r.1 }, r.2))
    else if f = "currentBlock" then
      (decodeHexInt p.CurrentBlock saved v).map
        (fun r => ({ p with CurrentBlock := r.1 }, r.2))
    else
      (decodeHexInt p.HighestBlock saved v).map
        (fun r => ({ p with HighestBlock := r.1 }, r.2))

/-- `json.Unmarshal(data, proxy)` for a `*proxySyncing`. -/
def unmarshalProxySyncing (data : JSON) (proxy : proxySyncing) : Except error proxySyncing :=
  json.result (decodeStruct "ethrpc.proxySyncing" proxySyncing.setField proxy none data)

/-- The JSON names of the fields of `proxyTransaction`. -/
def proxyTransaction.fields : List String :=
  ["hash", "nonce", "blockHash", "blockNumber", "transactionIndex", "from", "to", "value",
    "gas", "gasPrice", "input"]

/-- One member of an object decoded into a `proxyTransaction`. -/
def proxyTransaction.setField (p : proxyTransaction) (saved : Option error) (key : String)
    (v : JSON) : Decoded proxyTransaction :=
  match lookupField proxyTransaction.fields key with
  | none => .ok (p, saved)
  | some f =>
    if f = "hash" then
      (decodeString p.Hash saved v).map (fun r => ({ p with Hash := r.1 }, r.2))
    else if f = "nonce" then
      (decodeHexInt p.Nonce saved v).map (fun r => ({ p with Nonce := r.1 }, r.2))
    else if f = "blockHash" then
      (decodeString p.BlockHash saved v).map (fun r => ({ p with BlockHash := r.1 }, r.2))
    else if f = "blockNumber" then
      (decodeHexIntPtr p.BlockNumber saved v).map
        (fun r => ({ p with BlockNumber := r.1 }, r.2))
    else if f = "transactionIndex" then
      (decodeHexIntPtr p.TransactionIndex saved v).map
        (fun r => ({ p with TransactionIndex := r.1 }, r.2))
    else if f = "from" then
      (decodeString p.From saved v).map (fun r => ({ p with From := r.1 }, r.2))
    else if f = "to" then
      (decodeString p.To saved v).map (fun r => ({ p with To := r.1 }, r.2))
    else if f = "value" then
      (decodeHexBig p.Value saved v).map (fun r => ({ p with Value := r.1 }, r.2))
    else if f = "gas" then
      (decodeHexInt p.Gas saved v).map (fun r => ({ p with Gas := r.1 }, r.2))
    else if f = "gasPrice" then
      (decodeHexBig p.GasPrice saved v).map (fun r => ({ p with GasPrice := r.1 }, r.2))
    else
      (decodeString p.Input saved v).map (fun r => ({ p with Input := r.1 }, r.2))

/-- Decoding a JSON value into a `proxyTransaction` (a struct without `UnmarshalJSON`). -/
def decodeProxyTransaction (p : proxyTransaction) (saved : Option error) (v : JSON) :
    Decoded proxyTransaction :=
  decodeStruct "ethrpc.proxyTransaction" proxyTransaction.setField p saved v

/-- `json.Unmarshal(data, proxy)` for a `*proxyTransaction`. -/
def unmarshalProxyTransaction (data : JSON) (proxy : proxyTransaction) :
    Except error proxyTransaction :=
  json.result (decodeProxyTransaction proxy none data)

/-- The JSON names of the fields of the two block proxies. -/
def proxyBlock.fields : List String :=
  ["number", "hash", "parentHash", "nonce", "sha3Uncles", "logsBloom", "transactionsRoot",
    "stateRoot", "miner", "difficulty", "totalDifficulty", "extraData", "size", "gasLimit",
    "gasUsed", "timestamp", "uncles", "transactions"]

/-- A `proxyBlockWithTransactions` while it is being decoded into: the proxy, and the spare
slots of its two slices. -/
structure WithTransactionsState where
  proxy : proxyBlockWithTransactions := {}
  spareUncles : List String := []
  spareTransactions : List proxyTransaction := []

/-- One member of an object decoded into a `proxyBlockWithTransactions`. -/
def proxyBlockWithTransactions.setField (st : WithTransactionsState) (saved : Option error)
    (key : String) (v : JSON) : Decoded WithTransactionsState :=
  let p := st.proxy
  match lookupField proxyBlock.fields key with
  | none => .ok (st, saved)
  | some f =>
    if f = "number" then
      (decodeHexInt p.Number saved v).map
        (fun r => ({ st with proxy := { p with Number := r.1 } }, r.2))
    else if f = "hash" then
      (decodeString p.Hash saved v).map
        (fun r => ({ st with proxy := { p with Hash := r.1 } }, r.2))
    else if f = "parentHash" then
      (decodeString p.ParentHash saved v).map
        (fun r => ({ st with proxy := { p with ParentHash := r.1 } }, r.2))
    else if f = "nonce" then
      (decodeString p.Nonce saved v).map
        (fun r => ({ st with proxy := { p with Nonce := r.1 } }, r.2))
    else if f = "sha3Uncles" then
      (decodeString p.Sha3Uncles saved v).map
        (fun r => ({ st with proxy := { p with Sha3Uncles := r.1 } }, r.2))
    else if f = "logsBloom" then
      (decodeString p.LogsBloom saved v).map
        (fun r => ({ st with proxy := { p with LogsBloom := r.1 } }, r.2))
    else if f = "transactionsRoot" then
      (decodeString p.TransactionsRoot saved v).map
        (fun r => ({ st with proxy := { p with TransactionsRoot := r.1 } }, r.2))
    else if f = "stateRoot" then
      (decodeString p.StateRoot saved v).map
        (fun r => ({ st with proxy := { p with StateRoot := r.1 } }, r.2))
    else if f = "miner" then
      (decodeString p.Miner saved v).map
        (fun r => ({ st with proxy := { p with Miner := r.1 } }, r.2))
    else if f = "difficulty" then
      (decodeHexBig p.Difficulty saved v).map
        (fun r => ({ st with proxy := { p with Difficulty := r.1 } }, r.2))
    else if f = "totalDifficulty" then
      (decodeHexBig p.TotalDifficulty saved v).map
        (fun r => ({ st with proxy := { p with TotalDifficulty := r.1 } }, r.2))
    else if f = "extraData" then
      (decodeString p.ExtraData saved v).map
        (fun r => ({ st with proxy := { p with ExtraData := r.1 } }, r.2))
    else if f = "size" then
      (decodeHexInt p.Size saved v).map
        (fun r => ({ st with proxy := { p with Size := r.1 } }, r.2))
    else if f = "gasLimit" then
      (decodeHexInt p.GasLimit saved v).map
        (fun r => ({ st with proxy := { p with GasLimit := r.1 } }, r.2))
    else if f = "gasUsed" then
      (decodeHexInt p.GasUsed saved v).map
        (fun r => ({ st with proxy := { p with GasUsed := r.1 } }, r.2))
    else if f = "timestamp" then
      (decodeHexInt p.Timestamp saved v).map
        (fun r => ({ st with proxy := { p with Timestamp := r.1 } }, r.2))
    else if f = "uncles" then
      (decodeSlice "[]string" decodeString ""
          { elems := p.Uncles, spare := st.spareUncles } saved v).map
        (fun r => ({ st with proxy := { p with Uncles := r.1.elems },
                             spareUncles := r.1.spare }, r.2))
    else
      (decodeSlice "[]ethrpc.proxyTransaction" decodeProxyTransaction {}
          { elems := p.Transactions, spare := st.spareTransactions } saved v).map
        (fun r => ({ st with proxy := { p with Transactions := r.1.elems },
                             spareTransactions := r.1.spare }, r.2))

/-- `json.Unmarshal(data, proxy)` for a `*proxyBlockWithTransactions`. -/
def unmarshalProxyBlockWithTransactions (data : JSON) (proxy : proxyBlockWithTransactions) :
    Except error proxyBlockWithTransactions :=
  (json.result (decodeStruct "ethrpc.proxyBlockWithTransactions"
    proxyBlockWithTransactions.setField { proxy := proxy } none data)).map (fun st => st.proxy)

/-- A `proxyBlockWithoutTransactions` while it is being decoded into: the proxy, and the
spare slots of its two slices. -/
structure WithoutTransactionsState where
  proxy : proxyBlockWithoutTransactions := {}
  spareUncles : List String := []
  spareTransactions : List String := []

/-- One member of an object decoded into a `proxyBlockWithoutTransactions`. -/
def proxyBlockWithoutTransactions.setField (st : WithoutTransactionsState)
    (saved : Option error) (key : String) (v : JSON) : Decoded WithoutTransactionsState :=
  let p := st.proxy
  match lookupField proxyBlock.fields key with
  | none => .ok (st, saved)
  | some f =>
    if f = "number" then
      (decodeHexInt p.Number saved v).map
        (fun r => ({ st with proxy := { p with Number := r.1 } }, r.2))
    else if f = "hash" then
      (decodeString p.Hash saved v).map
        (fun r => ({ st with proxy := { p with Hash := r.1 } }, r.2))
    else if f = "parentHash" then
      (decodeString p.ParentHash saved v).map
        (fun r => ({ st with proxy := { p with ParentHash := r.1 } }, r.2))
    else if f = "nonce" then
      (decodeString p.Nonce saved v).map
        (fun r => ({ st with proxy := { p with Nonce := r.1 } }, r.2))
    else if f = "sha3Uncles" then
      (decodeString p.Sha3Uncles saved v).map
        (fun r => ({ st with proxy := { p with Sha3Uncles := r.1 } }, r.2))
    else if f = "logsBloom" then
      (decodeString p.LogsBloom saved v).map
        (fun r => ({ st with proxy := { p with LogsBloom := r.1 } }, r.2))
    else if f = "transactionsRoot" then
      (decodeString p.TransactionsRoot saved v).map
        (fun r => ({ st with proxy := { p with TransactionsRoot := r.1 } }, r.2))
    else if f = "stateRoot" then
      (decodeString p.StateRoot saved v).map
        (fun r => ({ st with proxy := { p with StateRoot := r.1 } }, r.2))
    else if f = "miner" then
      (decodeString p.Miner saved v).map
        (fun r => ({ st with proxy := { p with Miner := r.1 } }, r.2))
    else if f = "difficulty" then
      (decodeHexBig p.Difficulty saved v).map
        (fun r => ({ st with proxy := { p with Difficulty := r.1 } }, r.2))
    else if f = "totalDifficulty" then
      (decodeHexBig p.TotalDifficulty saved v).map
        (fun r => ({ st with proxy := { p with TotalDifficulty := r.1 } }, r.2))
    else if f = "extraData" then
      (decodeString p.ExtraData saved v).map
        (fun r => ({ st with proxy := { p with ExtraData := r.1 } }, r.2))
    else if f = "size" then
      (decodeHexInt p.Size saved v).map
        (fun r => ({ st with proxy := { p with Size := r.1 } }, r.2))
    else if f = "gasLimit" then
      (decodeHexInt p.GasLimit saved v).map
        (fun r => ({ st with proxy := { p with GasLimit := r.1 } }, r.2))
    else if f = "gasUsed" then
      (decodeHexInt p.GasUsed saved v).map
        (fun r => ({ st with proxy := { p with GasUsed := r.1 } }, r.2))
    else if f = "timestamp" then
      (decodeHexInt p.Timestamp saved v).map
        (fun r => ({ st with proxy := { p with Timestamp := r.1 } }, r.2))
    else if f = "uncles" then
      (decodeSlice "[]string" decodeString ""
          { elems := p.Uncles, spare := st.spareUncles } saved v).map
        (fun r => ({ st with proxy := { p with Uncles := r.1.elems },
                             spareUncles := r.1.spare }, r.2))
    else
      (decodeSlice "[]string" decodeString ""
          { elems := p.Transactions, spare := st.spareTransactions } saved v).map
        (fun r => ({ st with proxy := { p with Transactions := r.1.elems },
                             spareTransactions := r.1.spare }, r.2))

/-- `json.Unmarshal(data, proxy)` for a `*proxyBlockWithoutTransactions`. -/
def unmarshalProxyBlockWithoutTransactions (data : JSON)
    (proxy : proxyBlockWithoutTransactions) : Except error proxyBlockWithoutTransactions :=
  (json.result (decodeStruct "ethrpc.proxyBlockWithoutTransactions"
    proxyBlockWithoutTransactions.setField { proxy := proxy } none data)).map
    (fun st => st.proxy)

/-! ## `UnmarshalJSON` of the records -/

/-- `func (s *Syncing) UnmarshalJSON(data []byte) error`. -/
def Syncing.UnmarshalJSON (s : Syncing) (data : JSON) : Syncing × Option error :=
  match unmarshalProxySyncing data {} with
  | .error err => (s, some err)
  | .ok proxy =>
    ({ s with
       IsSyncing := true
       StartingBlock := proxy.StartingBlock
       CurrentBlock := proxy.CurrentBlock
       HighestBlock := proxy.HighestBlock }, none)

/-- `func (t *Transaction) UnmarshalJSON(data []byte) error`. `BlockNumber` and
`TransactionIndex` are assigned only when the proxy's pointer is not nil. -/
def Transaction.UnmarshalJSON (t : Transaction) (data : JSON) : Transaction × Option error :=
  match unmarshalProxyTransaction data {} with
  | .error err => (t, some err)
  | .ok proxy =>
    ({ t with
       Hash := proxy.Hash
       Nonce := proxy.Nonce
       BlockHash := proxy.BlockHash
       BlockNumber :=
         match proxy.BlockNumber with
         | some blockNum => some blockNum
         | none => t.BlockNumber
       TransactionIndex :=
         match proxy.TransactionIndex with
         | some txIndex => some txIndex
         | none => t.TransactionIndex
       From := proxy.From
       To := proxy.To
       Value := proxy.Value
       Gas := proxy.Gas
       GasPrice := proxy.GasPrice
       Input := proxy.Input }, none)

/-! ## `toBlock` -/

/-- Go `for i, x := range xs` with a body that works on the slice `out`. -/
def forRange {α β : Type} (xs : List α) (body : Nat → α → List β → List β)
    (out : List β) : List β :=
  xs.enum.foldl (fun out ix => body ix.1 ix.2 out) out

/-- The body of the loop of `proxyBlockWithTransactions.toBlock`: `block.Transactions[i]`
is set to `Transaction{}` and then takes the fields of `tx`; `BlockNumber` and
`TransactionIndex` are assigned only when the pointer of `tx` is not nil. -/
def withTransactionsBody (i : Nat) (tx : proxyTransaction)
    (transactions : List Transaction) : List Transaction :=
  let zero : Transaction := {}
  transactions.set i
    { zero with
      Hash := tx.Hash
      Nonce := tx.Nonce
      BlockHash := tx.BlockHash
      BlockNumber :=
        match tx.BlockNumber with
        | some blockNum => some blockNum
        | none => zero.BlockNumber
      TransactionIndex :=
        match tx.TransactionIndex with
        | some txIndex => some txIndex
        | none => zero.TransactionIndex
      From := tx.From
      To := tx.To
      Value := tx.Value
      Gas := tx.Gas
      GasPrice := tx.GasPrice
      Input := tx.Input }

/-- `func (proxy *proxyBlockWithTransactions) toBlock() Block`: every field of the fresh
`Block{}` is assigned once; `Transactions` is made with the length of the proxy's list and
filled by the loop. -/
def proxyBlockWithTransactions.toBlock (proxy : proxyBlockWithTransactions) : Block :=
  { Number := proxy.Number
    Hash := proxy.Hash
    ParentHash := proxy.ParentHash
    Nonce := proxy.Nonce
    Sha3Uncles := proxy.Sha3Uncles
    LogsBloom := proxy.LogsBloom
    TransactionsRoot := proxy.TransactionsRoot
    StateRoot := proxy.StateRoot
    Miner := proxy.Miner
    Difficulty := proxy.Difficulty
    TotalDifficulty := proxy.TotalDifficulty
    ExtraData := proxy.ExtraData
    Size := proxy.Size
    GasLimit := proxy.GasLimit
    GasUsed := proxy.GasUsed
    Timestamp := proxy.Timestamp
    Uncles := proxy.Uncles
    Transactions :=
      forRange proxy.Transactions withTransactionsBody
        (List.replicate proxy.Transactions.length ({} : Transaction)) }

/-- The body of the loop of `proxyBlockWithoutTransactions.toBlock`: `block.Transactions[i]`
is set to `Transaction{}` and then takes the hash `proxy.Transactions[i]`. -/
def withoutTransactionsBody (i : Nat) (hash : String)
    (transactions : List Transaction) : List Transaction :=
  let zero : Transaction := {}
  transactions.set i { zero with Hash := hash }

/-- `func (proxy *proxyBlockWithoutTransactions) toBlock() Block`: every field of the fresh
`Block{}` is assigned once; `Transactions` is made with the length of the proxy's list and
filled by the loop. -/
def proxyBlockWithoutTransactions.toBlock (proxy : proxyBlockWithoutTransactions) : Block :=
  { Number := proxy.Number
    Hash := proxy.Hash
    ParentHash := proxy.ParentHash
    Nonce := proxy.Nonce
    Sha3Uncles := proxy.Sha3Uncles
    LogsBloom := proxy.LogsBloom
    TransactionsRoot := proxy.TransactionsRoot
    StateRoot := proxy.StateRoot
    Miner := proxy.Miner
    Difficulty := proxy.Difficulty
    TotalDifficulty := proxy.TotalDifficulty
    ExtraData := proxy.ExtraData
    Size := proxy.Size
    GasLimit := proxy.GasLimit
    GasUsed := proxy.GasUsed
    Timestamp := proxy.Timestamp
    Uncles := proxy.Uncles
    Transactions :=
      forRange proxy.Transactions withoutTransactionsBody
        (List.replicate proxy.Transactions.length ({} : Transaction)) }

/-! ## Vocabulary of the statements -/

/-- Whether the struct decoder stores a member with the key text `k` in the field whose
JSON name is `f` (`fields` being the JSON names of the struct's fields). -/
def namesField (fields : List String) (f : String) (k : String) : Bool :=
  lookupField fields (unquote k) == some f

/-- Whether an object with the members `ms` has no member that the struct decoder stores in
the field whose JSON name is `f`. -/
def lacksMember (fields : List String) (ms : List (String × JSON)) (f : String) : Bool :=
  !(ms.any (fun m => namesField fields f m.1))

/-- Whether a JSON value is a string that holds a hex numeral of value `x`. -/
def isHexNumeral (x : Int) : JSON → Bool
  | .string text => decide (ParseInt text = (x, none))
  | _ => false

/-- Whether an object with the members `ms` has a member for the field `f`, every such
member being a hex numeral of value `x`. -/
def hexMember (fields : List String) (ms : List (String × JSON)) (f : String) (x : Int) :
    Bool :=
  ms.any (fun m => namesField fields f m.1) &&
    ms.all (fun m => !namesField fields f m.1 || isHexNumeral x m.2)

/-- Whether `hexInt.UnmarshalJSON` returns an error on the bytes of a JSON value. -/
def rejectedByHexInt (v : JSON) : Bool := (hexInt.UnmarshalJSON 0 v.bytes).2.isSome

/-- The sync-status payloads with a wrong shape: the literal `true`, a number, a string, an
array, and an object with a member for one of the three fields whose value
`hexInt.UnmarshalJSON` rejects. -/
def malformedSyncing : JSON → Bool
  | .null => false
  | .bool b => b
  | .number _ => true
  | .string _ => true
  | .array _ => true
  | .object ms =>
    ms.any (fun m => (lookupField proxySyncing.fields (unquote m.1)).isSome &&
      rejectedByHexInt m.2)

/-- Whether the seventeen fields that the two block proxies share are equal. -/
def sharedFieldsEqual (a : proxyBlockWithTransactions) (b : proxyBlockWithoutTransactions) :
    Prop :=
  a.Number = b.Number ∧ a.Hash = b.Hash ∧ a.ParentHash = b.ParentHash ∧ a.Nonce = b.Nonce ∧
    a.Sha3Uncles = b.Sha3Uncles ∧ a.LogsBloom = b.LogsBloom ∧
    a.TransactionsRoot = b.TransactionsRoot ∧ a.StateRoot = b.StateRoot ∧
    a.Miner = b.Miner ∧ a.Difficulty = b.Difficulty ∧
    a.TotalDifficulty = b.TotalDifficulty ∧ a.ExtraData = b.ExtraData ∧ a.Size = b.Size ∧
    a.GasLimit = b.GasLimit ∧ a.GasUsed = b.GasUsed ∧ a.Timestamp = b.Timestamp ∧
    a.Uncles = b.Uncles

instance (a : proxyBlockWithTransactions) (b : proxyBlockWithoutTransactions) :
    Decidable (sharedFieldsEqual a b) := by
  unfold sharedFieldsEqual
  infer_instance

/-- Whether a JSON value is a string. -/
def JSON.isString : JSON → Bool
  | .string _ => true
  | _ => false

/-- Whether a JSON value is an object. -/
def JSON.isObject : JSON → Bool
  | .object _ => true
  | _ => false

/-- Whether a JSON value is an array that holds at least one string and at least one
object. -/
def JSON.isMixedArray : JSON → Bool
  | .array items => items.any JSON.isString && items.any JSON.isObject
  | _ => false

/-- Whether an object with the members `ms` has a member for the field `transactions`
whose value is a mixed array. -/
def hasMixedTransactions (ms : List (String × JSON)) : Bool :=
  ms.any (fun m => namesField proxyBlock.fields "transactions" m.1 && m.2.isMixedArray)

/-- A decoding step keeps a saved error: when a type error is already saved and the step
does not stop the decoding, a type error is still saved after it. -/
def keepsError {σ : Type} (d : Decoded σ) (saved : Option error) : Prop :=
  saved ≠ none → ∀ r, d = .ok r → r.2 ≠ none

/-- A decoding step fails: it stops the decoding or leaves a saved type error. -/
def failsDecoding {σ : Type} (d : Decoded σ) : Prop :=
  ∀ r, d = .ok r → r.2 ≠ none

/-! ## Logs and receipts -/

/-- Decoding into a field of type `bool`: a JSON boolean is stored, `null` leaves the field
as it is, any other value is a type error and leaves the field as it is. -/
def decodeBool (cur : Bool) (saved : Option error) (v : JSON) : Decoded Bool :=
  match v with
  | .bool b => .ok (b, saved)
  | .null => .ok (cur, saved)
  | v => .ok (cur, saveError saved (error.UnmarshalTypeError v.kind "bool"))

/-- Log - log object. -/
structure Log where
  Removed : Bool := false
  LogIndex : Int := 0
  TransactionIndex : Int := 0
  TransactionHash : String := ""
  BlockNumber : Int := 0
  BlockHash : String := ""
  Address : String := ""
  Data : String := ""
  Topics : List String := []
  deriving DecidableEq, Repr

/-- `type proxyLog struct`. -/
structure proxyLog where
  Removed : Bool := false
  LogIndex : hexInt := 0
  TransactionIndex : hexInt := 0
  TransactionHash : String := ""
  BlockNumber : hexInt := 0
  BlockHash : String := ""
  Address : String := ""
  Data : String := ""
  Topics : List String := []
  deriving DecidableEq, Repr

/-- The JSON names of the fields of `proxyLog`. -/
def proxyLog.fields : List String :=
  ["removed", "logIndex", "transactionIndex", "transactionHash", "blockNumber", "blockHash",
    "address", "data", "topics"]

/-- A `proxyLog` while it is being decoded into: the proxy, and the spare slots of its
slice. -/
structure LogState where
  proxy : proxyLog := {}
  spareTopics : List String := []

/-- One member of an object decoded into a `proxyLog`. -/
def proxyLog.setField (st : LogState) (saved : Option error) (key : String) (v : JSON) :
    Decoded LogState :=
  let p := st.proxy
  match lookupField proxyLog.fields key with
  | none => .ok (st, saved)
  | some f =>
    if f = "removed" then
      (decodeBool p.Removed saved v).map
        (fun r => ({ st with proxy := { p with Removed := r.1 } }, r.2))
    else if f = "logIndex" then
      (decodeHexInt p.LogIndex saved v).map
        (fun r => ({ st with proxy := { p with LogIndex := r.1 } }, r.2))
    else if f = "transactionIndex" then
      (decodeHexInt p.TransactionIndex saved v).map
        (fun r => ({ st with proxy := { p with TransactionIndex := r.1 } }, r.2))
    else if f = "transactionHash" then
      (decodeString p.TransactionHash saved v).map
        (fun r => ({ st with proxy := { p with TransactionHash := r.1 } }, r.2))
    else if f = "blockNumber" then
      (decodeHexInt p.BlockNumber saved v).map
        (fun r => ({ st with proxy := { p with BlockNumber := r.1 } }, r.2))
    else if f = "blockHash" then
      (decodeString p.BlockHash saved v).map
        (fun r => ({ st with proxy := { p with BlockHash := r.1 } }, r.2))
    else if f = "address" then
      (decodeString p.Address saved v).map
        (fun r => ({ st with proxy := { p with Address := r.1 } }, r.2))
    else if f = "data" then
      (decodeString p.Data saved v).map
        (fun r => ({ st with proxy := { p with Data := r.1 } }, r.2))
    else
      (decodeSlice "[]string" decodeString ""
          { elems := p.Topics, spare := st.spareTopics } saved v).map
        (fun r => ({ proxy := { p with Topics := r.1.elems }, spareTopics := r.1.spare }, r.2))

/-- `json.Unmarshal(data, proxy)` for a `*proxyLog`. -/
def unmarshalProxyLog (data : JSON) (proxy : proxyLog) : Except error proxyLog :=
  (json.result (decodeStruct "ethrpc.proxyLog" proxyLog.setField { proxy := proxy } none
    data)).map (fun st => st.proxy)

/-- `func (log *Log) UnmarshalJSON(data []byte) error`. -/
def Log.UnmarshalJSON (log : Log) (data : JSON) : Log × Option error :=
  match unmarshalProxyLog data {} with
  | .error err => (log, some err)
  | .ok proxy =>
    ({ log with
       Removed := proxy.Removed
       LogIndex := proxy.LogIndex
       TransactionIndex := proxy.TransactionIndex
       TransactionHash := proxy.TransactionHash
       BlockNumber := proxy.BlockNumber
       BlockHash := proxy.BlockHash
       Address := proxy.Address
       Data := proxy.Data
       Topics := proxy.Topics }, none)

/-- Decoding into an element of type `Log`: whatever the value is (`null` included), its
bytes go to `Log.UnmarshalJSON` with the slot as receiver, and an error it returns stops
the decoding. -/
def decodeLog (cur : Log) (saved : Option error) (v : JSON) : Decoded Log :=
  match Log.UnmarshalJSON cur v with
  | (log, none) => .ok (log, saved)
  | (_, some err) => .error err

/-- TransactionReceipt - transaction receipt object. -/
structure TransactionReceipt where
  TransactionHash : String := ""
  TransactionIndex : Int := 0
  BlockHash : String := ""
  BlockNumber : Int := 0
  CumulativeGasUsed : Int := 0
  GasUsed : Int := 0
  ContractAddress : String := ""
  Logs : List Log := []
  LogsBloom : String := ""
  Root : String := ""
  Status : String := ""
  deriving DecidableEq, Repr

/-- `type proxyTransactionReceipt struct`. -/
structure proxyTransactionReceipt where
  TransactionHash : String := ""
  TransactionIndex : hexInt := 0
  BlockHash : String := ""
  BlockNumber : hexInt := 0
  CumulativeGasUsed : hexInt := 0
  GasUsed : hexInt := 0
  ContractAddress : String := ""
  Logs : List Log := []
  LogsBloom : String := ""
  Root : String := ""
  Status : String := ""
  deriving DecidableEq, Repr

/-- The JSON names of the fields of `proxyTransactionReceipt`. -/
def proxyTransactionReceipt.fields : List String :=
  ["transactionHash", "transactionIndex", "blockHash", "blockNumber", "cumulativeGasUsed",
    "gasUsed", "contractAddress", "logs", "logsBloom", "root", "status"]

/-- A `proxyTransactionReceipt` while it is being decoded into: the proxy, and the spare
slots of its slice. -/
structure ReceiptState where
  proxy : proxyTransactionReceipt := {}
  spareLogs : List Log := []

/-- One member of an object decoded into a `proxyTransactionReceipt`. -/
def proxyTransactionReceipt.setField (st : ReceiptState) (saved : Option error)
    (key : String) (v : JSON) : Decoded ReceiptState :=
  let p := st.proxy
  match lookupField proxyTransactionReceipt.fields key with
  | none => .ok (st, saved)
  | some f =>
    if f = "transactionHash" then
      (decodeString p.TransactionHash saved v).map
        (fun r => ({ st with proxy := { p with TransactionHash := r.1 } }, r.2))
    else if f = "transactionIndex" then
      (decodeHexInt p.TransactionIndex saved v).map
        (fun r => ({ st with proxy := { p with TransactionIndex := r.1 } }, r.2))
    else if f = "blockHash" then
      (decodeString p.BlockHash saved v).map
        (fun r => ({ st with proxy := { p with BlockHash := r.1 } }, r.2))
    else if f = "blockNumber" then
      (decodeHexInt p.BlockNumber saved v).map
        (fun r => ({ st with proxy := { p with BlockNumber := r.1 } }, r.2))
    else if f = "cumulativeGasUsed" then
      (decodeHexInt p.CumulativeGasUsed saved v).map
        (fun r => ({ st with proxy := { p with CumulativeGasUsed := r.1 } }, r.2))
    else if f = "gasUsed" then
      (decodeHexInt p.GasUsed saved v).map
        (fun r => ({ st with proxy := { p with GasUsed := r.1 } }, r.2))
    else if f = "contractAddress" then
      (decodeString p.ContractAddress saved v).map
        (fun r => ({ st with proxy := { p with ContractAddress := r.1 } }, r.2))
    else if f = "logs" then
      (decodeSlice "[]ethrpc.Log" decodeLog {}
          { elems := p.Logs, spare := st.spareLogs } saved v).map
        (fun r => ({ proxy := { p with Logs := r.1.elems }, spareLogs := r.1.spare }, r.2))
    else if f = "logsBloom" then
      (decodeString p.LogsBloom saved v).map
        (fun r => ({ st with proxy := { p with LogsBloom := r.1 } }, r.2))
    else if f = "root" then
      (decodeString p.Root saved v).map
        (fun r => ({ st with proxy := { p with Root := r.1 } }, r.2))
    else
      (decodeString p.Status saved v).map
        (fun r => ({ st with proxy := { p with Status := r.1 } }, r.2))

/-- `json.Unmarshal(data, proxy)` for a `*proxyTransactionReceipt`. -/
def unmarshalProxyTransactionReceipt (data : JSON) (proxy : proxyTransactionReceipt) :
    Except error proxyTransactionReceipt :=
  (json.result (decodeStruct "ethrpc.proxyTransactionReceipt"
    proxyTransactionReceipt.setField { proxy := proxy } none data)).map (fun st => st.proxy)

/-- `func (t *TransactionReceipt) UnmarshalJSON(data []byte) error`. -/
def TransactionReceipt.UnmarshalJSON (t : TransactionReceipt) (data : JSON) :
    TransactionReceipt × Option error :=
  match unmarshalProxyTransactionReceipt data {} with
  | .error err => (t, some err)
  | .ok proxy =>
    ({ t with
       TransactionHash := proxy.TransactionHash
       TransactionIndex := proxy.TransactionIndex
       BlockHash := proxy.BlockHash
       BlockNumber := proxy.BlockNumber
       CumulativeGasUsed := proxy.CumulativeGasUsed
       GasUsed := proxy.GasUsed
       ContractAddress := proxy.ContractAddress
       Logs := proxy.Logs
       LogsBloom := proxy.LogsBloom
       Root := proxy.Root
       Status := proxy.Status }, none)

/-! ## Encoding: `FilterParams` -/

/-- FilterParams - Filter parameters object. Every field has the tag `omitempty`. An
element of `Topics` that is a nil slice is `none`: `json.Marshal` writes `null` for it. -/
structure FilterParams where
  FromBlock : String := ""
  ToBlock : String := ""
  Address : List String := []
  Topics : List (Option (List String)) := []

/-- Go `json.Marshal` on a non-nil `[]string`. -/
def marshalStrings (xs : List String) : JSON :=
  JSON.array (xs.map (fun s => JSON.string (appendString s)))

/-- Go `json.Marshal` on an element of a `[][]string`: `null` for a nil slice. -/
def marshalStringsOrNull : Option (List String) → JSON
  | none => JSON.null
  | some xs => marshalStrings xs

/-- The JSON object that `json.Marshal` writes for a `FilterParams`: the fields in the
order of the struct, a field left out when it is empty (`omitempty`: the empty string, a
slice of length 0). -/
def FilterParams.object (p : FilterParams) : JSON :=
  JSON.object
    ((if p.FromBlock ≠ "" then [("fromBlock", JSON.string (appendString p.FromBlock))]
      else []) ++
     (if p.ToBlock ≠ "" then [("toBlock", JSON.string (appendString p.ToBlock))] else []) ++
     (if p.Address.length ≠ 0 then [("address", marshalStrings p.Address)] else []) ++
     (if p.Topics.length ≠ 0 then
        [("topics", JSON.array (p.Topics.map marshalStringsOrNull))]
      else []))

/-- Go `json.Marshal` on a `FilterParams` (the struct has no `MarshalJSON` of its own). -/
def FilterParams.Marshal (p : FilterParams) : String × Option error :=
  ((FilterParams.object p).bytes, none)

/-! ## More vocabulary of the statements -/

/-- Whether a JSON value is the literal `null`. -/
def JSON.isNull : JSON → Bool
  | .null => true
  | _ => false

/-- Whether a JSON value is a boolean. -/
def JSON.isBool : JSON → Bool
  | .bool _ => true
  | _ => false

/-- Whether `hexBig.UnmarshalJSON` returns an error on the bytes of a JSON value. -/
def rejectedByHexBig (v : JSON) : Bool := (hexBig.UnmarshalJSON 0 v.bytes).2.isSome

/-- Whether a decoding step went through: it did not stop the decoding and no type error
is saved after it. -/
def succeeds {σ : Type} : Decoded σ → Bool
  | .ok (_, none) => true
  | _ => false

/-- Whether a member fails to decode on its own into a fresh `proxyTransaction`. -/
def proxyTransaction.memberFails (m : String × JSON) : Bool :=
  !succeeds (proxyTransaction.setField {} none (unquote m.1) m.2)

/-- Whether a member fails to decode on its own into a fresh `proxyLog`. -/
def proxyLog.memberFails (m : String × JSON) : Bool :=
  !succeeds (proxyLog.setField {} none (unquote m.1) m.2)

/-- Whether a member fails to decode on its own into a fresh `proxyTransactionReceipt`. -/
def proxyTransactionReceipt.memberFails (m : String × JSON) : Bool :=
  !succeeds (proxyTransactionReceipt.setField {} none (unquote m.1) m.2)

/-- Whether a member is for one of the fields of type `hexInt` (`hexInts`), `hexBig`
(`hexBigs`) or `*hexInt` (`hexPtrs`) of a struct and holds a value that the field's
`UnmarshalJSON` rejects; for a pointer field `null` is not handed to `UnmarshalJSON`. -/
def malformedHexMember (fields hexInts hexBigs hexPtrs : List String) (m : String × JSON) :
    Bool :=
  match lookupField fields (unquote m.1) with
  | none => false
  | some f =>
    (hexInts.contains f && rejectedByHexInt m.2) ||
      (hexBigs.contains f && rejectedByHexBig m.2) ||
      (hexPtrs.contains f && !m.2.isNull && rejectedByHexInt m.2)

/-- Whether a member of a transaction payload holds a malformed hex numeral. -/
def proxyTransaction.malformed (m : String × JSON) : Bool :=
  malformedHexMember proxyTransaction.fields ["nonce", "gas"] ["value", "gasPrice"]
    ["blockNumber", "transactionIndex"] m

/-- Whether a member of a log payload holds a malformed hex numeral. -/
def proxyLog.malformed (m : String × JSON) : Bool :=
  malformedHexMember proxyLog.fields ["logIndex", "transactionIndex", "blockNumber"] [] [] m

/-- Whether a member of a receipt payload holds a malformed hex numeral. -/
def proxyTransactionReceipt.malformed (m : String × JSON) : Bool :=
  malformedHexMember proxyTransactionReceipt.fields
    ["transactionIndex", "blockNumber", "cumulativeGasUsed", "gasUsed"] [] [] m

/-- Whether a member of a receipt payload is a `logs` array with an element on which
`Log.UnmarshalJSON` returns an error. -/
def proxyTransactionReceipt.failingLogs (m : String × JSON) : Bool :=
  namesField proxyTransactionReceipt.fields "logs" m.1 &&
    match m.2 with
    | .array items => items.any (fun x => (Log.UnmarshalJSON {} x).2.isSome)
    | _ => false

/-- The keys that `T.MarshalJSON` can write, in ascending order. -/
def T.sortedKeys : List String := ["data", "from", "gas", "gasPrice", "nonce", "to", "value"]

/-! # Theorems -/

/-! ## The call descriptor: what `T.MarshalJSON` writes -/

theorem Params.mem_set (m : Params) (k v : String) (x : String × String) :
    x ∈ Params.set m k v ↔ x = (k, v) ∨ (x ∈ m ∧ x.1 ≠ k) := by
  simp [Params.set]

theorem Params.mem_ite_set (c : Prop) [Decidable c] (m : Params) (k v : String)
    (x : String × String) :
    x ∈ (if c then Params.set m k v else m) ↔ (c ∧ x = (k, v)) ∨ (x ∈ m ∧ (c → x.1 ≠ k)) := by
  by_cases h : c <;> simp [h, Params.mem_set]

theorem T.mem_params (t : T) (k v : String) :
    (k, v) ∈ T.params t ↔
      (k = "to" ∧ t.To ≠ "" ∧ v = t.To) ∨ (k = "from" ∧ t.From ≠ "" ∧ v = t.From) ∨
      (k = "data" ∧ t.Data ≠ "" ∧ v = t.Data) ∨
      (k = "gas" ∧ 0 < t.Gas ∧ v = IntToHex t.Gas) ∨
      (k = "nonce" ∧ 0 < t.Nonce ∧ v = IntToHex t.Nonce) ∨
      (k = "gasPrice" ∧ ∃ g, t.GasPrice = some g ∧ v = BigToHex g) ∨
      (k = "value" ∧ ∃ g, t.Value = some g ∧ v = BigToHex g) := by
  unfold T.params
  rcases t with ⟨f, tt, g, gp, val, d, n⟩
  cases gp <;> cases val <;>
    simp only [Params.mem_ite_set, Params.mem_set, List.not_mem_nil, Prod.mk.injEq, false_and, or_false, false_or, reduceCtorEq, exists_false, and_false, Option.some.injEq, exists_eq_left', ne_eq, gt_iff_lt]
  all_goals
    by_cases h1 : k = "nonce"
    · subst h1; simp
    by_cases h2 : k = "data"
    · subst h2; simp
    by_cases h3 : k = "gas"
    · subst h3; simp
    by_cases h4 : k = "from"
    · subst h4; simp
    by_cases h5 : k = "to"
    · subst h5; simp
    by_cases h6 : k = "gasPrice"
    · subst h6; simp
    by_cases h7 : k = "value"
    · subst h7; simp
    simp [h1, h2, h3, h4, h5, h6, h7]

theorem Params.nodup_set (m : Params) (k v : String) (h : (m.map Prod.fst).Nodup) :
    ((Params.set m k v).map Prod.fst).Nodup := by
  unfold Params.set
  rw [List.map_cons, List.nodup_cons]
  constructor
  · simp [List.mem_map, List.mem_filter]
  · exact h.sublist (List.Sublist.map _ (List.filter_sublist _))

theorem T.nodup_params (t : T) : ((T.params t).map Prod.fst).Nodup := by
  unfold T.params
  rcases t with ⟨f, tt, g, gp, val, d, n⟩
  cases gp <;> cases val <;> simp only [] <;> split_ifs <;>
    repeat (first | exact List.nodup_nil | apply Params.nodup_set)

theorem T.appendString_key (t : T) (e : String × String) (he : e ∈ T.params t) :
    appendString e.1 = e.1 := by
  obtain ⟨k, v⟩ := e
  rcases (T.mem_params t k v).1 he with
    ⟨rfl, _⟩ | ⟨rfl, _⟩ | ⟨rfl, _⟩ | ⟨rfl, _⟩ | ⟨rfl, _⟩ | ⟨rfl, _⟩ | ⟨rfl, _⟩ <;>
    dsimp only <;> decide

theorem T.mem_members (t : T) (k : String) (v : JSON) :
    (k, v) ∈ (T.object t).members ↔
      ∃ w, (k, w) ∈ T.params t ∧ v = JSON.string (appendString w) := by
  simp only [T.object, json.marshalMap, JSON.members, List.mem_map, Prod.mk.injEq]
  constructor
  · rintro ⟨e, he, h1, h2⟩
    have he' : e ∈ T.params t := (List.perm_insertionSort keyLE _).mem_iff.1 he
    have := T.appendString_key t e he'
    refine ⟨e.2, ?_, h2.symm⟩
    rw [← h1, this]
    exact he'
  · rintro ⟨w, hw, rfl⟩
    refine ⟨(k, w), (List.perm_insertionSort keyLE _).mem_iff.2 hw, ?_, rfl⟩
    exact T.appendString_key t (k, w) hw

theorem T.keys_members (t : T) :
    (T.object t).members.map Prod.fst = ((T.params t).insertionSort keyLE).map Prod.fst := by
  simp only [T.object, json.marshalMap, JSON.members, List.map_map]
  apply List.map_congr_left
  intro e he
  exact T.appendString_key t e ((List.perm_insertionSort keyLE _).mem_iff.1 he)

/-- C1: the object that `T.MarshalJSON` writes has no key twice, and its keys are exactly:
`to`, `from`, `data` when the string is not empty, `gas`, `nonce` when the integer is
positive, `gasPrice`, `value` when the pointer is not nil (whatever the number). -/
theorem T_MarshalJSON_key_set (t : T) :
    T.MarshalJSON t = ((T.object t).bytes, none) ∧
    T.object t = JSON.object (T.object t).members ∧
    ((T.object t).members.map Prod.fst).Nodup ∧
    (∀ k : String, k ∈ (T.object t).members.map Prod.fst ↔
      (k = "to" ∧ t.To ≠ "") ∨ (k = "from" ∧ t.From ≠ "") ∨ (k = "data" ∧ t.Data ≠ "") ∨
      (k = "gas" ∧ 0 < t.Gas) ∨ (k = "nonce" ∧ 0 < t.Nonce) ∨
      (k = "gasPrice" ∧ t.GasPrice ≠ none) ∨ (k = "value" ∧ t.Value ≠ none)) ∧
    (t.Gas = 0 → "gas" ∉ (T.object t).members.map Prod.fst) := by
  have hkeys : ∀ k : String, k ∈ (T.object t).members.map Prod.fst ↔
      (k = "to" ∧ t.To ≠ "") ∨ (k = "from" ∧ t.From ≠ "") ∨ (k = "data" ∧ t.Data ≠ "") ∨
      (k = "gas" ∧ 0 < t.Gas) ∨ (k = "nonce" ∧ 0 < t.Nonce) ∨
      (k = "gasPrice" ∧ t.GasPrice ≠ none) ∨ (k = "value" ∧ t.Value ≠ none) := by
    intro k
    rw [T.keys_members, (List.perm_insertionSort keyLE _).map Prod.fst |>.mem_iff]
    simp only [List.mem_map, Prod.exists, exists_and_right, exists_eq_right, T.mem_params]
    constructor
    · rintro ⟨v, h⟩
      rcases h with ⟨h1, h2, _⟩ | ⟨h1, h2, _⟩ | ⟨h1, h2, _⟩ | ⟨h1, h2, _⟩ | ⟨h1, h2, _⟩ |
        ⟨h1, g, h2, _⟩ | ⟨h1, g, h2, _⟩
      · exact Or.inl ⟨h1, h2⟩
      · exact Or.inr (Or.inl ⟨h1, h2⟩)
      · exact Or.inr (Or.inr (Or.inl ⟨h1, h2⟩))
      · exact Or.inr (Or.inr (Or.inr (Or.inl ⟨h1, h2⟩)))
      · exact Or.inr (Or.inr (Or.inr (Or.inr (Or.inl ⟨h1, h2⟩))))
      · exact Or.inr (Or.inr (Or.inr (Or.inr (Or.inr (Or.inl ⟨h1, by simp [h2]⟩)))))
      · exact Or.inr (Or.inr (Or.inr (Or.inr (Or.inr (Or.inr ⟨h1, by simp [h2]⟩)))))
    · rintro (⟨h1, h2⟩ | ⟨h1, h2⟩ | ⟨h1, h2⟩ | ⟨h1, h2⟩ | ⟨h1, h2⟩ | ⟨h1, h2⟩ | ⟨h1, h2⟩)
      · exact ⟨_, Or.inl ⟨h1, h2, rfl⟩⟩
      · exact ⟨_, Or.inr (Or.inl ⟨h1, h2, rfl⟩)⟩
      · exact ⟨_, Or.inr (Or.inr (Or.inl ⟨h1, h2, rfl⟩))⟩
      · exact ⟨_, Or.inr (Or.inr (Or.inr (Or.inl ⟨h1, h2, rfl⟩)))⟩
      · exact ⟨_, Or.inr (Or.inr (Or.inr (Or.inr (Or.inl ⟨h1, h2, rfl⟩))))⟩
      · obtain ⟨g, hg⟩ := Option.ne_none_iff_exists'.1 h2
        exact ⟨_, Or.inr (Or.inr (Or.inr (Or.inr (Or.inr (Or.inl ⟨h1, g, hg, rfl⟩)))))⟩
      · obtain ⟨g, hg⟩ := Option.ne_none_iff_exists'.1 h2
        exact ⟨_, Or.inr (Or.inr (Or.inr (Or.inr (Or.inr (Or.inr ⟨h1, g, hg, rfl⟩)))))⟩
  refine ⟨rfl, rfl, ?_, hkeys, ?_⟩
  · rw [T.keys_members]
    exact ((List.perm_insertionSort keyLE _).map Prod.fst).nodup_iff.2 (T.nodup_params t)
  · intro h0 hmem
    have := (hkeys "gas").1 hmem
    simp [h0] at this

theorem unquoteChars_plain (c : Char) (rest : List Char) (hc : c ≠ bsl) :
    unquoteChars none (c :: rest) = c :: unquoteChars none rest := by
  rw [unquoteChars.eq_def]
  simp [hc, flushPending]

theorem unquoteChars_short (e r : Char) (rest : List Char) (he : e ≠ 'u')
    (hr : (if e = 'b' then Char.ofNat 8 else if e = 'f' then Char.ofNat 12
      else if e = 'n' then Char.ofNat 10 else if e = 'r' then Char.ofNat 13
      else if e = 't' then Char.ofNat 9 else e) = r) :
    unquoteChars none (bsl :: e :: rest) = r :: unquoteChars none rest := by
  rw [unquoteChars.eq_def]
  simp [he, flushPending, hr]

theorem unquoteChars_u4 (h1 h2 h3 h4 : Char) (u : Nat) (rest : List Char)
    (hu : getu4 h1 h2 h3 h4 = some u) (hlt : u < 55296) :
    unquoteChars none (bsl :: 'u' :: h1 :: h2 :: h3 :: h4 :: rest) =
      Char.ofNat u :: unquoteChars none rest := by
  rw [unquoteChars.eq_def]
  have h1 : ¬ (56320 ≤ u ∧ u < 57344) := by omega
  have h2 : ¬ (55296 ≤ u ∧ u < 56320) := by omega
  simp [hu, flushPending, h1, h2]

theorem unquoteChars_appendChar (c : Char) (rest : List Char) :
    unquoteChars none (appendChar c ++ rest) = c :: unquoteChars none rest := by
  have hc : c = Char.ofNat c.toNat := (Char.ofNat_toNat c).symm
  unfold appendChar
  simp only []
  split_ifs with h1 h2 h3 h4 h5 h6 h7 h8
  · rcases h1 with h | h <;> rw [h] at hc <;> subst hc <;>
      exact unquoteChars_short _ _ rest (by decide) (by decide)
  · rw [h2] at hc; subst hc; exact unquoteChars_short _ _ rest (by decide) (by decide)
  · rw [h3] at hc; subst hc; exact unquoteChars_short _ _ rest (by decide) (by decide)
  · rw [h4] at hc; subst hc; exact unquoteChars_short _ _ rest (by decide) (by decide)
  · rw [h5] at hc; subst hc; exact unquoteChars_short _ _ rest (by decide) (by decide)
  · rw [h6] at hc; subst hc; exact unquoteChars_short _ _ rest (by decide) (by decide)
  · generalize c.toNat = n at *
    subst hc
    have hn : n < 64 := by omega
    clear h1 h2 h3 h4 h5 h6 h7
    interval_cases n <;> exact unquoteChars_u4 _ _ _ _ _ rest (by decide) (by decide)
  · rcases h8 with h | h <;> rw [h] at hc ⊢ <;> subst hc <;>
      exact unquoteChars_u4 _ _ _ _ _ rest (by decide) (by decide)
  · have hne : c ≠ bsl := by
      intro h
      apply h1
      right
      rw [h]
      rfl
    exact unquoteChars_plain c rest hne

theorem unquoteChars_flatMap (l : List Char) :
    unquoteChars none (l.flatMap appendChar) = l := by
  induction l with
  | nil => rfl
  | cons c l ih => rw [List.flatMap_cons, unquoteChars_appendChar, ih]

theorem unquote_appendString (s : String) : unquote (appendString s) = s := by
  unfold unquote appendString
  show String.mk (unquoteChars none (s.toList.flatMap appendChar)) = s
  rw [unquoteChars_flatMap]
  cases s
  rfl



/-- C2: every member that `T.MarshalJSON` writes is the JSON string of: the field itself for
`to`, `from`, `data`; `IntToHex` of the field for `gas`, `nonce`; `BigToHex` of the number
for `gasPrice`, `value`. Reading such a JSON string back gives the Go string unchanged.
The descriptor `{To: "0xabc", Gas: 21000}` gives the members `gas`: `0x5208` and
`to`: `0xabc` and nothing else. -/
theorem T_MarshalJSON_member_values (t : T) :
    (∀ (k : String) (v : JSON), (k, v) ∈ (T.object t).members ↔
      (k = "to" ∧ t.To ≠ "" ∧ v = JSON.string (appendString t.To)) ∨
      (k = "from" ∧ t.From ≠ "" ∧ v = JSON.string (appendString t.From)) ∨
      (k = "data" ∧ t.Data ≠ "" ∧ v = JSON.string (appendString t.Data)) ∨
      (k = "gas" ∧ 0 < t.Gas ∧ v = JSON.string (appendString (IntToHex t.Gas))) ∨
      (k = "nonce" ∧ 0 < t.Nonce ∧ v = JSON.string (appendString (IntToHex t.Nonce))) ∨
      (k = "gasPrice" ∧ ∃ g, t.GasPrice = some g ∧
        v = JSON.string (appendString (BigToHex g))) ∨
      (k = "value" ∧ ∃ g, t.Value = some g ∧
        v = JSON.string (appendString (BigToHex g)))) ∧
    (∀ s : String, (JSON.string (appendString s)).stringValue = some s) ∧
    T.MarshalJSON { To := "0xabc", Gas := 21000 } =
      ("\x7b\"gas\":\"0x5208\",\"to\":\"0xabc\"\x7d", none) ∧
    (T.object { To := "0xabc", Gas := 21000 }).members =
      [("gas", JSON.string "0x5208"), ("to", JSON.string "0xabc")] := by
  refine ⟨?_, ?_, by decide, by rfl⟩
  · intro k v
    rw [T.mem_members]
    simp only [T.mem_params]
    constructor
    · rintro ⟨w, h, rfl⟩
      rcases h with ⟨h1, h2, rfl⟩ | ⟨h1, h2, rfl⟩ | ⟨h1, h2, rfl⟩ | ⟨h1, h2, rfl⟩ |
        ⟨h1, h2, rfl⟩ | ⟨h1, g, h2, rfl⟩ | ⟨h1, g, h2, rfl⟩
      · exact Or.inl ⟨h1, h2, rfl⟩
      · exact Or.inr (Or.inl ⟨h1, h2, rfl⟩)
      · exact Or.inr (Or.inr (Or.inl ⟨h1, h2, rfl⟩))
      · exact Or.inr (Or.inr (Or.inr (Or.inl ⟨h1, h2, rfl⟩)))
      · exact Or.inr (Or.inr (Or.inr (Or.inr (Or.inl ⟨h1, h2, rfl⟩))))
      · exact Or.inr (Or.inr (Or.inr (Or.inr (Or.inr (Or.inl ⟨h1, g, h2, rfl⟩)))))
      · exact Or.inr (Or.inr (Or.inr (Or.inr (Or.inr (Or.inr ⟨h1, g, h2, rfl⟩)))))
    · rintro (⟨h1, h2, rfl⟩ | ⟨h1, h2, rfl⟩ | ⟨h1, h2, rfl⟩ | ⟨h1, h2, rfl⟩ | ⟨h1, h2, rfl⟩ |
        ⟨h1, g, h2, rfl⟩ | ⟨h1, g, h2, rfl⟩)
      · exact ⟨_, Or.inl ⟨h1, h2, rfl⟩, rfl⟩
      · exact ⟨_, Or.inr (Or.inl ⟨h1, h2, rfl⟩), rfl⟩
      · exact ⟨_, Or.inr (Or.inr (Or.inl ⟨h1, h2, rfl⟩)), rfl⟩
      · exact ⟨_, Or.inr (Or.inr (Or.inr (Or.inl ⟨h1, h2, rfl⟩))), rfl⟩
      · exact ⟨_, Or.inr (Or.inr (Or.inr (Or.inr (Or.inl ⟨h1, h2, rfl⟩)))), rfl⟩
      · exact ⟨_, Or.inr (Or.inr (Or.inr (Or.inr (Or.inr (Or.inl ⟨h1, g, h2, rfl⟩))))), rfl⟩
      · exact ⟨_, Or.inr (Or.inr (Or.inr (Or.inr (Or.inr (Or.inr ⟨h1, g, h2, rfl⟩))))), rfl⟩
  · intro s
    show some (unquote (appendString s)) = some s
    rw [unquote_appendString]

/-! ## The sync status -/

theorem hexDigitsValue_all (l : List Char) (acc n : Nat) (h : hexDigitsValue l acc = some n) :
    ∀ c ∈ l, c ≠ dq := by
  induction l generalizing acc with
  | nil => simp
  | cons d ds ih =>
    intro c hc
    unfold hexDigitsValue at h
    cases hd : hexVal d with
    | none => simp [hd] at h
    | some v =>
      simp only [hd] at h
      rcases List.mem_cons.1 hc with rfl | hc
      · intro hq
        rw [hq] at hd
        have hnone : hexVal dq = none := by decide
        rw [hnone] at hd
        exact absurd hd (by simp)
      · exact ih _ h c hc

theorem parseHex_shape (l : List Char) (n : Nat) (h : parseHex l = some n) :
    ∃ d ds, l = '0' :: 'x' :: d :: ds ∧ ∀ c ∈ d :: ds, c ≠ dq := by
  unfold parseHex at h
  split at h
  · next d ds => exact ⟨d, ds, rfl, hexDigitsValue_all _ _ _ h⟩
  · simp at h

theorem trimQuotes_quoted (l : List Char) (n : Nat) (h : parseHex l = some n) :
    trimQuotes (dq :: (l ++ [dq])) = l := by
  obtain ⟨d, ds, rfl, hall⟩ := parseHex_shape l n h
  have h1 : List.dropWhile (fun c => c == dq) (dq :: (('0' :: 'x' :: d :: ds) ++ [dq])) =
      ('0' :: 'x' :: d :: ds) ++ [dq] := by
    rw [List.dropWhile_cons_of_pos (by simp)]
    exact List.dropWhile_cons_of_neg (by decide)
  unfold trimQuotes
  rw [h1]
  show List.rdropWhile (fun c => c == dq) (('0' :: 'x' :: d :: ds) ++ [dq]) = _
  rw [List.rdropWhile_concat_pos _ _ _ (by simp)]
  rw [List.rdropWhile_eq_self_iff]
  intro hl
  have : ('0' :: 'x' :: d :: ds).getLast hl ∈ d :: ds := by
    rw [List.getLast_cons (by simp), List.getLast_cons (by simp)]
    exact List.getLast_mem _
  simpa using hall _ this

theorem hexInt_UnmarshalJSON_string (cur : hexInt) (t : String) (a : Int)
    (h : ParseInt t = (a, none)) :
    hexInt.UnmarshalJSON cur (JSON.string t).bytes = (a, none) := by
  have hp : ∃ n, parseHex t.toList = some n := by
    unfold ParseInt at h
    cases hq : parseHex t.toList with
    | none =>
      rw [hq] at h
      simp at h
    | some n => exact ⟨n, rfl⟩
  obtain ⟨n, hn⟩ := hp
  unfold hexInt.UnmarshalJSON
  have : String.mk (trimQuotes (JSON.string t).bytes.toList) = t := by
    show String.mk (trimQuotes (dq :: (t.toList ++ [dq]))) = t
    rw [trimQuotes_quoted _ n hn]
    cases t
    rfl
  rw [this, h]



theorem lookupField_mem (names : List String) (key f : String)
    (h : lookupField names key = some f) : f ∈ names := by
  unfold lookupField at h
  split at h
  · next n hn =>
    cases h
    exact List.mem_of_find?_eq_some hn
  · exact List.mem_of_find?_eq_some h

theorem decodeHexInt_isHexNumeral (cur : hexInt) (saved : Option error) (v : JSON) (x : Int)
    (h : isHexNumeral x v = true) : decodeHexInt cur saved v = .ok (x, saved) := by
  cases v with
  | string t =>
    have hp : ParseInt t = (x, none) := by simpa [isHexNumeral] using h
    unfold decodeHexInt
    rw [hexInt_UnmarshalJSON_string cur t x hp]
  | _ => simp [isHexNumeral] at h

/-- The proxy after an object whose members for the three fields are hex numerals. -/
theorem decodeMembers_proxySyncing (a b c : Int) (ms : List (String × JSON))
    (ha : ∀ m ∈ ms, namesField proxySyncing.fields "startingBlock" m.1 = true →
      isHexNumeral a m.2 = true)
    (hb : ∀ m ∈ ms, namesField proxySyncing.fields "currentBlock" m.1 = true →
      isHexNumeral b m.2 = true)
    (hc : ∀ m ∈ ms, namesField proxySyncing.fields "highestBlock" m.1 = true →
      isHexNumeral c m.2 = true) (p : proxySyncing) :
    decodeMembers proxySyncing.setField ms p none =
      .ok ({ IsSyncing := p.IsSyncing
             StartingBlock :=
               bif ms.any (fun m => namesField proxySyncing.fields "startingBlock" m.1)
               then a else p.StartingBlock
             CurrentBlock :=
               bif ms.any (fun m => namesField proxySyncing.fields "currentBlock" m.1)
               then b else p.CurrentBlock
             HighestBlock :=
               bif ms.any (fun m => namesField proxySyncing.fields "highestBlock" m.1)
               then c else p.HighestBlock }, none) := by
  induction ms generalizing p with
  | nil => simp [decodeMembers]
  | cons m ms ih =>
    obtain ⟨k, v⟩ := m
    have ha' := fun m hm => ha m (List.mem_cons_of_mem _ hm)
    have hb' := fun m hm => hb m (List.mem_cons_of_mem _ hm)
    have hc' := fun m hm => hc m (List.mem_cons_of_mem _ hm)
    have ha0 := ha (k, v) (List.mem_cons_self _ _)
    have hb0 := hb (k, v) (List.mem_cons_self _ _)
    have hc0 := hc (k, v) (List.mem_cons_self _ _)
    simp only [namesField] at ha0 hb0 hc0
    have step : ∀ r, proxySyncing.setField p none (unquote k) v = .ok r →
        decodeMembers proxySyncing.setField ((k, v) :: ms) p none =
          decodeMembers proxySyncing.setField ms r.1 r.2 := by
      intro r hr
      rw [decodeMembers, hr]
    have nf : ∀ f, namesField proxySyncing.fields f k =
        (lookupField proxySyncing.fields (unquote k) == some f) := fun f => rfl
    cases hl : lookupField proxySyncing.fields (unquote k) with
    | none =>
      have e1 : namesField proxySyncing.fields "startingBlock" k = false := by
        rw [nf, hl]; decide
      have e2 : namesField proxySyncing.fields "currentBlock" k = false := by
        rw [nf, hl]; decide
      have e3 : namesField proxySyncing.fields "highestBlock" k = false := by
        rw [nf, hl]; decide
      rw [step (p, none) (by simp [proxySyncing.setField, hl]), ih ha' hb' hc' p]
      simp [e1, e2, e3]
    | some f =>
      have hf := lookupField_mem _ _ _ hl
      simp only [proxySyncing.fields, List.mem_cons, List.mem_singleton, List.not_mem_nil,
        or_false] at hf
      rcases hf with rfl | rfl | rfl
      · have e1 : namesField proxySyncing.fields "startingBlock" k = true := by
          rw [nf, hl]; decide
        have e2 : namesField proxySyncing.fields "currentBlock" k = false := by
          rw [nf, hl]; decide
        have e3 : namesField proxySyncing.fields "highestBlock" k = false := by
          rw [nf, hl]; decide
        rw [step ({ p with StartingBlock := a }, none) (by
          simp [proxySyncing.setField, hl, Except.map,
            decodeHexInt_isHexNumeral _ _ _ a (ha0 (by simp [hl]))]), ih ha' hb' hc']
        simp [e1, e2, e3]
      · have e1 : namesField proxySyncing.fields "startingBlock" k = false := by
          rw [nf, hl]; decide
        have e2 : namesField proxySyncing.fields "currentBlock" k = true := by
          rw [nf, hl]; decide
        have e3 : namesField proxySyncing.fields "highestBlock" k = false := by
          rw [nf, hl]; decide
        rw [step ({ p with CurrentBlock := b }, none) (by
          simp [proxySyncing.setField, hl, Except.map,
            decodeHexInt_isHexNumeral _ _ _ b (hb0 (by simp [hl]))]), ih ha' hb' hc']
        simp [e1, e2, e3]
      · have e1 : namesField proxySyncing.fields "startingBlock" k = false := by
          rw [nf, hl]; decide
        have e2 : namesField proxySyncing.fields "currentBlock" k = false := by
          rw [nf, hl]; decide
        have e3 : namesField proxySyncing.fields "highestBlock" k = true := by
          rw [nf, hl]; decide
        rw [step ({ p with HighestBlock := c }, none) (by
          simp [proxySyncing.setField, hl, Except.map,
            decodeHexInt_isHexNumeral _ _ _ c (hc0 (by simp [hl]))]), ih ha' hb' hc']
        simp [e1, e2, e3]



theorem hexMember_spec (fields : List String) (ms : List (String × JSON)) (f : String)
    (x : Int) (h : hexMember fields ms f x = true) :
    ms.any (fun m => namesField fields f m.1) = true ∧
      ∀ m ∈ ms, namesField fields f m.1 = true → isHexNumeral x m.2 = true := by
  unfold hexMember at h
  rw [Bool.and_eq_true] at h
  refine ⟨h.1, fun m hm hn => ?_⟩
  have := List.all_eq_true.1 h.2 m hm
  simpa [hn] using this

/-- C3 as stated fails: on the literal `false`, decoded into a fresh `Syncing`, the decoder
of `eth_syncing` returns an error, not the not-syncing status with a nil error. -/
theorem Syncing_UnmarshalJSON_false_rejected :
    (Syncing.UnmarshalJSON {} (JSON.bool false)).2 ≠ none ∧
      Syncing.UnmarshalJSON {} (JSON.bool false) ≠
        ({ IsSyncing := false, StartingBlock := 0, CurrentBlock := 0, HighestBlock := 0 },
          none) := by
  refine ⟨by decide, by decide⟩

/-- C3, amended: on the literal `false` the decoder of `eth_syncing` returns the type error
of `encoding/json` (a bool cannot go into the struct `proxySyncing`) and leaves the
receiver as it was. The method decodes the object reply only: whatever the payload, a
return without error has `IsSyncing` true, so the not-syncing status `{false, 0, 0, 0}`
with a nil error is never what it returns. -/
theorem Syncing_UnmarshalJSON_false (s : Syncing) (data : JSON) :
    Syncing.UnmarshalJSON s (JSON.bool false) =
        (s, some (error.UnmarshalTypeError "bool" "ethrpc.proxySyncing")) ∧
      ((Syncing.UnmarshalJSON s data).2 = none →
        (Syncing.UnmarshalJSON s data).1.IsSyncing = true) ∧
      Syncing.UnmarshalJSON s data ≠
        ({ IsSyncing := false, StartingBlock := 0, CurrentBlock := 0, HighestBlock := 0 },
          none) := by
  have key : (Syncing.UnmarshalJSON s data).2 = none →
      (Syncing.UnmarshalJSON s data).1.IsSyncing = true := by
    unfold Syncing.UnmarshalJSON
    cases unmarshalProxySyncing data {} with
    | error e => intro h; simp at h
    | ok proxy => intro _; rfl
  refine ⟨rfl, key, fun h => ?_⟩
  have h1 := key (by rw [h])
  rw [h] at h1
  simp at h1

/-- C3, amended, at an object with `startingBlock` alone, decoded into a record that held
the not-syncing status. -/
theorem Syncing_UnmarshalJSON_false_witness :
    (Syncing.UnmarshalJSON { IsSyncing := false }
        (JSON.object [("startingBlock", JSON.string "0x1")])).2 = none ∧
      (Syncing.UnmarshalJSON { IsSyncing := false }
        (JSON.object [("startingBlock", JSON.string "0x1")])).1.IsSyncing = true :=
  ⟨by decide,
    (Syncing_UnmarshalJSON_false { IsSyncing := false }
      (JSON.object [("startingBlock", JSON.string "0x1")])).2.1 (by decide)⟩

/-- C4: for an object whose members for `startingBlock`, `currentBlock`, `highestBlock`
are hex numerals of values `a`, `b`, `c`, `Syncing.UnmarshalJSON` returns no error and the
receiver becomes `{true, a, b, c}`. -/
theorem Syncing_UnmarshalJSON_hex_object (s : Syncing) (ms : List (String × JSON))
    (a b c : Int)
    (ha : hexMember proxySyncing.fields ms "startingBlock" a = true)
    (hb : hexMember proxySyncing.fields ms "currentBlock" b = true)
    (hc : hexMember proxySyncing.fields ms "highestBlock" c = true) :
    Syncing.UnmarshalJSON s (JSON.object ms) =
      ({ IsSyncing := true, StartingBlock := a, CurrentBlock := b, HighestBlock := c },
        none) := by
  obtain ⟨ha1, ha2⟩ := hexMember_spec _ _ _ _ ha
  obtain ⟨hb1, hb2⟩ := hexMember_spec _ _ _ _ hb
  obtain ⟨hc1, hc2⟩ := hexMember_spec _ _ _ _ hc
  have h := decodeMembers_proxySyncing a b c ms ha2 hb2 hc2 {}
  rw [ha1, hb1, hc1] at h
  unfold Syncing.UnmarshalJSON unmarshalProxySyncing decodeStruct
  simp only [h, json.result, cond_true]

/-- C4, at the payload of the spec: the three members are hex numerals of values 0, 5 and
10, and the result is `{true, 0, 5, 10}`. -/
theorem Syncing_UnmarshalJSON_hex_object_witness :
    hexMember proxySyncing.fields
        [("startingBlock", JSON.string "0x0"), ("currentBlock", JSON.string "0x5"),
          ("highestBlock", JSON.string "0xa")] "startingBlock" 0 = true ∧
      hexMember proxySyncing.fields
        [("startingBlock", JSON.string "0x0"), ("currentBlock", JSON.string "0x5"),
          ("highestBlock", JSON.string "0xa")] "currentBlock" 5 = true ∧
      hexMember proxySyncing.fields
        [("startingBlock", JSON.string "0x0"), ("currentBlock", JSON.string "0x5"),
          ("highestBlock", JSON.string "0xa")] "highestBlock" 10 = true ∧
      Syncing.UnmarshalJSON {}
        (JSON.object [("startingBlock", JSON.string "0x0"),
          ("currentBlock", JSON.string "0x5"), ("highestBlock", JSON.string "0xa")]) =
        ({ IsSyncing := true, StartingBlock := 0, CurrentBlock := 5, HighestBlock := 10 },
          none) :=
  ⟨by decide, by decide, by decide,
    Syncing_UnmarshalJSON_hex_object {} _ 0 5 10 (by decide) (by decide) (by decide)⟩

theorem decodeHexInt_eq (cur : hexInt) (saved : Option error) (v : JSON) :
    decodeHexInt cur saved v =
      match hexInt.UnmarshalJSON 0 v.bytes with
      | (i, none) => .ok (i, saved)
      | (_, some err) => .error err := rfl

/-- One member decoded into a `proxySyncing`: an error exactly when the member is for one
of the fields and `hexInt.UnmarshalJSON` rejects its value; no type error is ever saved. -/
theorem proxySyncing_setField_cases (p : proxySyncing) (k : String) (v : JSON) :
    (((lookupField proxySyncing.fields (unquote k)).isSome && rejectedByHexInt v) = true →
        ∃ e, proxySyncing.setField p none (unquote k) v = .error e) ∧
      (((lookupField proxySyncing.fields (unquote k)).isSome && rejectedByHexInt v) = false →
        ∃ p1, proxySyncing.setField p none (unquote k) v = .ok (p1, none)) := by
  unfold proxySyncing.setField
  cases hl : lookupField proxySyncing.fields (unquote k) with
  | none => simp
  | some f =>
    simp only [Option.isSome_some, Bool.true_and, rejectedByHexInt, decodeHexInt_eq]
    rcases hu : hexInt.UnmarshalJSON 0 v.bytes with ⟨i, _ | e⟩
    · simp only [Option.isSome_none, Bool.false_eq_true, false_implies, true_and]
      intro _
      split_ifs <;> exact ⟨_, rfl⟩
    · simp only [Option.isSome_some, true_implies, Bool.true_eq_false, false_implies, and_true]
      split_ifs <;> exact ⟨e, rfl⟩

theorem decodeMembers_proxySyncing_cases (ms : List (String × JSON)) (p : proxySyncing) :
    (ms.any (fun m => (lookupField proxySyncing.fields (unquote m.1)).isSome &&
        rejectedByHexInt m.2) = true →
      ∃ e, decodeMembers proxySyncing.setField ms p none = .error e) ∧
    (ms.any (fun m => (lookupField proxySyncing.fields (unquote m.1)).isSome &&
        rejectedByHexInt m.2) = false →
      ∃ p1, decodeMembers proxySyncing.setField ms p none = .ok (p1, none)) := by
  induction ms generalizing p with
  | nil => simp [decodeMembers]
  | cons m ms ih =>
    obtain ⟨k, v⟩ := m
    have hs := proxySyncing_setField_cases p k v
    rw [decodeMembers, List.any_cons]
    cases hb : ((lookupField proxySyncing.fields (unquote k)).isSome && rejectedByHexInt v)
    · obtain ⟨p1, hp1⟩ := hs.2 hb
      rw [hp1]
      simpa using ih p1
    · obtain ⟨e, he⟩ := hs.1 hb
      rw [he]
      simp

/-- C5 as stated fails: the literal `null`, the empty object and an object without
`highestBlock` are decoded without an error, and the record says `IsSyncing = true`. -/
theorem Syncing_UnmarshalJSON_accepts_incomplete :
    Syncing.UnmarshalJSON {} JSON.null =
        ({ IsSyncing := true, StartingBlock := 0, CurrentBlock := 0, HighestBlock := 0 },
          none) ∧
      Syncing.UnmarshalJSON {} (JSON.object []) =
        ({ IsSyncing := true, StartingBlock := 0, CurrentBlock := 0, HighestBlock := 0 },
          none) ∧
      Syncing.UnmarshalJSON {}
          (JSON.object [("startingBlock", JSON.string "0x1"),
            ("currentBlock", JSON.string "0x2")]) =
        ({ IsSyncing := true, StartingBlock := 1, CurrentBlock := 2, HighestBlock := 0 },
          none) := by
  refine ⟨by decide, by decide, by decide⟩

/-- C5, amended: for a payload other than the literal `false`, `Syncing.UnmarshalJSON`
returns an error exactly when the payload is malformed: the literal `true`, a number, a
string, an array, or an object in which a member for `startingBlock`, `currentBlock` or
`highestBlock` has a value that `hexInt.UnmarshalJSON` rejects. -/
theorem Syncing_UnmarshalJSON_error_iff (s : Syncing) (data : JSON)
    (h : data ≠ JSON.bool false) :
    (Syncing.UnmarshalJSON s data).2 ≠ none ↔ malformedSyncing data = true := by
  cases data with
  | null => simp [Syncing.UnmarshalJSON, unmarshalProxySyncing, decodeStruct, json.result,
      malformedSyncing]
  | bool b =>
    cases b
    · exact absurd rfl h
    · simp [Syncing.UnmarshalJSON, unmarshalProxySyncing, decodeStruct, json.result,
        malformedSyncing, saveError]
  | number t => simp [Syncing.UnmarshalJSON, unmarshalProxySyncing, decodeStruct,
      json.result, malformedSyncing, saveError]
  | string t => simp [Syncing.UnmarshalJSON, unmarshalProxySyncing, decodeStruct,
      json.result, malformedSyncing, saveError]
  | array xs => simp [Syncing.UnmarshalJSON, unmarshalProxySyncing, decodeStruct,
      json.result, malformedSyncing, saveError]
  | object ms =>
    have hc := decodeMembers_proxySyncing_cases ms {}
    unfold malformedSyncing
    cases hb : ms.any (fun m => (lookupField proxySyncing.fields (unquote m.1)).isSome &&
        rejectedByHexInt m.2)
    · obtain ⟨p1, hp1⟩ := hc.2 hb
      simp only [hb]
      simp [Syncing.UnmarshalJSON, unmarshalProxySyncing, decodeStruct, json.result, hp1]
    · obtain ⟨e, he⟩ := hc.1 hb
      simp only [hb]
      simp [Syncing.UnmarshalJSON, unmarshalProxySyncing, decodeStruct, json.result, he]

/-- C5, amended, at the object with a `currentBlock` that is not a hex numeral. -/
theorem Syncing_UnmarshalJSON_error_iff_witness :
    JSON.object [("startingBlock", JSON.string "0x1"), ("currentBlock", JSON.string "5")] ≠
        JSON.bool false ∧
      ((Syncing.UnmarshalJSON {}
          (JSON.object [("startingBlock", JSON.string "0x1"),
            ("currentBlock", JSON.string "5")])).2 ≠ none ↔
        malformedSyncing
          (JSON.object [("startingBlock", JSON.string "0x1"),
            ("currentBlock", JSON.string "5")]) = true) :=
  ⟨fun h => JSON.noConfusion h,
    Syncing_UnmarshalJSON_error_iff {} _ (fun h => JSON.noConfusion h)⟩

/-! ## Transactions: `null` and a missing key -/

theorem Except_map_eq_ok {ε α β : Type} (f : α → β) (x : Except ε α) (y : β) :
    x.map f = .ok y ↔ ∃ a, x = .ok a ∧ f a = y := by
  cases x <;> simp [Except.map]

theorem decodeMembers_append {σ : Type}
    (setField : σ → Option error → String → JSON → Decoded σ)
    (xs ys : List (String × JSON)) (p : σ) (saved : Option error) :
    decodeMembers setField (xs ++ ys) p saved =
      match decodeMembers setField xs p saved with
      | .error err => .error err
      | .ok (p1, saved1) => decodeMembers setField ys p1 saved1 := by
  induction xs generalizing p saved with
  | nil => simp [decodeMembers]
  | cons m xs ih =>
    obtain ⟨k, v⟩ := m
    rw [List.cons_append, decodeMembers, decodeMembers]
    cases h : setField p saved (unquote k) v with
    | error e => simp
    | ok r => simpa using ih r.1 r.2

theorem proxyTransaction_setField_keeps (p p1 : proxyTransaction) (saved saved1 : Option error)
    (key : String) (v : JSON)
    (h : proxyTransaction.setField p saved key v = .ok (p1, saved1)) :
    (lookupField proxyTransaction.fields key ≠ some "blockNumber" →
        p1.BlockNumber = p.BlockNumber) ∧
      (lookupField proxyTransaction.fields key ≠ some "transactionIndex" →
        p1.TransactionIndex = p.TransactionIndex) := by
  unfold proxyTransaction.setField at h
  cases hl : lookupField proxyTransaction.fields key with
  | none =>
    rw [hl] at h
    simp only [Except.ok.injEq, Prod.mk.injEq] at h
    obtain ⟨rfl, _⟩ := h
    exact ⟨fun _ => rfl, fun _ => rfl⟩
  | some f =>
    have hf := lookupField_mem _ _ _ hl
    rw [hl] at h
    simp only [proxyTransaction.fields, List.mem_cons, List.mem_singleton, List.not_mem_nil,
      or_false] at hf
    rcases hf with rfl | rfl | rfl | rfl | rfl | rfl | rfl | rfl | rfl | rfl | rfl <;>
      replace h := (Except_map_eq_ok _ _ _).1 h <;> obtain ⟨a, _, ha⟩ := h <;>
      simp only [Prod.mk.injEq] at ha <;> obtain ⟨rfl, _⟩ := ha <;>
      refine ⟨fun hne => ?_, fun hne => ?_⟩ <;>
      first
        | rfl
        | exact absurd rfl hne



theorem decodeMembers_proxyTransaction_keeps (ms : List (String × JSON))
    (p p1 : proxyTransaction) (saved saved1 : Option error)
    (h : decodeMembers proxyTransaction.setField ms p saved = .ok (p1, saved1)) :
    (ms.any (fun m => namesField proxyTransaction.fields "blockNumber" m.1) = false →
        p1.BlockNumber = p.BlockNumber) ∧
      (ms.any (fun m => namesField proxyTransaction.fields "transactionIndex" m.1) = false →
        p1.TransactionIndex = p.TransactionIndex) := by
  induction ms generalizing p saved with
  | nil =>
    simp only [decodeMembers, Except.ok.injEq, Prod.mk.injEq] at h
    obtain ⟨rfl, _⟩ := h
    exact ⟨fun _ => rfl, fun _ => rfl⟩
  | cons m ms ih =>
    obtain ⟨k, v⟩ := m
    rw [decodeMembers] at h
    cases hs : proxyTransaction.setField p saved (unquote k) v with
    | error e => simp [hs] at h
    | ok r =>
      rw [hs] at h
      have h1 := ih r.1 r.2 h
      have h2 := proxyTransaction_setField_keeps p r.1 saved r.2 (unquote k) v hs
      simp only [List.any_cons, Bool.or_eq_false_iff, namesField, beq_eq_false_iff_ne] at *
      exact ⟨fun hn => (h1.1 hn.2).trans (h2.1 hn.1), fun hn => (h1.2 hn.2).trans (h2.2 hn.1)⟩

theorem proxyTransaction_setField_null (p : proxyTransaction) (saved : Option error) :
    (p.BlockNumber = none →
        proxyTransaction.setField p saved (unquote "blockNumber") JSON.null = .ok (p, saved)) ∧
      (p.TransactionIndex = none →
        proxyTransaction.setField p saved (unquote "transactionIndex") JSON.null =
          .ok (p, saved)) := by
  have e1 : lookupField proxyTransaction.fields (unquote "blockNumber") = some "blockNumber" := by
    decide
  have e2 : lookupField proxyTransaction.fields (unquote "transactionIndex") =
      some "transactionIndex" := by decide
  constructor
  · intro hp
    unfold proxyTransaction.setField
    rw [e1]
    obtain ⟨a1, a2, a3, a4, a5, a6, a7, a8, a9, a10, a11⟩ := p
    cases hp
    rfl
  · intro hp
    unfold proxyTransaction.setField
    rw [e2]
    obtain ⟨a1, a2, a3, a4, a5, a6, a7, a8, a9, a10, a11⟩ := p
    cases hp
    rfl

/-- The member `f: null` left out of an object without any other member for `f` makes no
difference to the decoded proxy. -/
theorem unmarshalProxyTransaction_null (pre post : List (String × JSON)) (f : String)
    (hf : f = "blockNumber" ∨ f = "transactionIndex")
    (habs : (pre ++ post).any (fun m => namesField proxyTransaction.fields f m.1) = false) :
    unmarshalProxyTransaction (JSON.object (pre ++ (f, JSON.null) :: post)) {} =
      unmarshalProxyTransaction (JSON.object (pre ++ post)) {} := by
  unfold unmarshalProxyTransaction decodeProxyTransaction decodeStruct
  simp only []
  rw [decodeMembers_append, decodeMembers_append]
  cases hd : decodeMembers proxyTransaction.setField pre {} none with
  | error e => rfl
  | ok r =>
    obtain ⟨p1, saved1⟩ := r
    have hk := decodeMembers_proxyTransaction_keeps pre {} p1 none saved1 hd
    rw [List.any_append, Bool.or_eq_false_iff] at habs
    simp only []
    rw [decodeMembers]
    rcases hf with rfl | rfl
    · rw [(proxyTransaction_setField_null p1 saved1).1 (hk.1 habs.1)]
    · rw [(proxyTransaction_setField_null p1 saved1).2 (hk.2 habs.1)]

theorem unmarshalProxyTransaction_absent (ms : List (String × JSON)) (proxy : proxyTransaction)
    (h : unmarshalProxyTransaction (JSON.object ms) {} = .ok proxy) :
    (ms.any (fun m => namesField proxyTransaction.fields "blockNumber" m.1) = false →
        proxy.BlockNumber = none) ∧
      (ms.any (fun m => namesField proxyTransaction.fields "transactionIndex" m.1) = false →
        proxy.TransactionIndex = none) := by
  unfold unmarshalProxyTransaction decodeProxyTransaction decodeStruct at h
  simp only [] at h
  cases hd : decodeMembers proxyTransaction.setField ms {} none with
  | error e => simp [hd, json.result] at h
  | ok r =>
    obtain ⟨p1, saved1⟩ := r
    rw [hd] at h
    cases saved1 with
    | some e => simp [json.result] at h
    | none =>
      simp only [json.result, Except.ok.injEq] at h
      subst h
      exact decodeMembers_proxyTransaction_keeps ms {} p1 none none hd

/-- C6 as stated fails: a transaction payload with `"blockNumber": null` and the same
payload without the key decode to the same `Transaction`, `BlockNumber` being nil in both
(likewise `transactionIndex`). -/
theorem Transaction_UnmarshalJSON_null_same_as_absent :
    Transaction.UnmarshalJSON {}
        (JSON.object [("hash", JSON.string "0x1"), ("blockNumber", JSON.null),
          ("transactionIndex", JSON.null)]) =
      Transaction.UnmarshalJSON {} (JSON.object [("hash", JSON.string "0x1")]) ∧
    (Transaction.UnmarshalJSON {}
        (JSON.object [("hash", JSON.string "0x1"), ("blockNumber", JSON.null),
          ("transactionIndex", JSON.null)])).1.BlockNumber = none ∧
    (Transaction.UnmarshalJSON {} (JSON.object [("hash", JSON.string "0x1")])).1.BlockNumber =
      none := by
  refine ⟨by decide, by decide, by decide⟩

/-- C6, amended: take a transaction payload without a member for `f` (`blockNumber` or
`transactionIndex`) and the same payload with `f: null` added anywhere.
`Transaction.UnmarshalJSON` returns the same record and the same error for both, whatever
the receiver, and in a fresh record the field is nil for both. -/
theorem Transaction_UnmarshalJSON_null_is_absent (t : Transaction)
    (pre post : List (String × JSON)) (f : String)
    (hf : f = "blockNumber" ∨ f = "transactionIndex")
    (habs : (pre ++ post).any (fun m => namesField proxyTransaction.fields f m.1) = false) :
    Transaction.UnmarshalJSON t (JSON.object (pre ++ (f, JSON.null) :: post)) =
        Transaction.UnmarshalJSON t (JSON.object (pre ++ post)) ∧
      (f = "blockNumber" →
        (Transaction.UnmarshalJSON {} (JSON.object (pre ++ post))).1.BlockNumber = none) ∧
      (f = "transactionIndex" →
        (Transaction.UnmarshalJSON {} (JSON.object (pre ++ post))).1.TransactionIndex =
          none) := by
  refine ⟨?_, ?_, ?_⟩
  · unfold Transaction.UnmarshalJSON
    rw [unmarshalProxyTransaction_null pre post f hf habs]
  · intro h
    subst h
    unfold Transaction.UnmarshalJSON
    cases hu : unmarshalProxyTransaction (JSON.object (pre ++ post)) {} with
    | error e => rfl
    | ok proxy =>
      have := (unmarshalProxyTransaction_absent _ proxy hu).1 habs
      simp only [this]
  · intro h
    subst h
    unfold Transaction.UnmarshalJSON
    cases hu : unmarshalProxyTransaction (JSON.object (pre ++ post)) {} with
    | error e => rfl
    | ok proxy =>
      have := (unmarshalProxyTransaction_absent _ proxy hu).2 habs
      simp only [this]

/-- C6, amended, at a pending transaction: `blockNumber: null` between `hash` and `gas`. -/
theorem Transaction_UnmarshalJSON_null_is_absent_witness :
    ([("hash", JSON.string "0x1")] ++ [("gas", JSON.string "0x5208")]).any
        (fun m => namesField proxyTransaction.fields "blockNumber" m.1) = false ∧
      Transaction.UnmarshalJSON { BlockNumber := some 7 }
          (JSON.object ([("hash", JSON.string "0x1")] ++
            ("blockNumber", JSON.null) :: [("gas", JSON.string "0x5208")])) =
        Transaction.UnmarshalJSON { BlockNumber := some 7 }
          (JSON.object ([("hash", JSON.string "0x1")] ++ [("gas", JSON.string "0x5208")])) :=
  ⟨by decide,
    (Transaction_UnmarshalJSON_null_is_absent { BlockNumber := some 7 }
      [("hash", JSON.string "0x1")] [("gas", JSON.string "0x5208")] "blockNumber"
      (Or.inl rfl) (by decide)).1⟩

/-! ## Blocks: `toBlock` -/

theorem foldl_enumFrom_set {α β : Type} (f : α → β) (xs : List α) (pre rest : List β)
    (h : rest.length = xs.length) :
    (xs.enumFrom pre.length).foldl (fun out ix => out.set ix.1 (f ix.2)) (pre ++ rest) =
      pre ++ xs.map f := by
  induction xs generalizing pre rest with
  | nil =>
    cases rest with
    | nil => rfl
    | cons r rest => simp at h
  | cons x xs ih =>
    cases rest with
    | nil => simp at h
    | cons r rest =>
      have hlen : rest.length = xs.length := by simpa using h
      rw [List.enumFrom_cons, List.foldl_cons]
      have hset : (pre ++ r :: rest).set pre.length (f x) = (pre ++ [f x]) ++ rest := by
        simp
      have hl : pre.length + 1 = (pre ++ [f x]).length := by simp
      simp only [hset]
      rw [hl, ih (pre ++ [f x]) rest hlen]
      simp

theorem forRange_set {α β : Type} (f : α → β) (xs : List α) (zero : β) :
    forRange xs (fun i x out => out.set i (f x)) (List.replicate xs.length zero) =
      xs.map f := by
  have := foldl_enumFrom_set f xs [] (List.replicate xs.length zero) (by simp)
  simpa [forRange, List.enum] using this

/-- C7: `toBlock` of a hash-only proxy gives as many transactions as the proxy has hashes,
in the same order; entry `i` has the hash `i` and the zero value in every other field. -/
theorem toBlock_hash_only (proxy : proxyBlockWithoutTransactions) :
    proxy.toBlock.Transactions.length = proxy.Transactions.length ∧
      ∀ i : Nat, proxy.toBlock.Transactions[i]? =
        (proxy.Transactions[i]?).map (fun h =>
          ({ Hash := h, Nonce := 0, BlockHash := "", BlockNumber := none,
             TransactionIndex := none, From := "", To := "", Value := 0, Gas := 0,
             GasPrice := 0, Input := "" } : Transaction)) := by
  have h : proxy.toBlock.Transactions =
      proxy.Transactions.map (fun h => ({ Hash := h } : Transaction)) :=
    forRange_set (fun h => ({ Hash := h } : Transaction)) proxy.Transactions {}
  rw [h]
  exact ⟨by simp, fun i => by simp⟩

/-- The `Transaction` that the loop of `proxyBlockWithTransactions.toBlock` builds from
one wire transaction is the one `Transaction.UnmarshalJSON` builds in a fresh record. -/
theorem toBlock_entry_eq_UnmarshalJSON (tx : proxyTransaction) (data : JSON)
    (hd : unmarshalProxyTransaction data {} = .ok tx) :
    Transaction.UnmarshalJSON {} data =
      (({ Hash := tx.Hash, Nonce := tx.Nonce, BlockHash := tx.BlockHash,
          BlockNumber := tx.BlockNumber, TransactionIndex := tx.TransactionIndex,
          From := tx.From, To := tx.To, Value := tx.Value, Gas := tx.Gas,
          GasPrice := tx.GasPrice, Input := tx.Input } : Transaction), none) := by
  unfold Transaction.UnmarshalJSON
  rw [hd]
  obtain ⟨a1, a2, a3, a4, a5, a6, a7, a8, a9, a10, a11⟩ := tx
  cases a4 <;> cases a5 <;> rfl

theorem toBlock_full_transactions (proxy : proxyBlockWithTransactions) :
    proxy.toBlock.Transactions =
      proxy.Transactions.map (fun tx =>
        ({ Hash := tx.Hash, Nonce := tx.Nonce, BlockHash := tx.BlockHash,
           BlockNumber := tx.BlockNumber, TransactionIndex := tx.TransactionIndex,
           From := tx.From, To := tx.To, Value := tx.Value, Gas := tx.Gas,
           GasPrice := tx.GasPrice, Input := tx.Input } : Transaction)) := by
  have h := forRange_set (fun tx : proxyTransaction =>
        ({ Hash := tx.Hash, Nonce := tx.Nonce, BlockHash := tx.BlockHash,
           BlockNumber := tx.BlockNumber, TransactionIndex := tx.TransactionIndex,
           From := tx.From, To := tx.To, Value := tx.Value, Gas := tx.Gas,
           GasPrice := tx.GasPrice, Input := tx.Input } : Transaction)) proxy.Transactions {}
  rw [← h]
  show forRange proxy.Transactions withTransactionsBody _ = _
  congr 1
  funext i tx out
  unfold withTransactionsBody
  obtain ⟨a1, a2, a3, a4, a5, a6, a7, a8, a9, a10, a11⟩ := tx
  cases a4 <;> cases a5 <;> rfl

/-- C8: `toBlock` of a full-variant proxy keeps length and order, and its entry `i` is the
record that `Transaction.UnmarshalJSON` builds, in a fresh `Transaction` and without error,
from a payload `data` that decodes to the wire transaction `i`. -/
theorem toBlock_full_variant (proxy : proxyBlockWithTransactions) (i : Nat)
    (tx : proxyTransaction) (data : JSON) (hi : proxy.Transactions[i]? = some tx)
    (hd : unmarshalProxyTransaction data {} = .ok tx) :
    proxy.toBlock.Transactions.length = proxy.Transactions.length ∧
      proxy.toBlock.Transactions[i]? = some (Transaction.UnmarshalJSON {} data).1 ∧
      (Transaction.UnmarshalJSON {} data).2 = none := by
  rw [toBlock_full_transactions, toBlock_entry_eq_UnmarshalJSON tx data hd]
  refine ⟨by simp, ?_, rfl⟩
  rw [List.getElem?_map, hi]
  rfl

/-- C8, at a block with a pending and a mined transaction, entry 1. -/
theorem toBlock_full_variant_witness :
    (({ Transactions := [{ Hash := "0xaa" },
        { Hash := "0xbb", BlockNumber := some 16, Gas := 21000 }] } :
        proxyBlockWithTransactions).Transactions[1]? =
      some { Hash := "0xbb", BlockNumber := some 16, Gas := 21000 }) ∧
    unmarshalProxyTransaction
      (JSON.object [("hash", JSON.string "0xbb"), ("blockNumber", JSON.string "0x10"),
        ("gas", JSON.string "0x5208")]) {} =
      .ok { Hash := "0xbb", BlockNumber := some 16, Gas := 21000 } ∧
    (({ Transactions := [{ Hash := "0xaa" },
        { Hash := "0xbb", BlockNumber := some 16, Gas := 21000 }] } :
        proxyBlockWithTransactions).toBlock.Transactions[1]? =
      some (Transaction.UnmarshalJSON {}
        (JSON.object [("hash", JSON.string "0xbb"), ("blockNumber", JSON.string "0x10"),
          ("gas", JSON.string "0x5208")])).1) :=
  ⟨rfl, rfl,
    (toBlock_full_variant
      { Transactions := [{ Hash := "0xaa" },
        { Hash := "0xbb", BlockNumber := some 16, Gas := 21000 }] } 1
      { Hash := "0xbb", BlockNumber := some 16, Gas := 21000 }
      (JSON.object [("hash", JSON.string "0xbb"), ("blockNumber", JSON.string "0x10"),
        ("gas", JSON.string "0x5208")]) rfl rfl).2.1⟩

/-- C10: with equal shared fields and no transactions on either side, the two `toBlock`
give the same `Block`, and it has no transactions. -/
theorem toBlock_empty_transactions (a : proxyBlockWithTransactions)
    (b : proxyBlockWithoutTransactions) (hs : sharedFieldsEqual a b)
    (ha : a.Transactions = []) (hb : b.Transactions = []) :
    a.toBlock = b.toBlock ∧ a.toBlock.Transactions = [] ∧ b.toBlock.Transactions = [] := by
  obtain ⟨a1, a2, a3, a4, a5, a6, a7, a8, a9, a10, a11, a12, a13, a14, a15, a16, a17, a18⟩ := a
  obtain ⟨b1, b2, b3, b4, b5, b6, b7, b8, b9, b10, b11, b12, b13, b14, b15, b16, b17, b18⟩ := b
  obtain ⟨h1, h2, h3, h4, h5, h6, h7, h8, h9, h10, h11, h12, h13, h14, h15, h16, h17⟩ := hs
  simp only at h1 h2 h3 h4 h5 h6 h7 h8 h9 h10 h11 h12 h13 h14 h15 h16 h17 ha hb
  subst h1 h2 h3 h4 h5 h6 h7 h8 h9 h10 h11 h12 h13 h14 h15 h16 h17 ha hb
  exact ⟨rfl, rfl, rfl⟩

/-- C10, at a block with two uncles and no transactions. -/
theorem toBlock_empty_transactions_witness :
    sharedFieldsEqual { Number := 7, Hash := "0xabc", Uncles := ["0x1", "0x2"] }
        { Number := 7, Hash := "0xabc", Uncles := ["0x1", "0x2"] } ∧
      ({ Number := 7, Hash := "0xabc", Uncles := ["0x1", "0x2"] } :
          proxyBlockWithTransactions).toBlock =
        ({ Number := 7, Hash := "0xabc", Uncles := ["0x1", "0x2"] } :
          proxyBlockWithoutTransactions).toBlock :=
  ⟨by decide,
    (toBlock_empty_transactions { Number := 7, Hash := "0xabc", Uncles := ["0x1", "0x2"] }
      { Number := 7, Hash := "0xabc", Uncles := ["0x1", "0x2"] } (by decide) rfl rfl).1⟩

/-! ## Blocks: a `transactions` array of mixed shape -/

theorem saveError_ne_none (saved : Option error) (e : error) : saveError saved e ≠ none := by
  cases saved <;> simp [saveError]

theorem keepsError_map {σ τ : Type} (d : Decoded σ) (saved : Option error)
    (f : σ × Option error → τ × Option error) (hf : ∀ r, (f r).2 = r.2)
    (h : keepsError d saved) : keepsError (d.map f) saved := by
  intro hs r hr
  obtain ⟨a, ha, rfl⟩ := (Except_map_eq_ok _ _ _).1 hr
  rw [hf]
  exact h hs a ha

theorem failsDecoding_map {σ τ : Type} (d : Decoded σ)
    (f : σ × Option error → τ × Option error) (hf : ∀ r, (f r).2 = r.2)
    (h : failsDecoding d) : failsDecoding (d.map f) := by
  intro r hr
  obtain ⟨a, ha, rfl⟩ := (Except_map_eq_ok _ _ _).1 hr
  rw [hf]
  exact h a ha

theorem decodeString_keeps (cur : String) (saved : Option error) (v : JSON) :
    keepsError (decodeString cur saved v) saved := by
  intro hs r hr
  cases v <;> simp only [decodeString, Except.ok.injEq] at hr <;> subst hr <;>
    first
      | exact hs
      | exact saveError_ne_none _ _

theorem decodeHexInt_keeps (cur : hexInt) (saved : Option error) (v : JSON) :
    keepsError (decodeHexInt cur saved v) saved := by
  intro hs r hr
  rw [decodeHexInt_eq] at hr
  rcases hu : hexInt.UnmarshalJSON 0 v.bytes with ⟨i, _ | e⟩
  · rw [hu] at hr
    simp only [Except.ok.injEq] at hr
    subst hr
    exact hs
  · rw [hu] at hr
    simp at hr

theorem decodeHexBig_keeps (cur : hexBig) (saved : Option error) (v : JSON) :
    keepsError (decodeHexBig cur saved v) saved := by
  intro hs r hr
  unfold decodeHexBig at hr
  rcases hu : hexBig.UnmarshalJSON cur v.bytes with ⟨i, _ | e⟩
  · rw [hu] at hr
    simp only [Except.ok.injEq] at hr
    subst hr
    exact hs
  · rw [hu] at hr
    simp at hr

theorem decodeHexIntPtr_keeps (cur : Option hexInt) (saved : Option error) (v : JSON) :
    keepsError (decodeHexIntPtr cur saved v) saved := by
  intro hs r hr
  unfold decodeHexIntPtr at hr
  split at hr
  · simp only [Except.ok.injEq] at hr
    subst hr
    exact hs
  · rcases hu : hexInt.UnmarshalJSON (cur.getD 0) v.bytes with ⟨i, _ | e⟩
    · rw [hu] at hr
      simp only [Except.ok.injEq] at hr
      subst hr
      exact hs
    · rw [hu] at hr
      simp at hr

theorem decodeMembers_keeps {σ : Type}
    (setField : σ → Option error → String → JSON → Decoded σ)
    (hset : ∀ p saved k v, keepsError (setField p saved k v) saved)
    (ms : List (String × JSON)) (p : σ) (saved : Option error) :
    keepsError (decodeMembers setField ms p saved) saved := by
  induction ms generalizing p saved with
  | nil =>
    intro hs r hr
    simp only [decodeMembers, Except.ok.injEq] at hr
    subst hr
    exact hs
  | cons m ms ih =>
    obtain ⟨k, v⟩ := m
    intro hs r hr
    rw [decodeMembers] at hr
    cases h1 : setField p saved (unquote k) v with
    | error e => simp [h1] at hr
    | ok r1 =>
      rw [h1] at hr
      exact ih r1.1 r1.2 (hset p saved _ v hs r1 h1) r hr

theorem decodeMembers_fails {σ : Type}
    (setField : σ → Option error → String → JSON → Decoded σ)
    (hset : ∀ p saved k v, keepsError (setField p saved k v) saved)
    (ms : List (String × JSON)) (m0 : String × JSON) (hm : m0 ∈ ms)
    (hbad : ∀ p saved, failsDecoding (setField p saved (unquote m0.1) m0.2))
    (p : σ) (saved : Option error) :
    failsDecoding (decodeMembers setField ms p saved) := by
  induction ms generalizing p saved with
  | nil => simp at hm
  | cons m ms ih =>
    obtain ⟨k, v⟩ := m
    intro r hr
    rw [decodeMembers] at hr
    cases h1 : setField p saved (unquote k) v with
    | error e => simp [h1] at hr
    | ok r1 =>
      rw [h1] at hr
      rcases List.mem_cons.1 hm with rfl | hm'
      · exact decodeMembers_keeps setField hset ms r1.1 r1.2 (hbad p saved r1 h1) r hr
      · exact ih hm' r1.1 r1.2 r hr

theorem decodeStruct_keeps {σ : Type} (goType : String)
    (setField : σ → Option error → String → JSON → Decoded σ)
    (hset : ∀ p saved k v, keepsError (setField p saved k v) saved)
    (p : σ) (saved : Option error) (v : JSON) :
    keepsError (decodeStruct goType setField p saved v) saved := by
  cases v with
  | object ms => exact decodeMembers_keeps setField hset ms p saved
  | _ =>
    intro hs r hr
    simp only [decodeStruct, Except.ok.injEq] at hr
    subst hr
    first
      | exact hs
      | exact saveError_ne_none _ _

theorem decodeElems_keeps {α : Type} (elem : α → Option error → JSON → Decoded α)
    (helem : ∀ cur saved x, keepsError (elem cur saved x) saved) (zero : α)
    (items : List JSON) (store : List α) (saved : Option error) :
    keepsError (decodeElems elem zero items store saved) saved := by
  induction items generalizing store saved with
  | nil =>
    intro hs r hr
    simp only [decodeElems, Except.ok.injEq] at hr
    subst hr
    exact hs
  | cons x xs ih =>
    intro hs r hr
    rw [decodeElems] at hr
    generalize store.headD zero = c0 at hr
    cases h1 : elem c0 saved x with
    | error e => simp [h1] at hr
    | ok r1 =>
      rw [h1] at hr
      simp only at hr
      cases h2 : decodeElems elem zero xs store.tail r1.2 with
      | error e => simp [h2] at hr
      | ok r2 =>
        rw [h2] at hr
        simp only [Except.ok.injEq] at hr
        subst hr
        exact ih store.tail r1.2 (helem _ saved x hs r1 h1) r2 h2

theorem decodeElems_fails {α : Type} (elem : α → Option error → JSON → Decoded α)
    (helem : ∀ cur saved x, keepsError (elem cur saved x) saved) (zero : α)
    (items : List JSON) (x0 : JSON) (hx : x0 ∈ items)
    (hbad : ∀ cur saved, failsDecoding (elem cur saved x0))
    (store : List α) (saved : Option error) :
    failsDecoding (decodeElems elem zero items store saved) := by
  induction items generalizing store saved with
  | nil => simp at hx
  | cons x xs ih =>
    intro r hr
    rw [decodeElems] at hr
    generalize store.headD zero = c0 at hr
    cases h1 : elem c0 saved x with
    | error e => simp [h1] at hr
    | ok r1 =>
      rw [h1] at hr
      simp only at hr
      cases h2 : decodeElems elem zero xs store.tail r1.2 with
      | error e => simp [h2] at hr
      | ok r2 =>
        rw [h2] at hr
        simp only [Except.ok.injEq] at hr
        subst hr
        rcases List.mem_cons.1 hx with rfl | hx'
        · exact decodeElems_keeps elem helem zero xs store.tail r1.2 (hbad _ saved r1 h1) r2 h2
        · exact ih hx' store.tail r1.2 r2 h2

theorem decodeSlice_keeps {α : Type} (goType : String)
    (elem : α → Option error → JSON → Decoded α)
    (helem : ∀ cur saved x, keepsError (elem cur saved x) saved) (zero : α)
    (cur : Slots α) (saved : Option error) (v : JSON) :
    keepsError (decodeSlice goType elem zero cur saved v) saved := by
  intro hs r hr
  unfold decodeSlice at hr
  split at hr
  · simp only [Except.ok.injEq] at hr
    subst hr
    exact hs
  · simp only [Except.ok.injEq] at hr
    subst hr
    exact hs
  · next items _ =>
    cases h1 : decodeElems elem zero items (cur.elems ++ cur.spare) saved with
    | error e => simp [h1] at hr
    | ok r1 =>
      rw [h1] at hr
      simp only [Except.ok.injEq] at hr
      subst hr
      exact decodeElems_keeps elem helem zero items _ saved hs r1 h1
  · simp only [Except.ok.injEq] at hr
    subst hr
    exact saveError_ne_none _ _

theorem decodeSlice_fails {α : Type} (goType : String)
    (elem : α → Option error → JSON → Decoded α)
    (helem : ∀ cur saved x, keepsError (elem cur saved x) saved) (zero : α)
    (items : List JSON) (x0 : JSON) (hx : x0 ∈ items)
    (hbad : ∀ cur saved, failsDecoding (elem cur saved x0))
    (cur : Slots α) (saved : Option error) :
    failsDecoding (decodeSlice goType elem zero cur saved (JSON.array items)) := by
  intro r hr
  cases items with
  | nil => simp at hx
  | cons x xs =>
    simp only [decodeSlice] at hr
    cases h1 : decodeElems elem zero (x :: xs) (cur.elems ++ cur.spare) saved with
    | error e => simp [h1] at hr
    | ok r1 =>
      rw [h1] at hr
      simp only [Except.ok.injEq] at hr
      subst hr
      exact decodeElems_fails elem helem zero (x :: xs) x0 hx hbad _ saved r1 h1



theorem proxyTransaction_setField_keepsError (p : proxyTransaction) (saved : Option error)
    (key : String) (v : JSON) : keepsError (proxyTransaction.setField p saved key v) saved := by
  unfold proxyTransaction.setField
  cases hl : lookupField proxyTransaction.fields key with
  | none =>
    intro hs r hr
    simp only [Except.ok.injEq] at hr
    subst hr
    exact hs
  | some f =>
    have hf := lookupField_mem _ _ _ hl
    simp only [proxyTransaction.fields, List.mem_cons, List.mem_singleton, List.not_mem_nil,
      or_false] at hf
    rcases hf with rfl | rfl | rfl | rfl | rfl | rfl | rfl | rfl | rfl | rfl | rfl <;>
      refine keepsError_map _ _ _ (fun _ => rfl) ?_ <;>
      first
        | exact decodeString_keeps _ _ _
        | exact decodeHexInt_keeps _ _ _
        | exact decodeHexBig_keeps _ _ _
        | exact decodeHexIntPtr_keeps _ _ _

theorem decodeProxyTransaction_keepsError (p : proxyTransaction) (saved : Option error)
    (v : JSON) : keepsError (decodeProxyTransaction p saved v) saved :=
  decodeStruct_keeps _ _ proxyTransaction_setField_keepsError p saved v

theorem proxyBlockWithTransactions_setField_keepsError (st : WithTransactionsState)
    (saved : Option error) (key : String) (v : JSON) :
    keepsError (proxyBlockWithTransactions.setField st saved key v) saved := by
  unfold proxyBlockWithTransactions.setField
  cases hl : lookupField proxyBlock.fields key with
  | none =>
    intro hs r hr
    simp only [Except.ok.injEq] at hr
    subst hr
    exact hs
  | some f =>
    have hf := lookupField_mem _ _ _ hl
    simp only [proxyBlock.fields, List.mem_cons, List.mem_singleton, List.not_mem_nil,
      or_false] at hf
    rcases hf with rfl | rfl | rfl | rfl | rfl | rfl | rfl | rfl | rfl | rfl | rfl | rfl |
      rfl | rfl | rfl | rfl | rfl | rfl <;>
      refine keepsError_map _ _ _ (fun _ => rfl) ?_ <;>
      first
        | exact decodeString_keeps _ _ _
        | exact decodeHexInt_keeps _ _ _
        | exact decodeHexBig_keeps _ _ _
        | exact decodeSlice_keeps _ _ decodeString_keeps _ _ _ _
        | exact decodeSlice_keeps _ _ decodeProxyTransaction_keepsError _ _ _ _

theorem proxyBlockWithoutTransactions_setField_keepsError (st : WithoutTransactionsState)
    (saved : Option error) (key : String) (v : JSON) :
    keepsError (proxyBlockWithoutTransactions.setField st saved key v) saved := by
  unfold proxyBlockWithoutTransactions.setField
  cases hl : lookupField proxyBlock.fields key with
  | none =>
    intro hs r hr
    simp only [Except.ok.injEq] at hr
    subst hr
    exact hs
  | some f =>
    have hf := lookupField_mem _ _ _ hl
    simp only [proxyBlock.fields, List.mem_cons, List.mem_singleton, List.not_mem_nil,
      or_false] at hf
    rcases hf with rfl | rfl | rfl | rfl | rfl | rfl | rfl | rfl | rfl | rfl | rfl | rfl |
      rfl | rfl | rfl | rfl | rfl | rfl <;>
      refine keepsError_map _ _ _ (fun _ => rfl) ?_ <;>
      first
        | exact decodeString_keeps _ _ _
        | exact decodeHexInt_keeps _ _ _
        | exact decodeHexBig_keeps _ _ _
        | exact decodeSlice_keeps _ _ decodeString_keeps _ _ _ _

theorem decodeProxyTransaction_string_fails (p : proxyTransaction) (saved : Option error)
    (text : String) : failsDecoding (decodeProxyTransaction p saved (JSON.string text)) := by
  intro r hr
  simp only [decodeProxyTransaction, decodeStruct, Except.ok.injEq] at hr
  subst hr
  exact saveError_ne_none _ _

theorem decodeString_object_fails (cur : String) (saved : Option error)
    (ms : List (String × JSON)) : failsDecoding (decodeString cur saved (JSON.object ms)) := by
  intro r hr
  simp only [decodeString, Except.ok.injEq] at hr
  subst hr
  exact saveError_ne_none _ _

theorem isMixedArray_spec (v : JSON) (h : v.isMixedArray = true) :
    ∃ items text ms, v = JSON.array items ∧ JSON.string text ∈ items ∧
      JSON.object ms ∈ items := by
  cases v with
  | array items =>
    simp only [JSON.isMixedArray, Bool.and_eq_true, List.any_eq_true] at h
    obtain ⟨⟨x, hx, hxs⟩, ⟨y, hy, hyo⟩⟩ := h
    cases x <;> simp [JSON.isString] at hxs
    cases y <;> simp [JSON.isObject] at hyo
    exact ⟨items, _, _, rfl, hx, hy⟩
  | _ => simp [JSON.isMixedArray] at h

theorem withTransactions_mixed_fails (st : WithTransactionsState) (saved : Option error)
    (k : String) (v : JSON)
    (hk : namesField proxyBlock.fields "transactions" k = true)
    (hv : v.isMixedArray = true) :
    failsDecoding (proxyBlockWithTransactions.setField st saved (unquote k) v) := by
  obtain ⟨items, text, ms, rfl, hs, _⟩ := isMixedArray_spec v hv
  have hl : lookupField proxyBlock.fields (unquote k) = some "transactions" := by
    simpa [namesField] using hk
  unfold proxyBlockWithTransactions.setField
  rw [hl]
  refine failsDecoding_map _ _ (fun _ => rfl) ?_
  exact decodeSlice_fails _ _ decodeProxyTransaction_keepsError _ items _ hs
    (fun cur saved => decodeProxyTransaction_string_fails cur saved text) _ _

theorem withoutTransactions_mixed_fails (st : WithoutTransactionsState)
    (saved : Option error) (k : String) (v : JSON)
    (hk : namesField proxyBlock.fields "transactions" k = true)
    (hv : v.isMixedArray = true) :
    failsDecoding (proxyBlockWithoutTransactions.setField st saved (unquote k) v) := by
  obtain ⟨items, text, ms, rfl, _, ho⟩ := isMixedArray_spec v hv
  have hl : lookupField proxyBlock.fields (unquote k) = some "transactions" := by
    simpa [namesField] using hk
  unfold proxyBlockWithoutTransactions.setField
  rw [hl]
  refine failsDecoding_map _ _ (fun _ => rfl) ?_
  exact decodeSlice_fails _ _ decodeString_keeps _ items _ ho
    (fun cur saved => decodeString_object_fails cur saved ms) _ _

theorem json_result_fails {σ : Type} (d : Decoded σ) (h : failsDecoding d) :
    ∃ e, json.result d = .error e := by
  rcases hd : d with e | ⟨p, _ | e⟩
  · exact ⟨e, rfl⟩
  · exact absurd rfl (h (p, none) hd)
  · exact ⟨e, rfl⟩

/-- C9: a block payload with a member for `transactions` that is an array holding at least
one string and at least one object is rejected by `json.Unmarshal` into either block
proxy, so neither `toBlock` is ever reached with it. -/
theorem mixed_transactions_rejected (ms : List (String × JSON))
    (full : proxyBlockWithTransactions) (hashOnly : proxyBlockWithoutTransactions)
    (h : hasMixedTransactions ms = true) :
    (∃ e, unmarshalProxyBlockWithTransactions (JSON.object ms) full = .error e) ∧
      (∃ e, unmarshalProxyBlockWithoutTransactions (JSON.object ms) hashOnly = .error e) := by
  simp only [hasMixedTransactions, List.any_eq_true, Bool.and_eq_true] at h
  obtain ⟨m0, hm, hk, hv⟩ := h
  constructor
  · obtain ⟨e, he⟩ := json_result_fails _
      (decodeMembers_fails proxyBlockWithTransactions.setField
        proxyBlockWithTransactions_setField_keepsError ms m0 hm
        (fun p saved => withTransactions_mixed_fails p saved m0.1 m0.2 hk hv)
        { proxy := full } none)
    exact ⟨e, by simp [unmarshalProxyBlockWithTransactions, decodeStruct, he, Except.map]⟩
  · obtain ⟨e, he⟩ := json_result_fails _
      (decodeMembers_fails proxyBlockWithoutTransactions.setField
        proxyBlockWithoutTransactions_setField_keepsError ms m0 hm
        (fun p saved => withoutTransactions_mixed_fails p saved m0.1 m0.2 hk hv)
        { proxy := hashOnly } none)
    exact ⟨e, by simp [unmarshalProxyBlockWithoutTransactions, decodeStruct, he, Except.map]⟩

/-- C9, at a block whose `transactions` holds a hash and then an object. -/
theorem mixed_transactions_rejected_witness :
    hasMixedTransactions
        [("hash", JSON.string "0xabc"),
          ("transactions", JSON.array [JSON.string "0xaa", JSON.object []])] = true ∧
      (∃ e, unmarshalProxyBlockWithTransactions
        (JSON.object [("hash", JSON.string "0xabc"),
          ("transactions", JSON.array [JSON.string "0xaa", JSON.object []])]) {} =
        .error e) ∧
      (∃ e, unmarshalProxyBlockWithoutTransactions
        (JSON.object [("hash", JSON.string "0xabc"),
          ("transactions", JSON.array [JSON.string "0xaa", JSON.object []])]) {} =
        .error e) :=
  ⟨by decide, mixed_transactions_rejected _ {} {} (by decide)⟩

/-! ## Errors of the record decoders -/

theorem succeeds_of_saved {σ : Type} (d : Decoded σ) (saved : Option error)
    (hs : saved ≠ none) (hk : keepsError d saved) : succeeds d = false := by
  rcases hd : d with e | ⟨p, _ | e⟩
  · rfl
  · exact absurd rfl (hk hs (p, none) hd)
  · rfl

theorem succeeds_map {σ τ : Type} (d : Decoded σ)
    (f : σ × Option error → τ × Option error) (hf : ∀ r, (f r).2 = r.2) :
    succeeds (d.map f) = succeeds d := by
  rcases d with e | ⟨p, sv⟩
  · rfl
  · have h := hf (p, sv)
    show succeeds (Except.ok (f (p, sv))) = succeeds (Except.ok (p, sv))
    rcases hfr : f (p, sv) with ⟨q, sv2⟩
    rw [hfr] at h
    simp only at h
    subst h
    cases sv2 <;> rfl

theorem succeeds_eq_false_of_fails {σ : Type} (d : Decoded σ) (h : failsDecoding d) :
    succeeds d = false := by
  rcases hd : d with e | ⟨p, _ | e⟩
  · rfl
  · exact absurd rfl (h (p, none) hd)
  · rfl

theorem json_result_ok_iff {σ : Type} (d : Decoded σ) :
    (∃ p, json.result d = .ok p) ↔ succeeds d = true := by
  rcases d with e | ⟨p, _ | e⟩ <;> simp [json.result, succeeds]

theorem json_result_error_iff {σ : Type} (d : Decoded σ) :
    (∃ e, json.result d = .error e) ↔ succeeds d = false := by
  rcases d with e | ⟨p, _ | e⟩ <;> simp [json.result, succeeds]

/-- An object decodes without error exactly when each of its members decodes on its own,
provided a member's outcome does not depend on what the struct holds. -/
theorem decodeMembers_succeeds {σ : Type}
    (setField : σ → Option error → String → JSON → Decoded σ)
    (hkeeps : ∀ p saved k v, keepsError (setField p saved k v) saved)
    (hind : ∀ p q k v, succeeds (setField p none k v) = succeeds (setField q none k v))
    (p0 : σ) (ms : List (String × JSON)) (p : σ) :
    succeeds (decodeMembers setField ms p none) =
      ms.all (fun m => succeeds (setField p0 none (unquote m.1) m.2)) := by
  induction ms generalizing p with
  | nil => rfl
  | cons m ms ih =>
    obtain ⟨k, v⟩ := m
    rw [decodeMembers, List.all_cons, ← hind p p0]
    rcases h : setField p none (unquote k) v with e | ⟨p1, _ | e⟩
    · rfl
    · simpa [succeeds] using ih p1
    · have := succeeds_of_saved _ (some e) (by simp)
        (decodeMembers_keeps setField hkeeps ms p1 (some e))
      simpa [succeeds] using this

theorem decodeBool_keeps (cur : Bool) (saved : Option error) (v : JSON) :
    keepsError (decodeBool cur saved v) saved := by
  intro hs r hr
  cases v <;> simp only [decodeBool, Except.ok.injEq] at hr <;> subst hr <;>
    first
      | exact hs
      | exact saveError_ne_none _ _

theorem decodeLog_keeps (cur : Log) (saved : Option error) (v : JSON) :
    keepsError (decodeLog cur saved v) saved := by
  intro hs r hr
  unfold decodeLog at hr
  rcases hu : Log.UnmarshalJSON cur v with ⟨l, _ | e⟩
  · rw [hu] at hr
    simp only [Except.ok.injEq] at hr
    subst hr
    exact hs
  · rw [hu] at hr
    simp at hr

theorem proxyLog_setField_keepsError (st : LogState) (saved : Option error) (key : String)
    (v : JSON) : keepsError (proxyLog.setField st saved key v) saved := by
  unfold proxyLog.setField
  cases hl : lookupField proxyLog.fields key with
  | none =>
    intro hs r hr
    simp only [Except.ok.injEq] at hr
    subst hr
    exact hs
  | some f =>
    have hf := lookupField_mem _ _ _ hl
    simp only [proxyLog.fields, List.mem_cons, List.mem_singleton, List.not_mem_nil,
      or_false] at hf
    rcases hf with rfl | rfl | rfl | rfl | rfl | rfl | rfl | rfl | rfl <;>
      refine keepsError_map _ _ _ (fun _ => rfl) ?_ <;>
      first
        | exact decodeString_keeps _ _ _
        | exact decodeHexInt_keeps _ _ _
        | exact decodeBool_keeps _ _ _
        | exact decodeSlice_keeps _ _ decodeString_keeps _ _ _ _

theorem proxyTransactionReceipt_setField_keepsError (st : ReceiptState)
    (saved : Option error) (key : String) (v : JSON) :
    keepsError (proxyTransactionReceipt.setField st saved key v) saved := by
  unfold proxyTransactionReceipt.setField
  cases hl : lookupField proxyTransactionReceipt.fields key with
  | none =>
    intro hs r hr
    simp only [Except.ok.injEq] at hr
    subst hr
    exact hs
  | some f =>
    have hf := lookupField_mem _ _ _ hl
    simp only [proxyTransactionReceipt.fields, List.mem_cons, List.mem_singleton,
      List.not_mem_nil, or_false] at hf
    rcases hf with rfl | rfl | rfl | rfl | rfl | rfl | rfl | rfl | rfl | rfl | rfl <;>
      refine keepsError_map _ _ _ (fun _ => rfl) ?_ <;>
      first
        | exact decodeString_keeps _ _ _
        | exact decodeHexInt_keeps _ _ _
        | exact decodeSlice_keeps _ _ decodeLog_keeps _ _ _ _



theorem decodeString_indep (cur cur2 : String) (v : JSON) :
    succeeds (decodeString cur none v) = succeeds (decodeString cur2 none v) := by
  cases v <;> rfl

theorem decodeBool_indep (cur cur2 : Bool) (v : JSON) :
    succeeds (decodeBool cur none v) = succeeds (decodeBool cur2 none v) := by
  cases v <;> rfl

theorem decodeHexInt_indep (cur cur2 : hexInt) (v : JSON) :
    succeeds (decodeHexInt cur none v) = succeeds (decodeHexInt cur2 none v) := rfl

theorem decodeHexBig_indep (cur cur2 : hexBig) (v : JSON) :
    succeeds (decodeHexBig cur none v) = succeeds (decodeHexBig cur2 none v) := rfl

theorem decodeHexIntPtr_indep (cur cur2 : Option hexInt) (v : JSON) :
    succeeds (decodeHexIntPtr cur none v) = succeeds (decodeHexIntPtr cur2 none v) := by
  cases v <;> rfl

theorem decodeLog_indep (cur cur2 : Log) (v : JSON) :
    succeeds (decodeLog cur none v) = succeeds (decodeLog cur2 none v) := by
  unfold decodeLog Log.UnmarshalJSON
  cases unmarshalProxyLog v {} <;> rfl

theorem decodeElems_cons_succeeds {α : Type} (elem : α → Option error → JSON → Decoded α)
    (hkeeps : ∀ cur saved x, keepsError (elem cur saved x) saved) (zero : α)
    (x : JSON) (xs : List JSON) (store : List α) :
    succeeds (decodeElems elem zero (x :: xs) store none) =
      (succeeds (elem (store.headD zero) none x) &&
        succeeds (decodeElems elem zero xs store.tail none)) := by
  rw [decodeElems]
  generalize store.headD zero = c
  rcases h1 : elem c none x with e | ⟨a, _ | e⟩
  · rfl
  · rcases hq : decodeElems elem zero xs store.tail none with e3 | ⟨as, _ | e3⟩ <;>
      simp [hq, succeeds]
  · have hk := succeeds_of_saved _ (some e) (by simp)
      (decodeElems_keeps elem hkeeps zero xs store.tail (some e))
    rcases hq : decodeElems elem zero xs store.tail (some e) with e2 | ⟨as, _ | e2⟩
    · simp [hq, succeeds]
    · rw [hq] at hk; simp [succeeds] at hk
    · simp [hq, succeeds]

theorem decodeElems_indep {α : Type} (elem : α → Option error → JSON → Decoded α)
    (hkeeps : ∀ cur saved x, keepsError (elem cur saved x) saved)
    (hind : ∀ c c2 x, succeeds (elem c none x) = succeeds (elem c2 none x)) (zero : α)
    (items : List JSON) (store store2 : List α) :
    succeeds (decodeElems elem zero items store none) =
      succeeds (decodeElems elem zero items store2 none) := by
  induction items generalizing store store2 with
  | nil => rfl
  | cons x xs ih =>
    rw [decodeElems_cons_succeeds elem hkeeps, decodeElems_cons_succeeds elem hkeeps,
      hind (store.headD zero) (store2.headD zero) x, ih store.tail store2.tail]

theorem decodeSlice_indep {α : Type} (goType : String)
    (elem : α → Option error → JSON → Decoded α)
    (hkeeps : ∀ cur saved x, keepsError (elem cur saved x) saved)
    (hind : ∀ c c2 x, succeeds (elem c none x) = succeeds (elem c2 none x)) (zero : α)
    (cur cur2 : Slots α) (v : JSON) :
    succeeds (decodeSlice goType elem zero cur none v) =
      succeeds (decodeSlice goType elem zero cur2 none v) := by
  cases v with
  | array items =>
    cases items with
    | nil => rfl
    | cons x xs =>
      have h := decodeElems_indep elem hkeeps hind zero (x :: xs)
        (cur.elems ++ cur.spare) (cur2.elems ++ cur2.spare)
      simp only [decodeSlice]
      rcases hq : decodeElems elem zero (x :: xs) (cur.elems ++ cur.spare) none with
          e3 | ⟨as, _ | e3⟩ <;>
        rcases hq2 : decodeElems elem zero (x :: xs) (cur2.elems ++ cur2.spare) none with
          e4 | ⟨as2, _ | e4⟩ <;>
        rw [hq, hq2] at h <;> simp [succeeds] at h ⊢
  | _ => rfl

theorem succeeds_map_congr {σ σ2 τ τ2 : Type} (d : Decoded σ) (d2 : Decoded σ2)
    (f : σ × Option error → τ × Option error) (f2 : σ2 × Option error → τ2 × Option error)
    (hf : ∀ r, (f r).2 = r.2) (hf2 : ∀ r, (f2 r).2 = r.2)
    (h : succeeds d = succeeds d2) : succeeds (d.map f) = succeeds (d2.map f2) := by
  rw [succeeds_map d f hf, succeeds_map d2 f2 hf2, h]

theorem proxyTransaction_setField_indep (p q : proxyTransaction) (key : String) (v : JSON) :
    succeeds (proxyTransaction.setField p none key v) =
      succeeds (proxyTransaction.setField q none key v) := by
  unfold proxyTransaction.setField
  cases hl : lookupField proxyTransaction.fields key with
  | none => rfl
  | some f =>
    have hf := lookupField_mem _ _ _ hl
    simp only [proxyTransaction.fields, List.mem_cons, List.mem_singleton, List.not_mem_nil,
      or_false] at hf
    rcases hf with rfl | rfl | rfl | rfl | rfl | rfl | rfl | rfl | rfl | rfl | rfl <;>
      refine succeeds_map_congr _ _ _ _ (fun _ => rfl) (fun _ => rfl) ?_ <;>
      first
        | exact decodeString_indep _ _ _
        | exact decodeHexInt_indep _ _ _
        | exact decodeHexBig_indep _ _ _
        | exact decodeHexIntPtr_indep _ _ _

theorem proxyLog_setField_indep (p q : LogState) (key : String) (v : JSON) :
    succeeds (proxyLog.setField p none key v) = succeeds (proxyLog.setField q none key v) := by
  unfold proxyLog.setField
  cases hl : lookupField proxyLog.fields key with
  | none => rfl
  | some f =>
    have hf := lookupField_mem _ _ _ hl
    simp only [proxyLog.fields, List.mem_cons, List.mem_singleton, List.not_mem_nil,
      or_false] at hf
    rcases hf with rfl | rfl | rfl | rfl | rfl | rfl | rfl | rfl | rfl <;>
      refine succeeds_map_congr _ _ _ _ (fun _ => rfl) (fun _ => rfl) ?_ <;>
      first
        | exact decodeString_indep _ _ _
        | exact decodeHexInt_indep _ _ _
        | exact decodeBool_indep _ _ _
        | exact decodeSlice_indep _ _ decodeString_keeps decodeString_indep _ _ _ _

theorem proxyTransactionReceipt_setField_indep (p q : ReceiptState) (key : String)
    (v : JSON) :
    succeeds (proxyTransactionReceipt.setField p none key v) =
      succeeds (proxyTransactionReceipt.setField q none key v) := by
  unfold proxyTransactionReceipt.setField
  cases hl : lookupField proxyTransactionReceipt.fields key with
  | none => rfl
  | some f =>
    have hf := lookupField_mem _ _ _ hl
    simp only [proxyTransactionReceipt.fields, List.mem_cons, List.mem_singleton,
      List.not_mem_nil, or_false] at hf
    rcases hf with rfl | rfl | rfl | rfl | rfl | rfl | rfl | rfl | rfl | rfl | rfl <;>
      refine succeeds_map_congr _ _ _ _ (fun _ => rfl) (fun _ => rfl) ?_ <;>
      first
        | exact decodeString_indep _ _ _
        | exact decodeHexInt_indep _ _ _
        | exact decodeSlice_indep _ _ decodeLog_keeps decodeLog_indep _ _ _ _
theorem any_not_eq_true_iff {α : Type} (l : List α) (f : α → Bool) :
    l.any (fun m => !f m) = true ↔ l.all f = false := by
  induction l with
  | nil => simp
  | cons a l ih =>
    simp only [List.any_cons, List.all_cons, Bool.or_eq_true, Bool.and_eq_false_iff, ih,
      Bool.not_eq_true']

theorem Transaction_UnmarshalJSON_error_iff (t : Transaction) (ms : List (String × JSON)) :
    (Transaction.UnmarshalJSON t (JSON.object ms)).2 ≠ none ↔
      ms.any proxyTransaction.memberFails = true := by
  have hs := decodeMembers_succeeds proxyTransaction.setField
    proxyTransaction_setField_keepsError proxyTransaction_setField_indep {} ms {}
  unfold proxyTransaction.memberFails
  rw [any_not_eq_true_iff, ← hs]
  unfold Transaction.UnmarshalJSON unmarshalProxyTransaction decodeProxyTransaction
    decodeStruct
  simp only []
  rcases decodeMembers proxyTransaction.setField ms {} none with e | ⟨p, _ | e⟩ <;>
    simp [json.result, succeeds]

theorem Log_UnmarshalJSON_error_iff (log : Log) (ms : List (String × JSON)) :
    (Log.UnmarshalJSON log (JSON.object ms)).2 ≠ none ↔
      ms.any proxyLog.memberFails = true := by
  have hs := decodeMembers_succeeds proxyLog.setField
    proxyLog_setField_keepsError proxyLog_setField_indep {} ms {}
  unfold proxyLog.memberFails
  rw [any_not_eq_true_iff, ← hs]
  unfold Log.UnmarshalJSON unmarshalProxyLog decodeStruct
  simp only []
  rcases decodeMembers proxyLog.setField ms {} none with e | ⟨p, _ | e⟩ <;>
    simp [json.result, succeeds, Except.map]

theorem TransactionReceipt_UnmarshalJSON_error_iff (r : TransactionReceipt)
    (ms : List (String × JSON)) :
    (TransactionReceipt.UnmarshalJSON r (JSON.object ms)).2 ≠ none ↔
      ms.any proxyTransactionReceipt.memberFails = true := by
  have hs := decodeMembers_succeeds proxyTransactionReceipt.setField
    proxyTransactionReceipt_setField_keepsError proxyTransactionReceipt_setField_indep {} ms {}
  unfold proxyTransactionReceipt.memberFails
  rw [any_not_eq_true_iff, ← hs]
  unfold TransactionReceipt.UnmarshalJSON unmarshalProxyTransactionReceipt decodeStruct
  simp only []
  rcases decodeMembers proxyTransactionReceipt.setField ms {} none with e | ⟨p, _ | e⟩ <;>
    simp [json.result, succeeds, Except.map]
theorem decodeHexInt_rejected (cur : hexInt) (saved : Option error) (v : JSON)
    (h : rejectedByHexInt v = true) : failsDecoding (decodeHexInt cur saved v) := by
  intro r hr
  rw [decodeHexInt_eq] at hr
  unfold rejectedByHexInt at h
  rcases hu : hexInt.UnmarshalJSON 0 v.bytes with ⟨i, _ | e⟩
  · rw [hu] at h; simp at h
  · rw [hu] at hr; simp at hr

theorem decodeHexBig_rejected (cur : hexBig) (saved : Option error) (v : JSON)
    (h : rejectedByHexBig v = true) : failsDecoding (decodeHexBig cur saved v) := by
  intro r hr
  have hr2 : (match hexBig.UnmarshalJSON 0 v.bytes with
      | (i, none) => (Except.ok (i, saved) : Decoded hexBig)
      | (_, some err) => .error err) = .ok r := hr
  unfold rejectedByHexBig at h
  rcases hu : hexBig.UnmarshalJSON 0 v.bytes with ⟨i, _ | e⟩
  · rw [hu] at h; simp at h
  · rw [hu] at hr2; simp at hr2

theorem decodeHexIntPtr_eq (cur : Option hexInt) (saved : Option error) (v : JSON)
    (hn : v.isNull = false) :
    decodeHexIntPtr cur saved v =
      match hexInt.UnmarshalJSON 0 v.bytes with
      | (i, none) => .ok (some i, saved)
      | (_, some err) => .error err := by
  cases v with
  | null => simp [JSON.isNull] at hn
  | _ => rfl

theorem decodeHexIntPtr_rejected (cur : Option hexInt) (saved : Option error) (v : JSON)
    (hn : v.isNull = false) (h : rejectedByHexInt v = true) :
    failsDecoding (decodeHexIntPtr cur saved v) := by
  intro r hr
  rw [decodeHexIntPtr_eq cur saved v hn] at hr
  unfold rejectedByHexInt at h
  rcases hu : hexInt.UnmarshalJSON 0 v.bytes with ⟨i, _ | e⟩
  · rw [hu] at h; simp at h
  · rw [hu] at hr; simp at hr

theorem proxyTransaction_malformed_fails (m : String × JSON)
    (h : proxyTransaction.malformed m = true) (p : proxyTransaction) (saved : Option error) :
    failsDecoding (proxyTransaction.setField p saved (unquote m.1) m.2) := by
  unfold proxyTransaction.malformed malformedHexMember at h
  unfold proxyTransaction.setField
  cases hl : lookupField proxyTransaction.fields (unquote m.1) with
  | none => rw [hl] at h; simp at h
  | some f =>
    rw [hl] at h
    simp only [List.contains_cons, List.contains_nil, Bool.or_false, Bool.or_eq_true,
      Bool.and_eq_true, beq_iff_eq, Bool.not_eq_true'] at h
    rcases h with (⟨rfl | rfl, hr⟩ | ⟨rfl | rfl, hr⟩) | ⟨⟨rfl | rfl, hn⟩, hr⟩ <;>
      refine failsDecoding_map _ _ (fun _ => rfl) ?_ <;>
      first
        | exact decodeHexInt_rejected _ _ _ hr
        | exact decodeHexBig_rejected _ _ _ hr
        | exact decodeHexIntPtr_rejected _ _ _ hn hr

theorem proxyLog_malformed_fails (m : String × JSON)
    (h : proxyLog.malformed m = true) (p : LogState) (saved : Option error) :
    failsDecoding (proxyLog.setField p saved (unquote m.1) m.2) := by
  unfold proxyLog.malformed malformedHexMember at h
  unfold proxyLog.setField
  cases hl : lookupField proxyLog.fields (unquote m.1) with
  | none => rw [hl] at h; simp at h
  | some f =>
    rw [hl] at h
    simp only [List.contains_cons, List.contains_nil, Bool.or_false, Bool.or_eq_true,
      Bool.and_eq_true, beq_iff_eq, Bool.false_and, Bool.false_eq_true, or_false] at h
    rcases h with ⟨rfl | rfl | rfl, hr⟩ <;>
      refine failsDecoding_map _ _ (fun _ => rfl) ?_ <;>
      exact decodeHexInt_rejected _ _ _ hr

theorem proxyTransactionReceipt_malformed_fails (m : String × JSON)
    (h : proxyTransactionReceipt.malformed m = true) (p : ReceiptState)
    (saved : Option error) :
    failsDecoding (proxyTransactionReceipt.setField p saved (unquote m.1) m.2) := by
  unfold proxyTransactionReceipt.malformed malformedHexMember at h
  unfold proxyTransactionReceipt.setField
  cases hl : lookupField proxyTransactionReceipt.fields (unquote m.1) with
  | none => rw [hl] at h; simp at h
  | some f =>
    rw [hl] at h
    simp only [List.contains_cons, List.contains_nil, Bool.or_false, Bool.or_eq_true,
      Bool.and_eq_true, beq_iff_eq, Bool.false_and, Bool.false_eq_true, or_false] at h
    rcases h with ⟨rfl | rfl | rfl | rfl, hr⟩ <;>
      refine failsDecoding_map _ _ (fun _ => rfl) ?_ <;>
      exact decodeHexInt_rejected _ _ _ hr

theorem decodeLog_fails (x : JSON) (h : (Log.UnmarshalJSON {} x).2.isSome = true)
    (cur : Log) (saved : Option error) : failsDecoding (decodeLog cur saved x) := by
  intro r hr
  unfold decodeLog at hr
  unfold Log.UnmarshalJSON at h hr
  rcases hu : unmarshalProxyLog x {} with e | p
  · rw [hu] at hr; simp at hr
  · rw [hu] at h; simp at h

theorem proxyTransactionReceipt_failingLogs_fails (m : String × JSON)
    (h : proxyTransactionReceipt.failingLogs m = true) (p : ReceiptState)
    (saved : Option error) :
    failsDecoding (proxyTransactionReceipt.setField p saved (unquote m.1) m.2) := by
  obtain ⟨k, v⟩ := m
  unfold proxyTransactionReceipt.failingLogs at h
  rw [Bool.and_eq_true] at h
  obtain ⟨hk, hv⟩ := h
  have hl : lookupField proxyTransactionReceipt.fields (unquote k) = some "logs" := by
    simpa [namesField] using hk
  cases v with
  | array items =>
    simp only [List.any_eq_true] at hv
    obtain ⟨x, hx, hbad⟩ := hv
    unfold proxyTransactionReceipt.setField
    simp only []
    rw [hl]
    refine failsDecoding_map _ _ (fun _ => rfl) ?_
    exact decodeSlice_fails _ _ decodeLog_keeps _ items x hx
      (fun cur saved => decodeLog_fails x hbad cur saved) _ _
  | _ => simp at hv

theorem Transaction_UnmarshalJSON_of_fails (t : Transaction) (ms : List (String × JSON))
    (m0 : String × JSON) (hm : m0 ∈ ms)
    (hbad : ∀ p saved, failsDecoding (proxyTransaction.setField p saved (unquote m0.1) m0.2)) :
    ∃ e, Transaction.UnmarshalJSON t (JSON.object ms) = (t, some e) := by
  obtain ⟨e, he⟩ := json_result_fails _
    (decodeMembers_fails proxyTransaction.setField proxyTransaction_setField_keepsError
      ms m0 hm hbad {} none)
  exact ⟨e, by
    simp [Transaction.UnmarshalJSON, unmarshalProxyTransaction, decodeProxyTransaction,
      decodeStruct, he]⟩

theorem Log_UnmarshalJSON_of_fails (log : Log) (ms : List (String × JSON))
    (m0 : String × JSON) (hm : m0 ∈ ms)
    (hbad : ∀ p saved, failsDecoding (proxyLog.setField p saved (unquote m0.1) m0.2)) :
    ∃ e, Log.UnmarshalJSON log (JSON.object ms) = (log, some e) := by
  obtain ⟨e, he⟩ := json_result_fails _
    (decodeMembers_fails proxyLog.setField proxyLog_setField_keepsError
      ms m0 hm hbad {} none)
  exact ⟨e, by simp [Log.UnmarshalJSON, unmarshalProxyLog, decodeStruct, he, Except.map]⟩

theorem TransactionReceipt_UnmarshalJSON_of_fails (r : TransactionReceipt)
    (ms : List (String × JSON)) (m0 : String × JSON) (hm : m0 ∈ ms)
    (hbad : ∀ p saved,
      failsDecoding (proxyTransactionReceipt.setField p saved (unquote m0.1) m0.2)) :
    ∃ e, TransactionReceipt.UnmarshalJSON r (JSON.object ms) = (r, some e) := by
  obtain ⟨e, he⟩ := json_result_fails _
    (decodeMembers_fails proxyTransactionReceipt.setField
      proxyTransactionReceipt_setField_keepsError ms m0 hm hbad {} none)
  exact ⟨e, by
    simp [TransactionReceipt.UnmarshalJSON, unmarshalProxyTransactionReceipt, decodeStruct,
      he, Except.map]⟩

/-- C11: for `Syncing`, `Transaction`, `Log` and `TransactionReceipt`: when
`json.Unmarshal` into the proxy returns an error, `UnmarshalJSON` returns that error and
the receiver is as before, so an error never comes with a changed record; and the proxy
decoding does fail on a member that holds a malformed hex numeral and, for a receipt, on a
`logs` array with an element that `Log.UnmarshalJSON` rejects. -/
theorem UnmarshalJSON_error_keeps_receiver (data : JSON) (ms : List (String × JSON))
    (s : Syncing) (t : Transaction) (log : Log) (r : TransactionReceipt) :
    ((∀ e, unmarshalProxySyncing data {} = .error e →
        Syncing.UnmarshalJSON s data = (s, some e)) ∧
      (∀ e, unmarshalProxyTransaction data {} = .error e →
        Transaction.UnmarshalJSON t data = (t, some e)) ∧
      (∀ e, unmarshalProxyLog data {} = .error e →
        Log.UnmarshalJSON log data = (log, some e)) ∧
      (∀ e, unmarshalProxyTransactionReceipt data {} = .error e →
        TransactionReceipt.UnmarshalJSON r data = (r, some e))) ∧
    (((Syncing.UnmarshalJSON s data).2 ≠ none → (Syncing.UnmarshalJSON s data).1 = s) ∧
      ((Transaction.UnmarshalJSON t data).2 ≠ none →
        (Transaction.UnmarshalJSON t data).1 = t) ∧
      ((Log.UnmarshalJSON log data).2 ≠ none → (Log.UnmarshalJSON log data).1 = log) ∧
      ((TransactionReceipt.UnmarshalJSON r data).2 ≠ none →
        (TransactionReceipt.UnmarshalJSON r data).1 = r)) ∧
    ((ms.any (fun m => (lookupField proxySyncing.fields (unquote m.1)).isSome &&
          rejectedByHexInt m.2) = true →
        ∃ e, Syncing.UnmarshalJSON s (JSON.object ms) = (s, some e)) ∧
      (ms.any proxyTransaction.malformed = true →
        ∃ e, Transaction.UnmarshalJSON t (JSON.object ms) = (t, some e)) ∧
      (ms.any proxyLog.malformed = true →
        ∃ e, Log.UnmarshalJSON log (JSON.object ms) = (log, some e)) ∧
      (ms.any proxyTransactionReceipt.malformed = true →
        ∃ e, TransactionReceipt.UnmarshalJSON r (JSON.object ms) = (r, some e)) ∧
      (ms.any proxyTransactionReceipt.failingLogs = true →
        ∃ e, TransactionReceipt.UnmarshalJSON r (JSON.object ms) = (r, some e))) := by
  refine ⟨⟨?_, ?_, ?_, ?_⟩, ⟨?_, ?_, ?_, ?_⟩, ⟨?_, ?_, ?_, ?_, ?_⟩⟩
  · intro e he
    simp [Syncing.UnmarshalJSON, he]
  · intro e he
    simp [Transaction.UnmarshalJSON, he]
  · intro e he
    simp [Log.UnmarshalJSON, he]
  · intro e he
    simp [TransactionReceipt.UnmarshalJSON, he]
  · unfold Syncing.UnmarshalJSON
    cases unmarshalProxySyncing data {} <;> simp
  · unfold Transaction.UnmarshalJSON
    cases unmarshalProxyTransaction data {} <;> simp
  · unfold Log.UnmarshalJSON
    cases unmarshalProxyLog data {} <;> simp
  · unfold TransactionReceipt.UnmarshalJSON
    cases unmarshalProxyTransactionReceipt data {} <;> simp
  · intro h
    obtain ⟨e, he⟩ := (decodeMembers_proxySyncing_cases ms {}).1 h
    exact ⟨e, by
      simp [Syncing.UnmarshalJSON, unmarshalProxySyncing, decodeStruct, json.result, he]⟩
  · intro h
    obtain ⟨m0, hm, hb⟩ := List.any_eq_true.1 h
    exact Transaction_UnmarshalJSON_of_fails t ms m0 hm
      (proxyTransaction_malformed_fails m0 hb)
  · intro h
    obtain ⟨m0, hm, hb⟩ := List.any_eq_true.1 h
    exact Log_UnmarshalJSON_of_fails log ms m0 hm (proxyLog_malformed_fails m0 hb)
  · intro h
    obtain ⟨m0, hm, hb⟩ := List.any_eq_true.1 h
    exact TransactionReceipt_UnmarshalJSON_of_fails r ms m0 hm
      (proxyTransactionReceipt_malformed_fails m0 hb)
  · intro h
    obtain ⟨m0, hm, hb⟩ := List.any_eq_true.1 h
    exact TransactionReceipt_UnmarshalJSON_of_fails r ms m0 hm
      (proxyTransactionReceipt_failingLogs_fails m0 hb)

/-- C11, at a receipt whose second log has a malformed `logIndex`, decoded into a receipt
that already holds data: the error is `MalformedHex` and the receiver is untouched. -/
theorem UnmarshalJSON_error_keeps_receiver_witness :
    [("gasUsed", JSON.string "0x5208"),
        ("logs", JSON.array [JSON.object [("logIndex", JSON.string "0x1")],
          JSON.object [("logIndex", JSON.string "1")]])].any
        proxyTransactionReceipt.failingLogs = true ∧
      TransactionReceipt.UnmarshalJSON { TransactionHash := "0xold", GasUsed := 3 }
          (JSON.object [("gasUsed", JSON.string "0x5208"),
            ("logs", JSON.array [JSON.object [("logIndex", JSON.string "0x1")],
              JSON.object [("logIndex", JSON.string "1")]])]) =
        ({ TransactionHash := "0xold", GasUsed := 3 }, some error.MalformedHex) :=
  ⟨by decide,
    ((UnmarshalJSON_error_keeps_receiver
      (JSON.object [("gasUsed", JSON.string "0x5208"),
        ("logs", JSON.array [JSON.object [("logIndex", JSON.string "0x1")],
          JSON.object [("logIndex", JSON.string "1")]])]) []
      {} {} {} { TransactionHash := "0xold", GasUsed := 3 }).1.2.2.2
      error.MalformedHex (by rfl))⟩

/-- C12 as stated fails: a transaction object without `hash`, one without `nonce`, the
empty log object and a receipt object with `status` alone are decoded without an error;
the fields of the missing keys hold the zero value. -/
theorem UnmarshalJSON_accepts_missing_keys :
    Transaction.UnmarshalJSON {} (JSON.object [("nonce", JSON.string "0x1")]) =
        ({ Nonce := 1 }, none) ∧
      Transaction.UnmarshalJSON {} (JSON.object [("hash", JSON.string "0xabc")]) =
        ({ Hash := "0xabc" }, none) ∧
      Log.UnmarshalJSON {} (JSON.object []) = ({}, none) ∧
      TransactionReceipt.UnmarshalJSON {} (JSON.object [("status", JSON.string "0x1")]) =
        ({ Status := "0x1" }, none) := by
  refine ⟨by decide, by decide, by decide, by decide⟩

theorem any_of_any_remove {α : Type} (f : α → Bool) (pre post : List α) (m : α)
    (h : (pre ++ m :: post).any f = false) : (pre ++ post).any f = false := by
  simp only [List.any_append, List.any_cons, Bool.or_eq_false_iff] at h ⊢
  exact ⟨h.1, h.2.2⟩

theorem decodeMembers_frame {σ α : Type}
    (setField : σ → Option error → String → JSON → Decoded σ) (fields : List String)
    (f : String) (get : σ → α)
    (hset : ∀ p saved key v r, setField p saved key v = .ok r →
      lookupField fields key ≠ some f → get r.1 = get p)
    (ms : List (String × JSON)) (p : σ) (saved : Option error) (r : σ × Option error)
    (h : decodeMembers setField ms p saved = .ok r)
    (habs : lacksMember fields ms f = true) : get r.1 = get p := by
  induction ms generalizing p saved with
  | nil =>
    simp only [decodeMembers, Except.ok.injEq] at h
    subst h
    rfl
  | cons m ms ih =>
    obtain ⟨k, v⟩ := m
    rw [decodeMembers] at h
    simp only [lacksMember, List.any_cons, Bool.not_or, Bool.and_eq_true,
      Bool.not_eq_true', namesField, beq_eq_false_iff_ne] at habs
    cases hs : setField p saved (unquote k) v with
    | error e => simp [hs] at h
    | ok r1 =>
      rw [hs] at h
      have h1 := ih r1.1 r1.2 h (by simpa [lacksMember, namesField] using habs.2)
      exact h1.trans (hset p saved (unquote k) v r1 hs habs.1)

theorem decodeStruct_frame {σ α : Type} (goType : String)
    (setField : σ → Option error → String → JSON → Decoded σ) (fields : List String)
    (f : String) (get : σ → α)
    (hset : ∀ p saved key v r, setField p saved key v = .ok r →
      lookupField fields key ≠ some f → get r.1 = get p)
    (ms : List (String × JSON)) (p0 p : σ)
    (h : json.result (decodeStruct goType setField p0 none (JSON.object ms)) = .ok p)
    (habs : lacksMember fields ms f = true) : get p = get p0 := by
  unfold decodeStruct at h
  simp only [] at h
  cases hd : decodeMembers setField ms p0 none with
  | error e => simp [hd, json.result] at h
  | ok r =>
    obtain ⟨p1, saved1⟩ := r
    rw [hd] at h
    cases saved1 with
    | some e => simp [json.result] at h
    | none =>
      simp only [json.result, Except.ok.injEq] at h
      subst h
      exact decodeMembers_frame setField fields f get hset ms p0 none _ hd habs

theorem proxyTransaction_setField_frame (p : proxyTransaction) (saved : Option error)
    (key : String) (v : JSON) (r : proxyTransaction × Option error)
    (h : proxyTransaction.setField p saved key v = .ok r) :
    (lookupField proxyTransaction.fields key ≠ some "hash" → r.1.Hash = p.Hash) ∧
    (lookupField proxyTransaction.fields key ≠ some "nonce" → r.1.Nonce = p.Nonce) ∧
    (lookupField proxyTransaction.fields key ≠ some "blockHash" →
      r.1.BlockHash = p.BlockHash) ∧
    (lookupField proxyTransaction.fields key ≠ some "from" → r.1.From = p.From) ∧
    (lookupField proxyTransaction.fields key ≠ some "to" → r.1.To = p.To) ∧
    (lookupField proxyTransaction.fields key ≠ some "value" → r.1.Value = p.Value) ∧
    (lookupField proxyTransaction.fields key ≠ some "gas" → r.1.Gas = p.Gas) ∧
    (lookupField proxyTransaction.fields key ≠ some "gasPrice" →
      r.1.GasPrice = p.GasPrice) ∧
    (lookupField proxyTransaction.fields key ≠ some "input" → r.1.Input = p.Input) := by
  unfold proxyTransaction.setField at h
  cases hl : lookupField proxyTransaction.fields key with
  | none =>
    rw [hl] at h
    simp only [Except.ok.injEq] at h
    subst h
    exact ⟨fun _ => rfl, fun _ => rfl, fun _ => rfl, fun _ => rfl, fun _ => rfl,
      fun _ => rfl, fun _ => rfl, fun _ => rfl, fun _ => rfl⟩
  | some f =>
    have hf := lookupField_mem _ _ _ hl
    rw [hl] at h
    simp only [proxyTransaction.fields, List.mem_cons, List.mem_singleton, List.not_mem_nil,
      or_false] at hf
    rcases hf with rfl | rfl | rfl | rfl | rfl | rfl | rfl | rfl | rfl | rfl | rfl <;>
      replace h := (Except_map_eq_ok _ _ _).1 h <;> obtain ⟨a, _, ha⟩ := h <;>
      subst ha <;>
      refine ⟨fun hne => ?_, fun hne => ?_, fun hne => ?_, fun hne => ?_, fun hne => ?_,
        fun hne => ?_, fun hne => ?_, fun hne => ?_, fun hne => ?_⟩ <;>
      first
        | rfl
        | exact absurd rfl hne


theorem proxyLog_setField_frame (st : LogState) (saved : Option error)
    (key : String) (v : JSON) (r : LogState × Option error)
    (h : proxyLog.setField st saved key v = .ok r) :
    (lookupField proxyLog.fields key ≠ some "removed" →
      r.1.proxy.Removed = st.proxy.Removed) ∧
    (lookupField proxyLog.fields key ≠ some "logIndex" →
      r.1.proxy.LogIndex = st.proxy.LogIndex) ∧
    (lookupField proxyLog.fields key ≠ some "transactionIndex" →
      r.1.proxy.TransactionIndex = st.proxy.TransactionIndex) ∧
    (lookupField proxyLog.fields key ≠ some "transactionHash" →
      r.1.proxy.TransactionHash = st.proxy.TransactionHash) ∧
    (lookupField proxyLog.fields key ≠ some "blockNumber" →
      r.1.proxy.BlockNumber = st.proxy.BlockNumber) ∧
    (lookupField proxyLog.fields key ≠ some "blockHash" →
      r.1.proxy.BlockHash = st.proxy.BlockHash) ∧
    (lookupField proxyLog.fields key ≠ some "address" →
      r.1.proxy.Address = st.proxy.Address) ∧
    (lookupField proxyLog.fields key ≠ some "data" →
      r.1.proxy.Data = st.proxy.Data) ∧
    (lookupField proxyLog.fields key ≠ some "topics" →
      r.1.proxy.Topics = st.proxy.Topics) := by
  unfold proxyLog.setField at h
  simp only [] at h
  cases hl : lookupField proxyLog.fields key with
  | none =>
    rw [hl] at h
    simp only [Except.ok.injEq] at h
    subst h
    exact ⟨fun _ => rfl, fun _ => rfl, fun _ => rfl, fun _ => rfl, fun _ => rfl, fun _ => rfl, fun _ => rfl, fun _ => rfl, fun _ => rfl⟩
  | some f =>
    have hf := lookupField_mem _ _ _ hl
    rw [hl] at h
    simp only [proxyLog.fields, List.mem_cons, List.mem_singleton, List.not_mem_nil,
      or_false] at hf
    rcases hf with rfl | rfl | rfl | rfl | rfl | rfl | rfl | rfl | rfl <;>
      replace h := (Except_map_eq_ok _ _ _).1 h <;> obtain ⟨a, _, ha⟩ := h <;>
      subst ha <;>
      refine ⟨fun hne => ?_, fun hne => ?_, fun hne => ?_, fun hne => ?_, fun hne => ?_, fun hne => ?_, fun hne => ?_, fun hne => ?_, fun hne => ?_⟩ <;>
      first
        | rfl
        | exact absurd rfl hne

theorem proxyTransactionReceipt_setField_frame (st : ReceiptState) (saved : Option error)
    (key : String) (v : JSON) (r : ReceiptState × Option error)
    (h : proxyTransactionReceipt.setField st saved key v = .ok r) :
    (lookupField proxyTransactionReceipt.fields key ≠ some "transactionHash" →
      r.1.proxy.TransactionHash = st.proxy.TransactionHash) ∧
    (lookupField proxyTransactionReceipt.fields key ≠ some "transactionIndex" →
      r.1.proxy.TransactionIndex = st.proxy.TransactionIndex) ∧
    (lookupField proxyTransactionReceipt.fields key ≠ some "blockHash" →
      r.1.proxy.BlockHash = st.proxy.BlockHash) ∧
    (lookupField proxyTransactionReceipt.fields key ≠ some "blockNumber" →
      r.1.proxy.BlockNumber = st.proxy.BlockNumber) ∧
    (lookupField proxyTransactionReceipt.fields key ≠ some "cumulativeGasUsed" →
      r.1.proxy.CumulativeGasUsed = st.proxy.CumulativeGasUsed) ∧
    (lookupField proxyTransactionReceipt.fields key ≠ some "gasUsed" →
      r.1.proxy.GasUsed = st.proxy.GasUsed) ∧
    (lookupField proxyTransactionReceipt.fields key ≠ some "contractAddress" →
      r.1.proxy.ContractAddress = st.proxy.ContractAddress) ∧
    (lookupField proxyTransactionReceipt.fields key ≠ some "logs" →
      r.1.proxy.Logs = st.proxy.Logs) ∧
    (lookupField proxyTransactionReceipt.fields key ≠ some "logsBloom" →
      r.1.proxy.LogsBloom = st.proxy.LogsBloom) ∧
    (lookupField proxyTransactionReceipt.fields key ≠ some "root" →
      r.1.proxy.Root = st.proxy.Root) ∧
    (lookupField proxyTransactionReceipt.fields key ≠ some "status" →
      r.1.proxy.Status = st.proxy.Status) := by
  unfold proxyTransactionReceipt.setField at h
  simp only [] at h
  cases hl : lookupField proxyTransactionReceipt.fields key with
  | none =>
    rw [hl] at h
    simp only [Except.ok.injEq] at h
    subst h
    exact ⟨fun _ => rfl, fun _ => rfl, fun _ => rfl, fun _ => rfl, fun _ => rfl, fun _ => rfl, fun _ => rfl, fun _ => rfl, fun _ => rfl, fun _ => rfl, fun _ => rfl⟩
  | some f =>
    have hf := lookupField_mem _ _ _ hl
    rw [hl] at h
    simp only [proxyTransactionReceipt.fields, List.mem_cons, List.mem_singleton, List.not_mem_nil,
      or_false] at hf
    rcases hf with rfl | rfl | rfl | rfl | rfl | rfl | rfl | rfl | rfl | rfl | rfl <;>
      replace h := (Except_map_eq_ok _ _ _).1 h <;> obtain ⟨a, _, ha⟩ := h <;>
      subst ha <;>
      refine ⟨fun hne => ?_, fun hne => ?_, fun hne => ?_, fun hne => ?_, fun hne => ?_, fun hne => ?_, fun hne => ?_, fun hne => ?_, fun hne => ?_, fun hne => ?_, fun hne => ?_⟩ <;>
      first
        | rfl
        | exact absurd rfl hne


theorem Transaction_UnmarshalJSON_missing (t rec : Transaction) (ms : List (String × JSON))
    (h : Transaction.UnmarshalJSON t (JSON.object ms) = (rec, none)) :
    (lacksMember proxyTransaction.fields ms "hash" = true → rec.Hash = "") ∧
    (lacksMember proxyTransaction.fields ms "nonce" = true → rec.Nonce = 0) ∧
    (lacksMember proxyTransaction.fields ms "blockHash" = true → rec.BlockHash = "") ∧
    (lacksMember proxyTransaction.fields ms "from" = true → rec.From = "") ∧
    (lacksMember proxyTransaction.fields ms "to" = true → rec.To = "") ∧
    (lacksMember proxyTransaction.fields ms "value" = true → rec.Value = 0) ∧
    (lacksMember proxyTransaction.fields ms "gas" = true → rec.Gas = 0) ∧
    (lacksMember proxyTransaction.fields ms "gasPrice" = true → rec.GasPrice = 0) ∧
    (lacksMember proxyTransaction.fields ms "input" = true → rec.Input = "") := by
  unfold Transaction.UnmarshalJSON at h
  cases hu : unmarshalProxyTransaction (JSON.object ms) {} with
  | error e =>
    rw [hu] at h
    simp at h
  | ok proxy =>
    rw [hu] at h
    simp only [Prod.mk.injEq, and_true] at h
    subst h

    refine ⟨?_, ?_, ?_, ?_, ?_, ?_, ?_, ?_, ?_⟩
    · intro habs
      exact decodeStruct_frame "ethrpc.proxyTransaction" proxyTransaction.setField proxyTransaction.fields "hash"
        (fun p => p.Hash)
        (fun p saved key v r hs => (proxyTransaction_setField_frame p saved key v r hs).1)
        ms _ _ hu habs
    · intro habs
      exact decodeStruct_frame "ethrpc.proxyTransaction" proxyTransaction.setField proxyTransaction.fields "nonce"
        (fun p => p.Nonce)
        (fun p saved key v r hs => (proxyTransaction_setField_frame p saved key v r hs).2.1)
        ms _ _ hu habs
    · intro habs
      exact decodeStruct_frame "ethrpc.proxyTransaction" proxyTransaction.setField proxyTransaction.fields "blockHash"
        (fun p => p.BlockHash)
        (fun p saved key v r hs => (proxyTransaction_setField_frame p saved key v r hs).2.2.1)
        ms _ _ hu habs
    · intro habs
      exact decodeStruct_frame "ethrpc.proxyTransaction" proxyTransaction.setField proxyTransaction.fields "from"
        (fun p => p.From)
        (fun p saved key v r hs => (proxyTransaction_setField_frame p saved key v r hs).2.2.2.1)
        ms _ _ hu habs
    · intro habs
      exact decodeStruct_frame "ethrpc.proxyTransaction" proxyTransaction.setField proxyTransaction.fields "to"
        (fun p => p.To)
        (fun p saved key v r hs => (proxyTransaction_setField_frame p saved key v r hs).2.2.2.2.1)
        ms _ _ hu habs
    · intro habs
      exact decodeStruct_frame "ethrpc.proxyTransaction" proxyTransaction.setField proxyTransaction.fields "value"
        (fun p => p.Value)
        (fun p saved key v r hs => (proxyTransaction_setField_frame p saved key v r hs).2.2.2.2.2.1)
        ms _ _ hu habs
    · intro habs
      exact decodeStruct_frame "ethrpc.proxyTransaction" proxyTransaction.setField proxyTransaction.fields "gas"
        (fun p => p.Gas)
        (fun p saved key v r hs => (proxyTransaction_setField_frame p saved key v r hs).2.2.2.2.2.2.1)
        ms _ _ hu habs
    · intro habs
      exact decodeStruct_frame "ethrpc.proxyTransaction" proxyTransaction.setField proxyTransaction.fields "gasPrice"
        (fun p => p.GasPrice)
        (fun p saved key v r hs => (proxyTransaction_setField_frame p saved key v r hs).2.2.2.2.2.2.2.1)
        ms _ _ hu habs
    · intro habs
      exact decodeStruct_frame "ethrpc.proxyTransaction" proxyTransaction.setField proxyTransaction.fields "input"
        (fun p => p.Input)
        (fun p saved key v r hs => (proxyTransaction_setField_frame p saved key v r hs).2.2.2.2.2.2.2.2)
        ms _ _ hu habs

theorem Log_UnmarshalJSON_missing (log rec : Log) (ms : List (String × JSON))
    (h : Log.UnmarshalJSON log (JSON.object ms) = (rec, none)) :
    (lacksMember proxyLog.fields ms "removed" = true → rec.Removed = false) ∧
    (lacksMember proxyLog.fields ms "logIndex" = true → rec.LogIndex = 0) ∧
    (lacksMember proxyLog.fields ms "transactionIndex" = true → rec.TransactionIndex = 0) ∧
    (lacksMember proxyLog.fields ms "transactionHash" = true → rec.TransactionHash = "") ∧
    (lacksMember proxyLog.fields ms "blockNumber" = true → rec.BlockNumber = 0) ∧
    (lacksMember proxyLog.fields ms "blockHash" = true → rec.BlockHash = "") ∧
    (lacksMember proxyLog.fields ms "address" = true → rec.Address = "") ∧
    (lacksMember proxyLog.fields ms "data" = true → rec.Data = "") ∧
    (lacksMember proxyLog.fields ms "topics" = true → rec.Topics = []) := by
  unfold Log.UnmarshalJSON at h
  cases hu : unmarshalProxyLog (JSON.object ms) {} with
  | error e =>
    rw [hu] at h
    simp at h
  | ok proxy =>
    rw [hu] at h
    simp only [Prod.mk.injEq, and_true] at h
    subst h
    obtain ⟨st, hst, hp⟩ := (Except_map_eq_ok _ _ _).1 hu
    subst hp
    refine ⟨?_, ?_, ?_, ?_, ?_, ?_, ?_, ?_, ?_⟩
    · intro habs
      exact decodeStruct_frame "ethrpc.proxyLog" proxyLog.setField proxyLog.fields "removed"
        (fun st => st.proxy.Removed)
        (fun p saved key v r hs => (proxyLog_setField_frame p saved key v r hs).1)
        ms _ _ hst habs
    · intro habs
      exact decodeStruct_frame "ethrpc.proxyLog" proxyLog.setField proxyLog.fields "logIndex"
        (fun st => st.proxy.LogIndex)
        (fun p saved key v r hs => (proxyLog_setField_frame p saved key v r hs).2.1)
        ms _ _ hst habs
    · intro habs
      exact decodeStruct_frame "ethrpc.proxyLog" proxyLog.setField proxyLog.fields "transactionIndex"
        (fun st => st.proxy.TransactionIndex)
        (fun p saved key v r hs => (proxyLog_setField_frame p saved key v r hs).2.2.1)
        ms _ _ hst habs
    · intro habs
      exact decodeStruct_frame "ethrpc.proxyLog" proxyLog.setField proxyLog.fields "transactionHash"
        (fun st => st.proxy.TransactionHash)
        (fun p saved key v r hs => (proxyLog_setField_frame p saved key v r hs).2.2.2.1)
        ms _ _ hst habs
    · intro habs
      exact decodeStruct_frame "ethrpc.proxyLog" proxyLog.setField proxyLog.fields "blockNumber"
        (fun st => st.proxy.BlockNumber)
        (fun p saved key v r hs => (proxyLog_setField_frame p saved key v r hs).2.2.2.2.1)
        ms _ _ hst habs
    · intro habs
      exact decodeStruct_frame "ethrpc.proxyLog" proxyLog.setField proxyLog.fields "blockHash"
        (fun st => st.proxy.BlockHash)
        (fun p saved key v r hs => (proxyLog_setField_frame p saved key v r hs).2.2.2.2.2.1)
        ms _ _ hst habs
    · intro habs
      exact decodeStruct_frame "ethrpc.proxyLog" proxyLog.setField proxyLog.fields "address"
        (fun st => st.proxy.Address)
        (fun p saved key v r hs => (proxyLog_setField_frame p saved key v r hs).2.2.2.2.2.2.1)
        ms _ _ hst habs
    · intro habs
      exact decodeStruct_frame "ethrpc.proxyLog" proxyLog.setField proxyLog.fields "data"
        (fun st => st.proxy.Data)
        (fun p saved key v r hs => (proxyLog_setField_frame p saved key v r hs).2.2.2.2.2.2.2.1)
        ms _ _ hst habs
    · intro habs
      exact decodeStruct_frame "ethrpc.proxyLog" proxyLog.setField proxyLog.fields "topics"
        (fun st => st.proxy.Topics)
        (fun p saved key v r hs => (proxyLog_setField_frame p saved key v r hs).2.2.2.2.2.2.2.2)
        ms _ _ hst habs

theorem TransactionReceipt_UnmarshalJSON_missing (t rec : TransactionReceipt) (ms : List (String × JSON))
    (h : TransactionReceipt.UnmarshalJSON t (JSON.object ms) = (rec, none)) :
    (lacksMember proxyTransactionReceipt.fields ms "transactionHash" = true → rec.TransactionHash = "") ∧
    (lacksMember proxyTransactionReceipt.fields ms "transactionIndex" = true → rec.TransactionIndex = 0) ∧
    (lacksMember proxyTransactionReceipt.fields ms "blockHash" = true → rec.BlockHash = "") ∧
    (lacksMember proxyTransactionReceipt.fields ms "blockNumber" = true → rec.BlockNumber = 0) ∧
    (lacksMember proxyTransactionReceipt.fields ms "cumulativeGasUsed" = true → rec.CumulativeGasUsed = 0) ∧
    (lacksMember proxyTransactionReceipt.fields ms "gasUsed" = true → rec.GasUsed = 0) ∧
    (lacksMember proxyTransactionReceipt.fields ms "contractAddress" = true → rec.ContractAddress = "") ∧
    (lacksMember proxyTransactionReceipt.fields ms "logs" = true → rec.Logs = []) ∧
    (lacksMember proxyTransactionReceipt.fields ms "logsBloom" = true → rec.LogsBloom = "") ∧
    (lacksMember proxyTransactionReceipt.fields ms "root" = true → rec.Root = "") ∧
    (lacksMember proxyTransactionReceipt.fields ms "status" = true → rec.Status = "") := by
  unfold TransactionReceipt.UnmarshalJSON at h
  cases hu : unmarshalProxyTransactionReceipt (JSON.object ms) {} with
  | error e =>
    rw [hu] at h
    simp at h
  | ok proxy =>
    rw [hu] at h
    simp only [Prod.mk.injEq, and_true] at h
    subst h
    obtain ⟨st, hst, hp⟩ := (Except_map_eq_ok _ _ _).1 hu
    subst hp
    refine ⟨?_, ?_, ?_, ?_, ?_, ?_, ?_, ?_, ?_, ?_, ?_⟩
    · intro habs
      exact decodeStruct_frame "ethrpc.proxyTransactionReceipt" proxyTransactionReceipt.setField proxyTransactionReceipt.fields "transactionHash"
        (fun st => st.proxy.TransactionHash)
        (fun p saved key v r hs => (proxyTransactionReceipt_setField_frame p saved key v r hs).1)
        ms _ _ hst habs
    · intro habs
      exact decodeStruct_frame "ethrpc.proxyTransactionReceipt" proxyTransactionReceipt.setField proxyTransactionReceipt.fields "transactionIndex"
        (fun st => st.proxy.TransactionIndex)
        (fun p saved key v r hs => (proxyTransactionReceipt_setField_frame p saved key v r hs).2.1)
        ms _ _ hst habs
    · intro habs
      exact decodeStruct_frame "ethrpc.proxyTransactionReceipt" proxyTransactionReceipt.setField proxyTransactionReceipt.fields "blockHash"
        (fun st => st.proxy.BlockHash)
        (fun p saved key v r hs => (proxyTransactionReceipt_setField_frame p saved key v r hs).2.2.1)
        ms _ _ hst habs
    · intro habs
      exact decodeStruct_frame "ethrpc.proxyTransactionReceipt" proxyTransactionReceipt.setField proxyTransactionReceipt.fields "blockNumber"
        (fun st => st.proxy.BlockNumber)
        (fun p saved key v r hs => (proxyTransactionReceipt_setField_frame p saved key v r hs).2.2.2.1)
        ms _ _ hst habs
    · intro habs
      exact decodeStruct_frame "ethrpc.proxyTransactionReceipt" proxyTransactionReceipt.setField proxyTransactionReceipt.fields "cumulativeGasUsed"
        (fun st => st.proxy.CumulativeGasUsed)
        (fun p saved key v r hs => (proxyTransactionReceipt_setField_frame p saved key v r hs).2.2.2.2.1)
        ms _ _ hst habs
    · intro habs
      exact decodeStruct_frame "ethrpc.proxyTransactionReceipt" proxyTransactionReceipt.setField proxyTransactionReceipt.fields "gasUsed"
        (fun st => st.proxy.GasUsed)
        (fun p saved key v r hs => (proxyTransactionReceipt_setField_frame p saved key v r hs).2.2.2.2.2.1)
        ms _ _ hst habs
    · intro habs
      exact decodeStruct_frame "ethrpc.proxyTransactionReceipt" proxyTransactionReceipt.setField proxyTransactionReceipt.fields "contractAddress"
        (fun st => st.proxy.ContractAddress)
        (fun p saved key v r hs => (proxyTransactionReceipt_setField_frame p saved key v r hs).2.2.2.2.2.2.1)
        ms _ _ hst habs
    · intro habs
      exact decodeStruct_frame "ethrpc.proxyTransactionReceipt" proxyTransactionReceipt.setField proxyTransactionReceipt.fields "logs"
        (fun st => st.proxy.Logs)
        (fun p saved key v r hs => (proxyTransactionReceipt_setField_frame p saved key v r hs).2.2.2.2.2.2.2.1)
        ms _ _ hst habs
    · intro habs
      exact decodeStruct_frame "ethrpc.proxyTransactionReceipt" proxyTransactionReceipt.setField proxyTransactionReceipt.fields "logsBloom"
        (fun st => st.proxy.LogsBloom)
        (fun p saved key v r hs => (proxyTransactionReceipt_setField_frame p saved key v r hs).2.2.2.2.2.2.2.2.1)
        ms _ _ hst habs
    · intro habs
      exact decodeStruct_frame "ethrpc.proxyTransactionReceipt" proxyTransactionReceipt.setField proxyTransactionReceipt.fields "root"
        (fun st => st.proxy.Root)
        (fun p saved key v r hs => (proxyTransactionReceipt_setField_frame p saved key v r hs).2.2.2.2.2.2.2.2.2.1)
        ms _ _ hst habs
    · intro habs
      exact decodeStruct_frame "ethrpc.proxyTransactionReceipt" proxyTransactionReceipt.setField proxyTransactionReceipt.fields "status"
        (fun st => st.proxy.Status)
        (fun p saved key v r hs => (proxyTransactionReceipt_setField_frame p saved key v r hs).2.2.2.2.2.2.2.2.2.2)
        ms _ _ hst habs

/-- C12, amended: for a transaction, log or receipt payload that is a JSON object,
`UnmarshalJSON` returns an error exactly when some member that is present fails to decode
on its own into a fresh proxy. A missing key is never an error: when an object decodes
without error, so does the object with any one member taken out. When the object decodes
without error, whatever the receiver held, a field without a member in the object has the
zero value of its type: every field of a log and of a receipt, and the fields of a
transaction other than `BlockNumber` and `TransactionIndex`. -/
theorem UnmarshalJSON_error_iff_member_fails (ms pre post : List (String × JSON))
    (m : String × JSON) (t : Transaction) (log : Log) (r : TransactionReceipt) :
    (((Transaction.UnmarshalJSON t (JSON.object ms)).2 ≠ none ↔
        ms.any proxyTransaction.memberFails = true) ∧
      ((Log.UnmarshalJSON log (JSON.object ms)).2 ≠ none ↔
        ms.any proxyLog.memberFails = true) ∧
      ((TransactionReceipt.UnmarshalJSON r (JSON.object ms)).2 ≠ none ↔
        ms.any proxyTransactionReceipt.memberFails = true)) ∧
    (((Transaction.UnmarshalJSON t (JSON.object (pre ++ m :: post))).2 = none →
        (Transaction.UnmarshalJSON t (JSON.object (pre ++ post))).2 = none) ∧
      ((Log.UnmarshalJSON log (JSON.object (pre ++ m :: post))).2 = none →
        (Log.UnmarshalJSON log (JSON.object (pre ++ post))).2 = none) ∧
      ((TransactionReceipt.UnmarshalJSON r (JSON.object (pre ++ m :: post))).2 = none →
        (TransactionReceipt.UnmarshalJSON r (JSON.object (pre ++ post))).2 = none)) ∧
    (
      (∀ rec : Transaction, Transaction.UnmarshalJSON t (JSON.object ms) = (rec, none) →
        (lacksMember proxyTransaction.fields ms "hash" = true → rec.Hash = "") ∧
        (lacksMember proxyTransaction.fields ms "nonce" = true → rec.Nonce = 0) ∧
        (lacksMember proxyTransaction.fields ms "blockHash" = true → rec.BlockHash = "") ∧
        (lacksMember proxyTransaction.fields ms "from" = true → rec.From = "") ∧
        (lacksMember proxyTransaction.fields ms "to" = true → rec.To = "") ∧
        (lacksMember proxyTransaction.fields ms "value" = true → rec.Value = 0) ∧
        (lacksMember proxyTransaction.fields ms "gas" = true → rec.Gas = 0) ∧
        (lacksMember proxyTransaction.fields ms "gasPrice" = true → rec.GasPrice = 0) ∧
        (lacksMember proxyTransaction.fields ms "input" = true → rec.Input = "")) ∧
      (∀ rec : Log, Log.UnmarshalJSON log (JSON.object ms) = (rec, none) →
        (lacksMember proxyLog.fields ms "removed" = true → rec.Removed = false) ∧
        (lacksMember proxyLog.fields ms "logIndex" = true → rec.LogIndex = 0) ∧
        (lacksMember proxyLog.fields ms "transactionIndex" = true → rec.TransactionIndex = 0) ∧
        (lacksMember proxyLog.fields ms "transactionHash" = true → rec.TransactionHash = "") ∧
        (lacksMember proxyLog.fields ms "blockNumber" = true → rec.BlockNumber = 0) ∧
        (lacksMember proxyLog.fields ms "blockHash" = true → rec.BlockHash = "") ∧
        (lacksMember proxyLog.fields ms "address" = true → rec.Address = "") ∧
        (lacksMember proxyLog.fields ms "data" = true → rec.Data = "") ∧
        (lacksMember proxyLog.fields ms "topics" = true → rec.Topics = [])) ∧
      (∀ rec : TransactionReceipt, TransactionReceipt.UnmarshalJSON r (JSON.object ms) = (rec, none) →
        (lacksMember proxyTransactionReceipt.fields ms "transactionHash" = true → rec.TransactionHash = "") ∧
        (lacksMember proxyTransactionReceipt.fields ms "transactionIndex" = true → rec.TransactionIndex = 0) ∧
        (lacksMember proxyTransactionReceipt.fields ms "blockHash" = true → rec.BlockHash = "") ∧
        (lacksMember proxyTransactionReceipt.fields ms "blockNumber" = true → rec.BlockNumber = 0) ∧
        (lacksMember proxyTransactionReceipt.fields ms "cumulativeGasUsed" = true → rec.CumulativeGasUsed = 0) ∧
        (lacksMember proxyTransactionReceipt.fields ms "gasUsed" = true → rec.GasUsed = 0) ∧
        (lacksMember proxyTransactionReceipt.fields ms "contractAddress" = true → rec.ContractAddress = "") ∧
        (lacksMember proxyTransactionReceipt.fields ms "logs" = true → rec.Logs = []) ∧
        (lacksMember proxyTransactionReceipt.fields ms "logsBloom" = true → rec.LogsBloom = "") ∧
        (lacksMember proxyTransactionReceipt.fields ms "root" = true → rec.Root = "") ∧
        (lacksMember proxyTransactionReceipt.fields ms "status" = true → rec.Status = ""))) := by
  refine ⟨⟨Transaction_UnmarshalJSON_error_iff t ms, Log_UnmarshalJSON_error_iff log ms,
    TransactionReceipt_UnmarshalJSON_error_iff r ms⟩, ⟨?_, ?_, ?_⟩,
    ⟨fun rec h => Transaction_UnmarshalJSON_missing t rec ms h,
      fun rec h => Log_UnmarshalJSON_missing log rec ms h,
      fun rec h => TransactionReceipt_UnmarshalJSON_missing r rec ms h⟩⟩
  · intro h
    by_contra hc
    have h1 := (Transaction_UnmarshalJSON_error_iff t (pre ++ post)).1 hc
    have h2 : (pre ++ m :: post).any proxyTransaction.memberFails = false := by
      by_contra h3
      exact ((Transaction_UnmarshalJSON_error_iff t _).2 (by rwa [Bool.not_eq_false] at h3)) h
    rw [any_of_any_remove _ pre post m h2] at h1
    simp at h1
  · intro h
    by_contra hc
    have h1 := (Log_UnmarshalJSON_error_iff log (pre ++ post)).1 hc
    have h2 : (pre ++ m :: post).any proxyLog.memberFails = false := by
      by_contra h3
      exact ((Log_UnmarshalJSON_error_iff log _).2 (by rwa [Bool.not_eq_false] at h3)) h
    rw [any_of_any_remove _ pre post m h2] at h1
    simp at h1
  · intro h
    by_contra hc
    have h1 := (TransactionReceipt_UnmarshalJSON_error_iff r (pre ++ post)).1 hc
    have h2 : (pre ++ m :: post).any proxyTransactionReceipt.memberFails = false := by
      by_contra h3
      exact ((TransactionReceipt_UnmarshalJSON_error_iff r _).2 (by rwa [Bool.not_eq_false] at h3)) h
    rw [any_of_any_remove _ pre post m h2] at h1
    simp at h1

/-- C12, amended, at a transaction object from which `hash` is taken out, and at a
transaction object without `hash` decoded into a record that held a hash. -/
theorem UnmarshalJSON_error_iff_member_fails_witness :
    (Transaction.UnmarshalJSON {}
        (JSON.object ([] ++ ("hash", JSON.string "0xabc") ::
          [("nonce", JSON.string "0x1")]))).2 = none ∧
      (Transaction.UnmarshalJSON {}
        (JSON.object ([] ++ [("nonce", JSON.string "0x1")]))).2 = none ∧
      Transaction.UnmarshalJSON { Hash := "0xold", Gas := 5 }
          (JSON.object [("nonce", JSON.string "0x1")]) = ({ Nonce := 1 }, none) ∧
      lacksMember proxyTransaction.fields [("nonce", JSON.string "0x1")] "hash" = true ∧
      ({ Nonce := 1 } : Transaction).Hash = "" :=
  ⟨by decide,
    (UnmarshalJSON_error_iff_member_fails [] [] [("nonce", JSON.string "0x1")]
      ("hash", JSON.string "0xabc") {} {} {}).2.1.1 (by decide),
    by decide, by decide,
    ((UnmarshalJSON_error_iff_member_fails [("nonce", JSON.string "0x1")] [] []
      ("hash", JSON.string "0xabc") { Hash := "0xold", Gas := 5 } {} {}).2.2.1
      { Nonce := 1 } (by decide)).1 (by decide)⟩

/-! ## Hex numerals: encoding and decoding -/

theorem hexVal_digitChar (d : Nat) (h : d < 16) : hexVal (Nat.digitChar d) = some d := by
  interval_cases d <;> rfl

theorem toDigitsCore_append (fuel n : Nat) (ds : List Char) :
    Nat.toDigitsCore 16 fuel n ds = Nat.toDigitsCore 16 fuel n [] ++ ds := by
  induction fuel generalizing n ds with
  | zero => simp [Nat.toDigitsCore]
  | succ fuel ih =>
    simp only [Nat.toDigitsCore]
    split_ifs
    · simp
    · rw [ih (n / 16) (Nat.digitChar (n % 16) :: ds), ih (n / 16) [Nat.digitChar (n % 16)]]
      simp

theorem hexDigitsValue_append (l1 l2 : List Char) (acc : Nat) :
    hexDigitsValue (l1 ++ l2) acc = (hexDigitsValue l1 acc).bind (hexDigitsValue l2) := by
  induction l1 generalizing acc with
  | nil => simp [hexDigitsValue]
  | cons c cs ih =>
    simp only [List.cons_append, hexDigitsValue]
    cases hexVal c with
    | none => simp
    | some d => exact ih _

theorem hexDigitsValue_toDigitsCore (fuel n : Nat) (h : n < fuel) :
    hexDigitsValue (Nat.toDigitsCore 16 fuel n []) 0 = some n := by
  induction fuel generalizing n with
  | zero => omega
  | succ fuel ih =>
    simp only [Nat.toDigitsCore]
    split_ifs with h0
    · have hn : n < 16 := by omega
      simp [hexDigitsValue, hexVal_digitChar n hn, Nat.mod_eq_of_lt hn]
    · have hlt : n / 16 < fuel := by omega
      rw [toDigitsCore_append, hexDigitsValue_append, ih (n / 16) hlt]
      simp only [Option.some_bind, hexDigitsValue,
        hexVal_digitChar (n % 16) (Nat.mod_lt _ (by norm_num))]
      congr 1
      omega

theorem parseHex_hexNumeral (n : Nat) : parseHex (hexNumeral n).toList = some n := by
  have hv : hexDigitsValue (Nat.toDigits 16 n) 0 = some n :=
    hexDigitsValue_toDigitsCore (n + 1) n (Nat.lt_succ_self n)
  show parseHex ('0' :: 'x' :: Nat.toDigits 16 n) = some n
  cases hd : Nat.toDigits 16 n with
  | nil =>
    rw [hd] at hv
    simp only [hexDigitsValue, Option.some.injEq] at hv
    subst hv
    exact absurd hd (by decide)
  | cons d ds =>
    rw [hd] at hv
    exact hv

theorem ParseInt_hexNumeral (n : Nat) (h : n ≤ maxInt) :
    ParseInt (hexNumeral n) = (Int.ofNat n, none) := by
  unfold ParseInt
  rw [parseHex_hexNumeral]
  simp [h]

theorem hexDigitsValue_isSome (l : List Char) (acc n : Nat)
    (h : hexDigitsValue l acc = some n) : ∀ c ∈ l, (hexVal c).isSome = true := by
  induction l generalizing acc with
  | nil => simp
  | cons d ds ih =>
    intro c hc
    unfold hexDigitsValue at h
    cases hd : hexVal d with
    | none => simp [hd] at h
    | some v =>
      simp only [hd] at h
      rcases List.mem_cons.1 hc with rfl | hc
      · simp [hd]
      · exact ih _ h c hc

theorem appendChar_hex (c : Char) (h : (hexVal c).isSome = true) : appendChar c = [c] := by
  unfold hexVal at h
  unfold appendChar
  simp only at h ⊢
  split_ifs at h with h1 h2 h3
  · rw [if_neg (by omega), if_neg (by omega), if_neg (by omega), if_neg (by omega),
      if_neg (by omega), if_neg (by omega), if_neg (by omega), if_neg (by omega)]
  · rw [if_neg (by omega), if_neg (by omega), if_neg (by omega), if_neg (by omega),
      if_neg (by omega), if_neg (by omega), if_neg (by omega), if_neg (by omega)]
  · rw [if_neg (by omega), if_neg (by omega), if_neg (by omega), if_neg (by omega),
      if_neg (by omega), if_neg (by omega), if_neg (by omega), if_neg (by omega)]
  · simp at h

theorem flatMap_appendChar_hex (l : List Char) (h : ∀ c ∈ l, (hexVal c).isSome = true) :
    l.flatMap appendChar = l := by
  induction l with
  | nil => rfl
  | cons c l ih =>
    rw [List.flatMap_cons, appendChar_hex c (h c (List.mem_cons_self _ _)),
      ih (fun x hx => h x (List.mem_cons_of_mem _ hx))]
    rfl

theorem appendString_hexNumeral (n : Nat) : appendString (hexNumeral n) = hexNumeral n := by
  have hv : hexDigitsValue (Nat.toDigits 16 n) 0 = some n :=
    hexDigitsValue_toDigitsCore (n + 1) n (Nat.lt_succ_self n)
  show String.mk (('0' :: 'x' :: Nat.toDigits 16 n).flatMap appendChar) = _
  rw [List.flatMap_cons, List.flatMap_cons,
    flatMap_appendChar_hex _ (hexDigitsValue_isSome _ _ _ hv)]
  rfl

/-- C13: for an integer `v` with `0 ≤ v ≤ maxInt` (the non-negative values of a Go `int`),
`hexInt.UnmarshalJSON` on the JSON string that holds `IntToHex v`, as `T.MarshalJSON`
writes it for `gas` and `nonce`, returns no error and stores `v`. -/
theorem hexInt_roundtrip (i : hexInt) (v : Int) (h0 : 0 ≤ v) (h1 : v ≤ maxInt) :
    hexInt.UnmarshalJSON i (JSON.string (appendString (IntToHex v))).bytes = (v, none) := by
  obtain ⟨n, rfl⟩ := Int.eq_ofNat_of_zero_le h0
  have hn : n ≤ maxInt := by exact_mod_cast h1
  have h := ParseInt_hexNumeral n hn
  show hexInt.UnmarshalJSON i (JSON.string (appendString (hexNumeral n))).bytes = _
  rw [appendString_hexNumeral]
  exact hexInt_UnmarshalJSON_string i (hexNumeral n) n h

/-- C13, at `v = 21000`, the gas of the spec's example. -/
theorem hexInt_roundtrip_witness :
    (0 : Int) ≤ 21000 ∧ (21000 : Int) ≤ maxInt ∧
      hexInt.UnmarshalJSON 0 (JSON.string (appendString (IntToHex 21000))).bytes =
        (21000, none) :=
  ⟨by decide, by decide, hexInt_roundtrip 0 21000 (by decide) (by decide)⟩

/-- C14: `hexInt.UnmarshalJSON` returns the error of `ParseInt` on the text between the
quotes, whatever it is: `MalformedHex` for `"0xgg"`, `Overflow` for a numeral of 26 hex
digits; such a member makes the record's `UnmarshalJSON` return the error and leave the
record as it was, so no truncated or defaulted value reaches it. -/
theorem hexInt_UnmarshalJSON_error (i : hexInt) (data : String) :
    (hexInt.UnmarshalJSON i data).2 = (ParseInt (String.mk (trimQuotes data.toList))).2 ∧
    (hexInt.UnmarshalJSON i "\"0xgg\"").2 = some error.MalformedHex ∧
    (hexInt.UnmarshalJSON i "\"0xffffffffffffffffffffffffff\"").2 = some error.Overflow ∧
    (∀ s : Syncing,
      Syncing.UnmarshalJSON s (JSON.object [("startingBlock", JSON.string "0xgg")]) =
        (s, some error.MalformedHex)) ∧
    (∀ s : Syncing,
      Syncing.UnmarshalJSON s
          (JSON.object [("startingBlock", JSON.string "0xffffffffffffffffffffffffff")]) =
        (s, some error.Overflow)) :=
  ⟨rfl, rfl, rfl, fun _ => rfl, fun _ => rfl⟩

/-- C15: every member that `T.MarshalJSON` writes has a JSON string as its value, never
`null`, and the call returns no error for any descriptor, a nil `GasPrice` or `Value`
included (the pointer is read only under its nil test). -/
theorem T_MarshalJSON_no_null (t : T) :
    (T.MarshalJSON t).2 = none ∧
      (∀ m ∈ (T.object t).members, m.2.isString = true ∧ m.2.isNull = false) ∧
      (t.GasPrice = none → "gasPrice" ∉ (T.object t).members.map Prod.fst) ∧
      (t.Value = none → "value" ∉ (T.object t).members.map Prod.fst) := by
  refine ⟨rfl, ?_, ?_, ?_⟩
  · rintro ⟨k, v⟩ hm
    obtain ⟨w, _, rfl⟩ := (T.mem_members t k v).1 hm
    exact ⟨rfl, rfl⟩
  · intro h hmem
    obtain ⟨m, hm, hk⟩ := List.mem_map.1 hmem
    obtain ⟨k, v⟩ := m
    simp only at hk
    subst hk
    obtain ⟨w, hw, _⟩ := (T.mem_members t _ v).1 hm
    have := (T.mem_params t _ w).1 hw
    simp [h] at this
  · intro h hmem
    obtain ⟨m, hm, hk⟩ := List.mem_map.1 hmem
    obtain ⟨k, v⟩ := m
    simp only at hk
    subst hk
    obtain ⟨w, hw, _⟩ := (T.mem_members t _ v).1 hm
    have := (T.mem_params t _ w).1 hw
    simp [h] at this

/-- C15, at a descriptor without gas price: no `gasPrice` member is written. -/
theorem T_MarshalJSON_no_null_witness :
    ({ To := "0xabc" } : T).GasPrice = none ∧
      "gasPrice" ∉ (T.object { To := "0xabc" }).members.map Prod.fst :=
  ⟨rfl, (T_MarshalJSON_no_null { To := "0xabc" }).2.2.1 rfl⟩

/-! ## Filter parameters -/

theorem FilterParams.mem_marshalled (p : FilterParams) (k : String) (v : JSON) :
    (k, v) ∈ (FilterParams.object p).members ↔
      (k = "fromBlock" ∧ p.FromBlock ≠ "" ∧ v = JSON.string (appendString p.FromBlock)) ∨
      (k = "toBlock" ∧ p.ToBlock ≠ "" ∧ v = JSON.string (appendString p.ToBlock)) ∨
      (k = "address" ∧ p.Address ≠ [] ∧ v = marshalStrings p.Address) ∨
      (k = "topics" ∧ p.Topics ≠ [] ∧
        v = JSON.array (p.Topics.map marshalStringsOrNull)) := by
  obtain ⟨fb, tb, ad, tp⟩ := p
  simp only [FilterParams.object, JSON.members, List.mem_append, ne_eq, List.length_eq_zero]
  by_cases h1 : fb = "" <;> by_cases h2 : tb = "" <;> by_cases h3 : ad = [] <;>
    by_cases h4 : tp = [] <;> simp [h1, h2, h3, h4, or_assoc]

theorem marshalStringsOrNull_eq :
    marshalStringsOrNull = fun t => t.elim JSON.null
      (fun xs => JSON.array (xs.map (fun s => JSON.string (appendString s)))) := by
  funext t
  cases t <;> rfl

/-- C16: the object that `json.Marshal` writes for a `FilterParams` has the member
`fromBlock`, `toBlock`, `address`, `topics` exactly when the field is not empty, no key
twice, and each member is the JSON form of the field itself: `fromBlock` and `toBlock` are
the JSON strings of the fields, `address` is the array of the JSON strings of its elements,
`topics` is the array that has `null` for a nil element and else the array of the JSON
strings of the element's strings. A JSON string reads back as the same Go string, so a tag
such as `latest` stays as it is and nothing is turned into hex. -/
theorem FilterParams_Marshal_members (p : FilterParams) :
    FilterParams.Marshal p = ((FilterParams.object p).bytes, none) ∧
    FilterParams.object p = JSON.object (FilterParams.object p).members ∧
    (∀ (k : String) (v : JSON), (k, v) ∈ (FilterParams.object p).members ↔
      (k = "fromBlock" ∧ p.FromBlock ≠ "" ∧ v = JSON.string (appendString p.FromBlock)) ∨
      (k = "toBlock" ∧ p.ToBlock ≠ "" ∧ v = JSON.string (appendString p.ToBlock)) ∨
      (k = "address" ∧ p.Address ≠ [] ∧
        v = JSON.array (p.Address.map (fun s => JSON.string (appendString s)))) ∨
      (k = "topics" ∧ p.Topics ≠ [] ∧
        v = JSON.array (p.Topics.map (fun t => t.elim JSON.null
          (fun xs => JSON.array (xs.map (fun s => JSON.string (appendString s)))))))) ∧
    (∀ k : String, k ∈ (FilterParams.object p).members.map Prod.fst ↔
      (k = "fromBlock" ∧ p.FromBlock ≠ "") ∨ (k = "toBlock" ∧ p.ToBlock ≠ "") ∨
      (k = "address" ∧ p.Address ≠ []) ∨ (k = "topics" ∧ p.Topics ≠ [])) ∧
    ((FilterParams.object p).members.map Prod.fst).Nodup ∧
    (∀ s : String, (JSON.string (appendString s)).stringValue = some s) ∧
    appendString "latest" = "latest" ∧
    FilterParams.Marshal { FromBlock := "latest", ToBlock := "0x10", Address := ["0xabc"] } =
      ("\x7b\"fromBlock\":\"latest\",\"toBlock\":\"0x10\",\"address\":[\"0xabc\"]\x7d",
        none) ∧
    FilterParams.Marshal { Topics := [some ["0xddf2", "latest"], none, some []] } =
      ("\x7b\"topics\":[[\"0xddf2\",\"latest\"],null,[]]\x7d", none) := by
  refine ⟨rfl, rfl, ?_, ?_, ?_, ?_, by decide, by decide, by decide⟩
  · intro k v
    rw [FilterParams.mem_marshalled, marshalStringsOrNull_eq]
    rfl
  · intro k
    simp only [List.mem_map, Prod.exists, exists_and_right, exists_eq_right,
      FilterParams.mem_marshalled]
    constructor
    · rintro ⟨v, h⟩
      rcases h with ⟨h1, h2, _⟩ | ⟨h1, h2, _⟩ | ⟨h1, h2, _⟩ | ⟨h1, h2, _⟩
      · exact Or.inl ⟨h1, h2⟩
      · exact Or.inr (Or.inl ⟨h1, h2⟩)
      · exact Or.inr (Or.inr (Or.inl ⟨h1, h2⟩))
      · exact Or.inr (Or.inr (Or.inr ⟨h1, h2⟩))
    · rintro (⟨h1, h2⟩ | ⟨h1, h2⟩ | ⟨h1, h2⟩ | ⟨h1, h2⟩)
      · exact ⟨_, Or.inl ⟨h1, h2, rfl⟩⟩
      · exact ⟨_, Or.inr (Or.inl ⟨h1, h2, rfl⟩)⟩
      · exact ⟨_, Or.inr (Or.inr (Or.inl ⟨h1, h2, rfl⟩))⟩
      · exact ⟨_, Or.inr (Or.inr (Or.inr ⟨h1, h2, rfl⟩))⟩
  · obtain ⟨fb, tb, ad, tp⟩ := p
    simp only [FilterParams.object, JSON.members, ne_eq, List.length_eq_zero]
    by_cases h1 : fb = "" <;> by_cases h2 : tb = "" <;> by_cases h3 : ad = [] <;>
      by_cases h4 : tp = [] <;> simp [h1, h2, h3, h4]
  · intro s
    show some (unquote (appendString s)) = some s
    rw [unquote_appendString]

/-! ## Blocks: the shared fields; transactions: the receiver -/

/-- C17: with equal shared fields, the two `toBlock` agree on every field of the `Block`
other than `Transactions`, whatever the transaction lists are; each field is the proxy's
decoded value, and `Nonce` is the wire string as it is: a `nonce` member is decoded as a
string, not as a hex numeral, also when its text is no hex numeral. -/
theorem toBlock_shared_fields (a : proxyBlockWithTransactions)
    (b : proxyBlockWithoutTransactions) (hs : sharedFieldsEqual a b) :
    ({ a.toBlock with Transactions := [] } : Block) = { b.toBlock with Transactions := [] } ∧
    (a.toBlock.Number = a.Number ∧ a.toBlock.Size = a.Size ∧
      a.toBlock.GasLimit = a.GasLimit ∧ a.toBlock.GasUsed = a.GasUsed ∧
      a.toBlock.Timestamp = a.Timestamp) ∧
    (a.toBlock.Difficulty = a.Difficulty ∧ a.toBlock.TotalDifficulty = a.TotalDifficulty) ∧
    (a.toBlock.Hash = a.Hash ∧ a.toBlock.ParentHash = a.ParentHash ∧
      a.toBlock.Nonce = a.Nonce ∧ a.toBlock.Sha3Uncles = a.Sha3Uncles ∧
      a.toBlock.LogsBloom = a.LogsBloom ∧
      a.toBlock.TransactionsRoot = a.TransactionsRoot ∧
      a.toBlock.StateRoot = a.StateRoot ∧ a.toBlock.Miner = a.Miner ∧
      a.toBlock.ExtraData = a.ExtraData ∧ a.toBlock.Uncles = a.Uncles) ∧
    (∀ (st : WithTransactionsState) (saved : Option error) (text : String),
      proxyBlockWithTransactions.setField st saved "nonce" (JSON.string text) =
        .ok ({ st with proxy := { st.proxy with Nonce := unquote text } }, saved)) ∧
    (∀ (st : WithoutTransactionsState) (saved : Option error) (text : String),
      proxyBlockWithoutTransactions.setField st saved "nonce" (JSON.string text) =
        .ok ({ st with proxy := { st.proxy with Nonce := unquote text } }, saved)) ∧
    (unmarshalProxyBlockWithTransactions
        (JSON.object [("number", JSON.string "0x10"), ("nonce", JSON.string "zz")]) {}).map
        proxyBlockWithTransactions.toBlock = .ok { Number := 16, Nonce := "zz" } ∧
    (unmarshalProxyBlockWithoutTransactions
        (JSON.object [("number", JSON.string "0x10"), ("nonce", JSON.string "zz")]) {}).map
        proxyBlockWithoutTransactions.toBlock = .ok { Number := 16, Nonce := "zz" } := by
  have hl : lookupField proxyBlock.fields "nonce" = some "nonce" := by decide
  refine ⟨?_, ⟨rfl, rfl, rfl, rfl, rfl⟩, ⟨rfl, rfl⟩,
    ⟨rfl, rfl, rfl, rfl, rfl, rfl, rfl, rfl, rfl, rfl⟩, ?_, ?_, rfl, rfl⟩
  · obtain ⟨a1, a2, a3, a4, a5, a6, a7, a8, a9, a10, a11, a12, a13, a14, a15, a16, a17,
      a18⟩ := a
    obtain ⟨b1, b2, b3, b4, b5, b6, b7, b8, b9, b10, b11, b12, b13, b14, b15, b16, b17,
      b18⟩ := b
    obtain ⟨h1, h2, h3, h4, h5, h6, h7, h8, h9, h10, h11, h12, h13, h14, h15, h16, h17⟩ := hs
    simp only at h1 h2 h3 h4 h5 h6 h7 h8 h9 h10 h11 h12 h13 h14 h15 h16 h17
    subst h1 h2 h3 h4 h5 h6 h7 h8 h9 h10 h11 h12 h13 h14 h15 h16 h17
    rfl
  · intro st saved text
    unfold proxyBlockWithTransactions.setField
    rw [hl]
    rfl
  · intro st saved text
    unfold proxyBlockWithoutTransactions.setField
    rw [hl]
    rfl

/-- C17, at two proxies of the same block, one with a full transaction and one with its
hash. -/
theorem toBlock_shared_fields_witness :
    sharedFieldsEqual
        { Number := 16, Nonce := "0x0000000000000042", Difficulty := 1000,
          Transactions := [{ Hash := "0xaa", Gas := 21000 }] }
        { Number := 16, Nonce := "0x0000000000000042", Difficulty := 1000,
          Transactions := ["0xaa"] } ∧
      ({ ({ Number := 16, Nonce := "0x0000000000000042", Difficulty := 1000,
            Transactions := [{ Hash := "0xaa", Gas := 21000 }] } :
            proxyBlockWithTransactions).toBlock with Transactions := [] } : Block) =
        { ({ Number := 16, Nonce := "0x0000000000000042", Difficulty := 1000,
             Transactions := ["0xaa"] } : proxyBlockWithoutTransactions).toBlock with
          Transactions := [] } :=
  ⟨by decide,
    (toBlock_shared_fields
      { Number := 16, Nonce := "0x0000000000000042", Difficulty := 1000,
        Transactions := [{ Hash := "0xaa", Gas := 21000 }] }
      { Number := 16, Nonce := "0x0000000000000042", Difficulty := 1000,
        Transactions := ["0xaa"] } (by decide)).1⟩

/-- C18 fails on the code: a pending transaction (`blockNumber` and `transactionIndex`
`null`) decoded into a receiver that held a mined transaction keeps the old block number
and index, while the same payload decoded into a fresh receiver has none: the result
depends on the receiver. -/
theorem Transaction_UnmarshalJSON_stale_pointers :
    Transaction.UnmarshalJSON
        { Hash := "0xold", BlockNumber := some 7, TransactionIndex := some 1 }
        (JSON.object [("hash", JSON.string "0x1"), ("blockNumber", JSON.null),
          ("transactionIndex", JSON.null)]) =
      ({ Hash := "0x1", BlockNumber := some 7, TransactionIndex := some 1 }, none) ∧
    Transaction.UnmarshalJSON {}
        (JSON.object [("hash", JSON.string "0x1"), ("blockNumber", JSON.null),
          ("transactionIndex", JSON.null)]) =
      ({ Hash := "0x1", BlockNumber := none, TransactionIndex := none }, none) := by
  refine ⟨by decide, by decide⟩

/-! ## The call descriptor: order of the members -/

theorem ltChars_nil_right (c : List Char) : ltChars c [] = false := by
  cases c <;> rfl

theorem ltChars_le_trans (a b c : List Char) (h1 : ltChars b a = false)
    (h2 : ltChars c b = false) : ltChars c a = false := by
  induction a generalizing b c with
  | nil => exact ltChars_nil_right c
  | cons x as ih =>
    cases b with
    | nil => simp [ltChars] at h1
    | cons y bs =>
      cases c with
      | nil => simp [ltChars] at h2
      | cons z cs =>
        simp only [ltChars] at h1 h2 ⊢
        split_ifs at h1 h2 ⊢ <;> first
          | omega
          | rfl
          | exact ih bs cs h1 h2

theorem ltChars_total (a b : List Char) : ltChars b a = false ∨ ltChars a b = false := by
  induction a generalizing b with
  | nil => exact Or.inl (ltChars_nil_right b)
  | cons x as ih =>
    cases b with
    | nil => exact Or.inr (ltChars_nil_right _)
    | cons y bs =>
      simp only [ltChars]
      split_ifs <;> first
        | omega
        | simp
        | exact ih bs

theorem ltChars_antisymm (a b : List Char) (h1 : ltChars b a = false)
    (h2 : ltChars a b = false) : a = b := by
  induction a generalizing b with
  | nil =>
    cases b with
    | nil => rfl
    | cons y bs => simp [ltChars] at h2
  | cons x as ih =>
    cases b with
    | nil => simp [ltChars] at h1
    | cons y bs =>
      simp only [ltChars] at h1 h2
      split_ifs at h1 h2
      first
        | omega
        | simp at h1
        | simp at h2
        | (have hxy : x = y := Char.ext (UInt32.ext (by
              have : x.toNat = y.toNat := by omega
              exact this))
           rw [hxy, ih bs h1 h2])

theorem keyLE_sorted (ps : Params) : (ps.insertionSort keyLE).Sorted keyLE := by
  haveI : IsTotal (String × String) keyLE := ⟨fun a b => ltChars_total _ _⟩
  haveI : IsTrans (String × String) keyLE :=
    ⟨fun a b c h1 h2 => ltChars_le_trans _ _ _ h1 h2⟩
  exact List.sorted_insertionSort keyLE ps

theorem keys_strictly_sorted (ps : Params) (hn : (ps.map Prod.fst).Nodup) :
    ((ps.insertionSort keyLE).map Prod.fst).Pairwise
      (fun a b => ltChars a.toList b.toList = true) := by
  have hs := keyLE_sorted ps
  have hn' : ((ps.insertionSort keyLE).map Prod.fst).Nodup :=
    ((List.perm_insertionSort keyLE ps).map Prod.fst).nodup_iff.2 hn
  rw [List.pairwise_map]
  rw [List.Nodup, List.pairwise_map] at hn'
  refine (List.Pairwise.and hs hn').imp ?_
  rintro a b ⟨hle, hne⟩
  cases h : ltChars a.1.toList b.1.toList with
  | true => rfl
  | false =>
    have := ltChars_antisymm _ _ hle h
    exact absurd (String.ext this) hne

theorem insertionSort_perm_eq (ps qs : Params) (hp : ps.Perm qs)
    (hn : (qs.map Prod.fst).Nodup) :
    ps.insertionSort keyLE = qs.insertionSort keyLE := by
  haveI : IsAntisymm (String × String)
      (fun a b => ltChars a.1.toList b.1.toList = true) :=
    ⟨fun a b h1 h2 => by
      rcases ltChars_total a.1.toList b.1.toList with h | h
      · rw [h] at h2; exact absurd h2 (by simp)
      · rw [h] at h1; exact absurd h1 (by simp)⟩
  have hn' : (ps.map Prod.fst).Nodup := (hp.map Prod.fst).nodup_iff.2 hn
  have h1 := keys_strictly_sorted ps hn'
  have h2 := keys_strictly_sorted qs hn
  rw [List.pairwise_map] at h1 h2
  exact List.eq_of_perm_of_sorted
    (((List.perm_insertionSort keyLE ps).trans hp).trans
      (List.perm_insertionSort keyLE qs).symm) h1 h2

theorem T.keys_subset (t : T) : (T.object t).members.map Prod.fst ⊆ T.sortedKeys := by
  intro k hk
  rw [T.keys_members, ((List.perm_insertionSort keyLE _).map Prod.fst).mem_iff] at hk
  obtain ⟨e, he, rfl⟩ := List.mem_map.1 hk
  obtain ⟨k, v⟩ := e
  rcases (T.mem_params t k v).1 he with
    ⟨rfl, _⟩ | ⟨rfl, _⟩ | ⟨rfl, _⟩ | ⟨rfl, _⟩ | ⟨rfl, _⟩ | ⟨rfl, _⟩ | ⟨rfl, _⟩ <;>
    simp [T.sortedKeys]

/-- C19: `T.MarshalJSON` is a function of the descriptor, its members stand in strictly
ascending key order, as a sublist of `data, from, gas, gasPrice, nonce, to, value`, and
the bytes do not depend on the order in which the entries were put into the map. -/
theorem T_MarshalJSON_sorted (t : T) :
    (∀ t2 : T, t = t2 → T.MarshalJSON t = T.MarshalJSON t2) ∧
    T.MarshalJSON t = ((T.object t).bytes, none) ∧
    ((T.object t).members.map Prod.fst).Sublist T.sortedKeys ∧
    ((T.object t).members.map Prod.fst).Pairwise
      (fun a b => ltChars a.toList b.toList = true) ∧
    (∀ ps : Params, ps.Perm (T.params t) → json.Marshal ps = T.MarshalJSON t) := by
  have hsorted : ((T.object t).members.map Prod.fst).Pairwise
      (fun a b => ltChars a.toList b.toList = true) := by
    rw [T.keys_members]
    exact keys_strictly_sorted _ (T.nodup_params t)
  refine ⟨fun t2 h => by rw [h], rfl, ?_, hsorted, ?_⟩
  · haveI : IsAntisymm String (fun a b => ltChars a.toList b.toList = true) :=
      ⟨fun a b h1 h2 => by
        rcases ltChars_total a.toList b.toList with h | h
        · rw [h] at h2; exact absurd h2 (by simp)
        · rw [h] at h1; exact absurd h1 (by simp)⟩
    have hnodup : ((T.object t).members.map Prod.fst).Nodup := by
      rw [T.keys_members]
      exact ((List.perm_insertionSort keyLE _).map Prod.fst).nodup_iff.2 (T.nodup_params t)
    have hkeys : T.sortedKeys.Sorted (fun a b => ltChars a.toList b.toList = true) := by
      unfold T.sortedKeys List.Sorted
      decide
    exact List.sublist_of_subperm_of_sorted
      (List.subperm_of_subset hnodup (T.keys_subset t)) hsorted hkeys
  · intro ps hp
    show ((json.marshalMap ps).bytes, none) = ((json.marshalMap (T.params t)).bytes, none)
    unfold json.marshalMap
    rw [insertionSort_perm_eq ps (T.params t) hp (T.nodup_params t)]

/-- C19, at the spec's descriptor with the entries put into the map in the other order. -/
theorem T_MarshalJSON_sorted_witness :
    List.Perm [("to", "0xabc"), ("gas", "0x5208")]
        (T.params { To := "0xabc", Gas := 21000 }) ∧
      json.Marshal [("to", "0xabc"), ("gas", "0x5208")] =
        T.MarshalJSON { To := "0xabc", Gas := 21000 } :=
  ⟨by decide,
    (T_MarshalJSON_sorted { To := "0xabc", Gas := 21000 }).2.2.2.2
      [("to", "0xabc"), ("gas", "0x5208")] (by decide)⟩

end Ethrpc
